import Mathlib

/-!
# Flights loader (`main.go`): the per-row transform and the after-commit hook

A shallow embedding of the flight loop of `main` (lines 279-665) and of
`checkForErrors` (lines 69-81).

* A CSV record (`[]string`) is a `List String`; `line[i]` on a record that is too
  short is a Go run-time panic, kept apart from the logged `os.Exit(1)` exits.
* Go strings are byte sequences: `len`, slicing and the standard-library parsers
  work on the UTF-8 bytes of a field (`bytes`).
* Pointer fields of `Flight` (`*string`, `*int`) are `Option`s, `nil` being `none`.
* The Go maps `airlines` and `airports` are association lists read with
  `List.lookup`.
* The standard-library functions the loop calls (`time.Parse`, `Time.Format`,
  `strconv.ParseFloat`, `strconv.ParseBool`, `fmt.Sprintf("%.0f", _)`) are embedded
  as far as the loop uses them; the time-zone database and the wall clock are the
  parameter `Env`.
-/

namespace Flights

/-! ## Data model (lines 21-67) -/

/-- The struct `Airport`, lines 21-29. -/
structure Airport where
  IATA : String
  Name : String
  City : String
  Country : String
  Latitude : String
  Longitude : String
  Timezone : String
deriving DecidableEq, Repr

/-- The struct `Flight`, lines 31-67; a `nil` pointer is `none`. -/
structure Flight where
  Airline : String := ""
  Carrier : String := ""
  Tail : Option String := none
  Number : String := ""
  Origin : String := ""
  OriginGeo : String := ""
  OriginName : String := ""
  OriginCity : String := ""
  OriginCountry : String := ""
  Destination : String := ""
  DestinationGeo : String := ""
  DestinationName : String := ""
  DestinationCity : String := ""
  DestinationCountry : String := ""
  ScheduledDepTime : String := ""
  ActualDepTime : Option String := none
  DepDelayMin : Option Int := none
  TaxiOutMin : Option Int := none
  TaxiInMin : Option Int := none
  ScheduledArrTime : Option String := none
  ActualArrTime : Option String := none
  ArrDelayMin : Option Int := none
  Canceled : Bool := false
  CancelationReason : Option String := none
  Diverted : Bool := false
  ScheduledElapsedMin : Option Int := none
  ActualElapsedMin : Option Int := none
  AirTimeMin : Option Int := none
  FlightSegments : Int := 0
  DistanceBetweenAirportsMiles : Int := 0
  CarrierDelayMin : Option Int := none
  WeatherDelayMin : Option Int := none
  NationalAirSystemDelayMin : Option Int := none
  SecurityDelayMin : Option Int := none
  LateAircraftDelayMin : Option Int := none
deriving DecidableEq, Repr

/-- How the processing of a row can stop early: `exit msg` is the pattern
`log.Error()...Msg(msg); os.Exit(1)`, `panic` is a Go run-time panic (index or
slice bound out of range). -/
inductive Failure where
  | exit (msg : String)
  | panic
deriving DecidableEq, Repr

deriving instance DecidableEq for Except

/-- The UTF-8 bytes of a string: what Go's `len` and slicing see. -/
def bytes (s : String) : List UInt8 := s.data.flatMap String.utf8EncodeChar

/-- The index expression `line[i]` on a CSV record. -/
def index (line : List String) (i : Nat) : Except Failure String :=
  match line.get? i with
  | some s => .ok s
  | none => .error .panic

/-- The local `id` of the flight loop, lines 293-294:
`fmt.Sprintf("%s.%s.%s%s.%s.%s.%s", line[0], line[6], line[1], line[3], line[2], line[4], line[5])`. -/
def flightId (line : List String) : Except Failure String := do
  let l0 ← index line 0
  let l6 ← index line 6
  let l1 ← index line 1
  let l3 ← index line 3
  let l2 ← index line 2
  let l4 ← index line 4
  let l5 ← index line 5
  pure (l0 ++ "." ++ l6 ++ "." ++ l1 ++ l3 ++ "." ++ l2 ++ "." ++ l4 ++ "." ++ l5)

/-! ## Standard library: package `time`, as far as the loop uses it

The loop builds `isoTime` with `fmt.Sprintf("%s %s:%s %s", ...)`, parses it with the
layout `"2006-01-02 15:04 -0700 MST"` and prints the result with `time.RFC3339`. -/

/-- The zone in effect at some instant of a location: seconds east of UTC and the
abbreviation (`Time.Zone()`). -/
structure Zone where
  offset : Int
  name : String
deriving DecidableEq, Repr

/-- What the loop reads from outside the row and the two tables:
`loadLocation` is `time.LoadLocation` (`none` when it returns an error; a location
maps a Unix instant to the zone in effect then), `now` is the Unix time that
`time.Now()` returns while the row is processed. -/
structure Env where
  loadLocation : String → Option (Int → Zone)
  now : Int

/-- Decimal digit test on a byte (`isDigit` of package `time`). -/
def isDigit (c : UInt8) : Bool := 48 ≤ c.toNat && c.toNat ≤ 57

/-- Value of a decimal digit byte. -/
def digitVal (c : UInt8) : Nat := c.toNat - 48

/-- `appendInt(b, x, width)` of package `time` for `x ≥ 0`: decimal, zero-padded. -/
def appendInt (x width : Nat) : String :=
  String.mk (List.replicate (width - (Nat.repr x).length) '0') ++ Nat.repr x

/-- The layout element `-0700` of `Time.Format`. -/
def formatNumTZ (offset : Int) : String :=
  let zone := Int.tdiv offset 60
  let sign := if zone < 0 then "-" else "+"
  let z := zone.natAbs
  sign ++ appendInt (z / 60) 2 ++ appendInt (z % 60) 2

/-- The layout element `MST` of `Time.Format`: the abbreviation, or the numeric
form when the zone has none. -/
def formatTZ (z : Zone) : String :=
  if z.name ≠ "" then z.name else formatNumTZ z.offset

/-- The call `time.Now().In(loc).Format("-0700 MST")` (lines 326, 344, 385, 404),
for the zone that `loc` has at `time.Now()`. -/
def formatNow (z : Zone) : String :=
  formatNumTZ z.offset ++ " " ++ formatTZ z

/-- `getnum` of package `time`: one or two leading digits (two when `fixed`). -/
def getnum (s : List UInt8) (fixed : Bool) : Option (Nat × List UInt8) :=
  match s with
  | [] => none
  | a :: rest =>
    if isDigit a then
      match rest with
      | [] => if fixed then none else some (digitVal a, rest)
      | b :: rest2 =>
        if isDigit b then some (digitVal a * 10 + digitVal b, rest2)
        else if fixed then none else some (digitVal a, rest)
    else none

/-- `cutspace` of package `time`. -/
def cutspace : List UInt8 → List UInt8
  | [] => []
  | c :: cs => if c = 32 then cutspace cs else c :: cs

/-- `skip(value, " ")` of package `time`: a space of the layout stands for any
number of spaces of the value. -/
def skipSpace (value : List UInt8) : Option (List UInt8) :=
  match value with
  | [] => some []
  | c :: cs => if c ≠ 32 then none else some (cutspace (c :: cs))

/-- `skip(value, prefix)` for a one-byte `prefix` other than a space. -/
def skipByte (c : UInt8) (value : List UInt8) : Option (List UInt8) :=
  match value with
  | [] => none
  | d :: ds => if d = c then some ds else none

/-- `isLeap` of package `time`. -/
def isLeap (year : Nat) : Bool := year % 4 = 0 && (year % 100 ≠ 0 || year % 400 = 0)

/-- `daysIn` of package `time`. -/
def daysIn (month year : Nat) : Nat :=
  if month = 2 then (if isLeap year then 29 else 28)
  else if month = 4 ∨ month = 6 ∨ month = 9 ∨ month = 11 then 30 else 31

/-- The layout element `2006` of `time.Parse`: exactly four digits. -/
def parseYear (value : List UInt8) : Option (Nat × List UInt8) :=
  match value with
  | a :: b :: c :: d :: rest =>
    if isDigit a && isDigit b && isDigit c && isDigit d then
      some (digitVal a * 1000 + digitVal b * 100 + digitVal c * 10 + digitVal d, rest)
    else none
  | _ => none

/-- The layout element `-0700` of `time.Parse`: sign, two digits of hours, two of
minutes; offsets above 24 hours or 60 minutes are out of range. The result is in
seconds east of UTC. -/
def parseNumTZ (value : List UInt8) : Option (Int × List UInt8) :=
  match value with
  | sign :: h1 :: h2 :: m1 :: m2 :: rest =>
    match getnum [h1, h2] true, getnum [m1, m2] true with
    | some (hr, _), some (mm, _) =>
      if hr > 24 ∨ mm > 60 then none
      else if sign = 43 then some ((((hr * 60 + mm) * 60 : Nat) : Int), rest)
      else if sign = 45 then some (-(((hr * 60 + mm) * 60 : Nat) : Int), rest)
      else none
    | _, _ => none
  | _ => none

/-- `leadingInt` of package `time`: the leading decimal digits and the rest;
`none` on overflow (`errLeadingInt`). -/
def leadingInt : List UInt8 → Nat → Option (Nat × List UInt8)
  | [], x => some (x, [])
  | c :: cs, x =>
    if isDigit c then
      if x > 2 ^ 63 / 10 then none
      else if x * 10 + digitVal c > 2 ^ 63 then none
      else leadingInt cs (x * 10 + digitVal c)
    else some (x, c :: cs)

/-- `parseSignedOffset` of package `time`: length of a leading `+hh` or `-hh`
with `hh ≤ 23`, or `0`. -/
def parseSignedOffset (value : List UInt8) : Nat :=
  match value with
  | [] => 0
  | sign :: rest =>
    if sign ≠ 45 ∧ sign ≠ 43 then 0
    else
      match leadingInt rest 0 with
      | none => 0
      | some (x, rem) =>
        if rest = rem then 0
        else if x > 23 then 0
        else (sign :: rest).length - rem.length

/-- Number of leading upper-case letters, counted up to six (`nUpper` in
`parseTimeZone`). -/
def countUpper : Nat → List UInt8 → Nat
  | 0, _ => 0
  | _ + 1, [] => 0
  | k + 1, c :: cs => if c.toNat < 65 ∨ 90 < c.toNat then 0 else countUpper k cs + 1

/-- `parseTimeZone` of package `time`: the length of the zone abbreviation that
starts `value`, or `none` when there is none. -/
def parseTimeZone (value : List UInt8) : Option Nat :=
  if value.length < 3 then none
  else if value.take 4 = bytes "ChST" ∨ value.take 4 = bytes "MeST" then some 4
  else if value.take 3 = bytes "GMT" then
    (if (value.drop 3).isEmpty then some 3 else some (3 + parseSignedOffset (value.drop 3)))
  else if value.head? = some 43 ∨ value.head? = some 45 then
    (if parseSignedOffset value > 0 then some (parseSignedOffset value) else none)
  else
    match countUpper 6 value with
    | 5 => if value.get? 4 = some 84 then some 5 else none
    | 4 => if value.get? 3 = some 84 ∨ value.take 4 = bytes "WITA" then some 4 else none
    | 3 => some 3
    | _ => none

/-- The layout element `MST` of `time.Parse`: `UTC` selects the UTC location
(`true`), any other abbreviation is only skipped (`false`). -/
def parseTZ (value : List UInt8) : Option (Bool × List UInt8) :=
  if value.take 3 = bytes "UTC" then some (true, value.drop 3)
  else
    match parseTimeZone value with
    | none => none
    | some n => some (false, value.drop n)

/-- The fields of the `time.Time` that `time.Parse` returns for the layout
`"2006-01-02 15:04 -0700 MST"`: wall-clock fields and the offset of its location
(`0` when the abbreviation selected UTC, the parsed numeric offset otherwise). -/
structure ParsedTime where
  year : Nat
  month : Nat
  day : Nat
  hour : Nat
  min : Nat
  offset : Int
deriving DecidableEq, Repr

/-- The elements `2006-01-02` of the layout: year, month (range-checked at once)
and day (range-checked at the end of `time.Parse`). -/
def parseDate (value : List UInt8) : Option ((Nat × Nat × Nat) × List UInt8) :=
  match parseYear value with
  | none => none
  | some (year, v) =>
    match skipByte 45 v with
    | none => none
    | some v =>
      match getnum v true with
      | none => none
      | some (month, v) =>
        if month = 0 ∨ 12 < month then none
        else
          match skipByte 45 v with
          | none => none
          | some v =>
            match getnum v true with
            | none => none
            | some (day, v) => some ((year, month, day), v)

/-- The elements `15:04` of the layout: hour (one or two digits) and minute. -/
def parseClock (value : List UInt8) : Option ((Nat × Nat) × List UInt8) :=
  match getnum value false with
  | none => none
  | some (hour, v) =>
    if 24 ≤ hour then none
    else
      match skipByte 58 v with
      | none => none
      | some v =>
        match getnum v true with
        | none => none
        | some (min, v) => if 60 ≤ min then none else some ((hour, min), v)

/-- The elements `-0700 MST` of the layout: the offset of the resulting location. -/
def parseZone (value : List UInt8) : Option (Int × List UInt8) :=
  match parseNumTZ value with
  | none => none
  | some (zoneOffset, v) =>
    match skipSpace v with
    | none => none
    | some v =>
      match parseTZ v with
      | none => none
      | some (utc, v) => some (if utc then 0 else zoneOffset, v)

/-- The call `time.Parse("2006-01-02 15:04 -0700 MST", value)`; `none` when it
returns an error. -/
def parseTime (value : List UInt8) : Option ParsedTime :=
  match parseDate value with
  | none => none
  | some ((year, month, day), v) =>
    match skipSpace v with
    | none => none
    | some v =>
      match parseClock v with
      | none => none
      | some ((hour, min), v) =>
        match skipSpace v with
        | none => none
        | some v =>
          match parseZone v with
          | none => none
          | some (offset, v) =>
            if v ≠ [] then none
            else if day < 1 ∨ day > daysIn month year then none
            else some { year := year, month := month, day := day, hour := hour,
                        min := min, offset := offset }

/-- The layout element `Z07:00` of `Time.Format`. -/
def formatISO8601ColonTZ (offset : Int) : String :=
  if offset = 0 then "Z"
  else
    let zone := Int.tdiv offset 60
    let sign := if zone < 0 then "-" else "+"
    let z := zone.natAbs
    sign ++ appendInt (z / 60) 2 ++ ":" ++ appendInt (z % 60) 2

/-- The call `parsedTime.Format(time.RFC3339)`, layout
`"2006-01-02T15:04:05Z07:00"`; the parsed layout has no seconds. -/
def formatRFC3339 (t : ParsedTime) : String :=
  appendInt t.year 4 ++ "-" ++ appendInt t.month 2 ++ "-" ++ appendInt t.day 2 ++ "T" ++
    appendInt t.hour 2 ++ ":" ++ appendInt t.min 2 ++ ":" ++ appendInt 0 2 ++
    formatISO8601ColonTZ t.offset

/-- The string `isoTime` of a timestamp block:
`fmt.Sprintf("%s %s:%s %s", line[0], line[k][:2], line[k][2:], time.Now().In(loc).Format("-0700 MST"))`,
for a clock value of at least two bytes. -/
def isoTime (zone : Zone) (date clock : String) : List UInt8 :=
  bytes date ++ [32] ++ (bytes clock).take 2 ++ [58] ++ (bytes clock).drop 2 ++ [32] ++
    bytes (formatNow zone)

/-- One timestamp block of the loop (lines 324-335, 342-353, 383-394, 402-413):
slice the clock value at byte 2, build `isoTime`, parse it and print it as RFC 3339.
`zone` is the zone of the airport's location at `time.Now()`, `msg` the message
logged when `time.Parse` fails. -/
def timestamp (zone : Zone) (date clock msg : String) : Except Failure String :=
  if (bytes clock).length < 2 then .error .panic
  else
    match parseTime (isoTime zone date clock) with
    | none => .error (.exit msg)
    | some parsedTime => .ok (formatRFC3339 parsedTime)

/-- The rewrite `if line[k] == "2400" { line[k] = "2359" }` (lines 339-341,
380-382, 399-401). -/
def rollover (clock : String) : String :=
  if clock = "2400" then "2359" else clock

/-! ## Standard library: package `strconv` and `fmt.Sprintf("%.0f", _)`

A `float64` is kept as sign, integer significand and binary exponent, so that
`strconv.ParseFloat` (round to nearest, ties to even), the conversion `int(f)` and
the verb `%.0f` are exact integer computations. -/

/-- A `float64`: `finite neg m e` is `(-1)^neg * m * 2^e`. -/
inductive F64 where
  | finite (neg : Bool) (m : Nat) (e : Int)
  | inf (neg : Bool)
  | nan
deriving DecidableEq, Repr

/-- `lower(c)` of package `strconv`: `c | ('x' ^ 'X')`. -/
def lower (c : UInt8) : UInt8 := c ||| 32

/-- Length of the common prefix of `s` and the lower-case `pre`, ignoring the
case of `s` (`commonPrefixLenIgnoreCase`). -/
def commonPrefixLenIgnoreCase : List UInt8 → List UInt8 → Nat
  | c :: cs, p :: ps =>
    let c1 := if 65 ≤ c.toNat ∧ c.toNat ≤ 90 then c + 32 else c
    if c1 ≠ p then 0 else commonPrefixLenIgnoreCase cs ps + 1
  | _, _ => 0

/-- The body of the cases `+`, `-`, `i`, `I` of `special`: the number of bytes of
`inf` or `infinity` that start `s`, if any. -/
def specialInf (s : List UInt8) : Option Nat :=
  let n := commonPrefixLenIgnoreCase s (bytes "infinity")
  let n := if 3 < n ∧ n < 8 then 3 else n
  if n = 3 ∨ n = 8 then some n else none

/-- `special` of package `strconv`: a leading infinity or NaN and the number of
bytes it takes. -/
def special (s : List UInt8) : Option (F64 × Nat) :=
  match s with
  | [] => none
  | c :: cs =>
    if c = 43 ∨ c = 45 then
      match specialInf cs with
      | some n => some (.inf (c = 45), 1 + n)
      | none => none
    else if c = 105 ∨ c = 73 then
      match specialInf (c :: cs) with
      | some n => some (.inf false, n)
      | none => none
    else if c = 110 ∨ c = 78 then
      if commonPrefixLenIgnoreCase (c :: cs) (bytes "nan") = 3 then some (.nan, 3) else none
    else none

/-- The state of the digit loop of `readFloat`: the digits read so far as a
number, how many of them came after the point, and the flags of the loop. -/
structure Scan where
  mant : Nat := 0
  frac : Nat := 0
  sawdot : Bool := false
  sawdigits : Bool := false
  underscores : Bool := false
deriving DecidableEq, Repr

/-- The digit loop of `readFloat` (label `loop`), in base 10 or 16: it stops at the
second point or at the first byte that is no digit, point or underscore. -/
def scanDigits (hex : Bool) : List UInt8 → Scan → Scan × List UInt8
  | [], st => (st, [])
  | c :: cs, st =>
    if c = 95 then scanDigits hex cs { st with underscores := true }
    else if c = 46 then
      if st.sawdot then (st, c :: cs) else scanDigits hex cs { st with sawdot := true }
    else if isDigit c then
      scanDigits hex cs { st with
        sawdigits := true
        mant := st.mant * (if hex then 16 else 10) + digitVal c
        frac := if st.sawdot then st.frac + 1 else st.frac }
    else if hex ∧ 97 ≤ (lower c).toNat ∧ (lower c).toNat ≤ 102 then
      scanDigits hex cs { st with
        sawdigits := true
        mant := st.mant * 16 + ((lower c).toNat - 97 + 10)
        frac := if st.sawdot then st.frac + 1 else st.frac }
    else (st, c :: cs)

/-- The exponent loop of `readFloat`: digits and underscores; the exponent stops
growing once it has reached 10000. -/
def scanExp : List UInt8 → Nat → Bool → Nat × Bool × List UInt8
  | [], e, u => (e, u, [])
  | c :: cs, e, u =>
    if c = 95 then scanExp cs e true
    else if isDigit c then scanExp cs (if e < 10000 then e * 10 + digitVal c else e) u
    else (e, u, c :: cs)

/-- The loop of `underscoreOK` after sign and base prefix; `saw` is the class of
the last byte: 0 start, 1 digit or base prefix, 2 underscore, 3 other. -/
def underscoreLoop (hex : Bool) : List UInt8 → Nat → Bool
  | [], saw => saw ≠ 2
  | c :: cs, saw =>
    if isDigit c ∨ (hex ∧ 97 ≤ (lower c).toNat ∧ (lower c).toNat ≤ 102) then
      underscoreLoop hex cs 1
    else if c = 95 then
      if saw ≠ 1 then false else underscoreLoop hex cs 2
    else if saw = 2 then false
    else underscoreLoop hex cs 3

/-- `underscoreOK` of package `strconv`: underscores only between digits or right
after a base prefix. -/
def underscoreOK (s : List UInt8) : Bool :=
  let s := match s with
    | c :: cs => if c = 45 ∨ c = 43 then cs else c :: cs
    | [] => []
  match s with
  | a :: b :: rest =>
    if a = 48 ∧ (lower b = 98 ∨ lower b = 111 ∨ lower b = 120) then
      underscoreLoop (lower b = 120) rest 1
    else underscoreLoop false s 0
  | _ => underscoreLoop false s 0

/-- What `readFloat` reads: the number `(-1)^neg * mant * base^exp`, with base 2
when `hex` and base 10 otherwise. -/
structure Numeral where
  neg : Bool
  hex : Bool
  mant : Nat
  exp : Int
deriving DecidableEq, Repr

/-- The optional exponent of `readFloat`, after the digits: the exponent value,
whether an underscore was seen, and the rest. A hexadecimal number must have one. -/
def readExp (hex : Bool) (s : List UInt8) : Option (Int × Bool × List UInt8) :=
  match s with
  | c :: cs =>
    if lower c = (if hex then 112 else 101) then
      match cs with
      | [] => none
      | d :: ds =>
        let esign : Int := if d = 45 then -1 else 1
        let r := if d = 43 ∨ d = 45 then ds else d :: ds
        match r with
        | [] => none
        | x :: _ =>
          if isDigit x then
            match scanExp r 0 false with
            | (e, u, rest) => some (esign * e, u, rest)
          else none
    else if hex then none else some (0, false, c :: cs)
  | [] => if hex then none else some (0, false, [])

/-- `readFloat` of package `strconv`, after the sign: base prefix, digits,
exponent. -/
def readUnsigned (neg : Bool) (s : List UInt8) : Option (Numeral × Bool × List UInt8) :=
  let hex : Bool :=
    match s with
    | a :: b :: _ :: _ => a = 48 ∧ lower b = 120
    | _ => false
  match scanDigits hex (if hex then s.drop 2 else s) {} with
  | (st, rest) =>
    if ¬ st.sawdigits then none
    else
      match readExp hex rest with
      | none => none
      | some (e, u, rest2) =>
        some ({ neg := neg, hex := hex, mant := st.mant,
                exp := e - (if hex then 4 * st.frac else st.frac) },
              st.underscores || u, rest2)

/-- `readFloat` of package `strconv`: the numeral that starts `s` and the bytes
after it; `none` when `s` does not start with a well-formed numeral. -/
def readFloat (s : List UInt8) : Option (Numeral × List UInt8) :=
  match s with
  | [] => none
  | c :: cs =>
    match readUnsigned (c = 45) (if c = 43 ∨ c = 45 then cs else c :: cs) with
    | none => none
    | some (n, underscores, rest) =>
      if underscores ∧ ¬ underscoreOK (s.take (s.length - rest.length)) then none
      else some (n, rest)

/-- The integer nearest to `n / d`, ties to the even one. -/
def roundHalfEven (n d : Nat) : Nat :=
  let q := n / d
  let r := n % d
  if 2 * r < d then q
  else if d < 2 * r then q + 1
  else if q % 2 = 0 then q else q + 1

/-- Number of binary digits of `n`, by halving at most `fuel` times. -/
def bitLengthAux : Nat → Nat → Nat
  | 0, _ => 0
  | fuel + 1, n => if n = 0 then 0 else bitLengthAux fuel (n / 2) + 1

/-- Number of binary digits of `n`: `2^(bitLength n - 1) ≤ n < 2^(bitLength n)` for
`n > 0`. -/
def bitLength (n : Nat) : Nat := bitLengthAux n n

/-- The exponent of the unit in the last place of the `float64` nearest to `n / d`
(`n, d > 0`): with `2^e ≤ n / d < 2^(e+1)` it is `e - 52`, and `-1074` in the
subnormal range. -/
def ulpExponent (n d : Nat) : Int :=
  let e0 : Int := (bitLength n : Int) - (bitLength d : Int)
  let ge : Bool := if 0 ≤ e0 then d * 2 ^ e0.toNat ≤ n else d ≤ n * 2 ^ (-e0).toNat
  let e : Int := if ge then e0 else e0 - 1
  max (e - 52) (-1074)

/-- The integer nearest to `n / d / 2^u`, ties to even: the significand of `n / d`
in units of `2^u`. -/
def significand (n d : Nat) (u : Int) : Nat :=
  if 0 ≤ u then roundHalfEven n (d * 2 ^ u.toNat) else roundHalfEven (n * 2 ^ (-u).toNat) d

/-- The `float64` nearest to `n / d` (ties to even), for `n, d > 0`; `none` when
the rounded value is `2^1024` or more, where `ParseFloat` returns `ErrRange`. -/
def roundF64 (neg : Bool) (n d : Nat) : Option F64 :=
  let u : Int := ulpExponent n d
  let m : Nat := significand n d u
  if 971 < u ∨ (u = 971 ∧ 2 ^ 53 ≤ m) then none else some (.finite neg m u)

/-- The `float64` of a numeral, as `atof64` and `atofHex` compute it. -/
def Numeral.toF64 (x : Numeral) : Option F64 :=
  if x.mant = 0 then some (.finite x.neg 0 0)
  else
    let b : Nat := if x.hex then 2 else 10
    if 0 ≤ x.exp then roundF64 x.neg (x.mant * b ^ x.exp.toNat) 1
    else roundF64 x.neg x.mant (b ^ (-x.exp).toNat)

/-- The call `strconv.ParseFloat(s, 64)`; `none` when it returns an error
(`ErrSyntax` or `ErrRange`). -/
def parseFloat (s : String) : Option F64 :=
  match special (bytes s) with
  | some (f, n) => if n = (bytes s).length then some f else none
  | none =>
    match readFloat (bytes s) with
    | some (x, []) => x.toF64
    | _ => none

/-- The conversion `int(f)` of a `float64`: the value truncated toward zero when
that fits in 64 bits; otherwise the result is implementation-specific, and the
value of the amd64 conversion instruction is taken. -/
def F64.toInt : F64 → Int
  | .finite neg m e =>
    let q : Nat := if 0 ≤ e then m * 2 ^ e.toNat else m / 2 ^ (-e).toNat
    if neg then (if q ≤ 2 ^ 63 then -(q : Int) else -(2 ^ 63 : Int))
    else (if q < 2 ^ 63 then (q : Int) else -(2 ^ 63 : Int))
  | _ => -(2 ^ 63 : Int)

/-- The whole number nearest to the magnitude of a finite `float64`, ties to even. -/
def roundMagnitude (m : Nat) (e : Int) : Nat :=
  if 0 ≤ e then m * 2 ^ e.toNat else roundHalfEven m (2 ^ (-e).toNat)

/-- The call `fmt.Sprintf("%.0f", f)`. -/
def sprintf0f : F64 → String
  | .finite neg m e => (if neg then "-" else "") ++ Nat.repr (roundMagnitude m e)
  | .inf neg => if neg then "-Inf" else "+Inf"
  | .nan => "NaN"

/-- The call `strconv.ParseBool(str)`; `none` when it returns an error. -/
def parseBool (str : String) : Option Bool :=
  if str = "1" ∨ str = "t" ∨ str = "T" ∨ str = "TRUE" ∨ str = "true" ∨ str = "True" then
    some true
  else if str = "0" ∨ str = "f" ∨ str = "F" ∨ str = "FALSE" ∨ str = "false" ∨
      str = "False" then some false
  else none

/-! ## The flight loop of `main` (lines 279-665)

The loop body assigns the fields of `flight` one after the other and leaves the
process at the first error. Here each block of the body returns the values it
assigns, in the order of the source, and `transform` puts them into the record. -/

/-- `time.LoadLocation(tz)` with its error exit (lines 312-319, 368-375), followed
by the zone that the location has at `time.Now()`. -/
def zoneNow (env : Env) (tz : String) : Except Failure Zone :=
  match env.loadLocation tz with
  | none => .error (.exit ("Error getting timezone of " ++ tz))
  | some loc => .ok (loc env.now)

/-- A clock field guarded by `if line[k] != ""`: the scheduled departure block
(lines 323-336) has no rewrite of `"2400"` (`roll = false`), the other three
(lines 338-355, 379-396, 398-415) have it (`roll = true`). -/
def clockField (zone : Zone) (date clock msg : String) (roll : Bool) :
    Except Failure (Option String) :=
  if clock ≠ "" then
    match timestamp zone date (if roll then rollover clock else clock) msg with
    | .error e => .error e
    | .ok t => .ok (some t)
  else .ok none

/-- The origin block, lines 306-361: the origin airport, `ScheduledDepTime` (a
plain string, left empty when the clock is blank) and `ActualDepTime`. -/
def originBlock (env : Env) (airports : List (String × Airport)) (line : List String) :
    Except Failure (Airport × String × Option String) := do
  let l4 ← index line 4
  match airports.lookup l4 with
  | none => .error (.exit "Error getting origin airport")
  | some origin =>
    let zone ← zoneNow env origin.Timezone
    let l6 ← index line 6
    let l0 ← index line 0
    let sched ← clockField zone l0 l6 "Error parsing Sched Dep Time into Time" false
    let l7 ← index line 7
    let actual ← clockField zone l0 l7 "Error parsing Actual Dep Time into Time" true
    pure (origin, sched.getD "", actual)

/-- The destination block, lines 362-421: the destination airport,
`ScheduledArrTime` and `ActualArrTime`. -/
def destBlock (env : Env) (airports : List (String × Airport)) (line : List String) :
    Except Failure (Airport × Option String × Option String) := do
  let l5 ← index line 5
  match airports.lookup l5 with
  | none => .error (.exit "Error getting destination airport")
  | some dest =>
    let zone ← zoneNow env dest.Timezone
    let l11 ← index line 11
    let l0 ← index line 0
    let sched ← clockField zone l0 l11 "Error parsing Sched Arr Time into Time" true
    let l12 ← index line 12
    let actual ← clockField zone l0 l12 "Error parsing Actual Arr Time into Time" true
    pure (dest, sched, actual)

/-- An optional minute field (lines 423-434 and the blocks of the same shape):
`if line[k] != "" { f, err := strconv.ParseFloat(line[k], 64); ...; m := int(f) }`. -/
def optMinutes (line : List String) (k : Nat) (msg : String) :
    Except Failure (Option Int) := do
  let field ← index line k
  if field ≠ "" then
    match parseFloat field with
    | none => .error (.exit msg)
    | some f => .ok (some f.toInt)
  else .ok none

/-- A required count (lines 564-582): `strconv.ParseFloat` without a blank guard,
then `int(f)`. -/
def reqCount (line : List String) (k : Nat) (msg : String) : Except Failure Int := do
  let field ← index line k
  match parseFloat field with
  | none => .error (.exit msg)
  | some f => .ok f.toInt

/-- A boolean indicator (lines 475-491, 507-523): `strconv.ParseFloat`, then
`strconv.ParseBool(fmt.Sprintf("%.0f", f))`. -/
def boolFlag (line : List String) (k : Nat) (msgFloat msgBool : String) :
    Except Failure Bool := do
  let field ← index line k
  match parseFloat field with
  | none => .error (.exit msgFloat)
  | some f =>
    match parseBool (sprintf0f f) with
    | none => .error (.exit msgBool)
    | some b => .ok b

/-- The cancellation code, lines 493-505. -/
def cancelationReason (line : List String) : Except Failure (Option String) := do
  let l15 ← index line 15
  if l15 = "A" then pure (some "Carrier")
  else if l15 = "B" then pure (some "Weather")
  else if l15 = "C" then pure (some "National Air System")
  else if l15 = "D" then pure (some "Security")
  else pure none

/-- Lines 296-305: airline name, carrier, tail and number. -/
def headBlock (airlines : List (String × String)) (line : List String) :
    Except Failure (String × String × Option String × String) := do
  let l1 ← index line 1
  let airline := match airlines.lookup l1 with
    | some a => a
    | none => ""
  let l2 ← index line 2
  let tail := if l2 ≠ "" then some l2 else none
  let l3 ← index line 3
  pure (airline, l1, tail, l3)

/-- Lines 423-473: departure delay, taxi-out, taxi-in, arrival delay. -/
def delayBlock (line : List String) :
    Except Failure (Option Int × Option Int × Option Int × Option Int) := do
  let dep ← optMinutes line 8 "Converting Dep Delay Min to float"
  let taxiOut ← optMinutes line 9 "Converting Taxi Out Min to int"
  let taxiIn ← optMinutes line 10 "Converting Taxi In Min to int"
  let arr ← optMinutes line 13 "Converting Arr Delay Min to int"
  pure (dep, taxiOut, taxiIn, arr)

/-- Lines 475-523: canceled, cancellation reason, diverted. -/
def dispositionBlock (line : List String) :
    Except Failure (Bool × Option String × Bool) := do
  let c ← boolFlag line 14 "Converting Canceled to float" "Converting Canceled to bool"
  let reason ← cancelationReason line
  let d ← boolFlag line 16 "Converting Diverted to float" "Converting Diverted to bool"
  pure (c, reason, d)

/-- Lines 525-582: scheduled and actual elapsed minutes, air time, flight
segments, distance. -/
def elapsedBlock (line : List String) :
    Except Failure (Option Int × Option Int × Option Int × Int × Int) := do
  let sch ← optMinutes line 17 "Converting Sched Elapsed Min to int"
  let act ← optMinutes line 18 "Converting Act Elapsed Min to int"
  let air ← optMinutes line 19 "Converting Air Time Min to int"
  let seg ← reqCount line 20 "Converting Flight Segments to int"
  let dist ← reqCount line 21 "Converting Distance Btwn Airports to int"
  pure (sch, act, air, seg, dist)

/-- Lines 584-647: the five causal delay fields. -/
def causeBlock (line : List String) :
    Except Failure (Option Int × Option Int × Option Int × Option Int × Option Int) := do
  let carrier ← optMinutes line 22 "Converting Carrier Delay Min to int"
  let weather ← optMinutes line 23 "Converting Weather Delay Min to int"
  let nas ← optMinutes line 24 "Converting NAS Delay Min to int"
  let sec ← optMinutes line 25 "Converting Sec Delay Min to int"
  let la ← optMinutes line 26 "Converting Late Aircraft Delay Min to int"
  pure (carrier, weather, nas, sec, la)

/-- The `fmt.Sprintf("%s,%s", a.Latitude, a.Longitude)` of lines 308 and 364. -/
def geo (a : Airport) : String := a.Latitude ++ "," ++ a.Longitude

/-- The record `flight` once every block of the loop body has made its
assignments (lines 296-647). -/
def assemble (hd : String × String × Option String × String)
    (o : Airport × String × Option String) (d : Airport × Option String × Option String)
    (dl : Option Int × Option Int × Option Int × Option Int)
    (dp : Bool × Option String × Bool)
    (el : Option Int × Option Int × Option Int × Int × Int)
    (cs : Option Int × Option Int × Option Int × Option Int × Option Int) : Flight :=
  { Airline := hd.1
    Carrier := hd.2.1
    Tail := hd.2.2.1
    Number := hd.2.2.2
    Origin := o.1.IATA
    OriginGeo := geo o.1
    OriginName := o.1.Name
    OriginCity := o.1.City
    OriginCountry := o.1.Country
    Destination := d.1.IATA
    DestinationGeo := geo d.1
    DestinationName := d.1.Name
    DestinationCity := d.1.City
    DestinationCountry := d.1.Country
    ScheduledDepTime := o.2.1
    ActualDepTime := o.2.2
    DepDelayMin := dl.1
    TaxiOutMin := dl.2.1
    TaxiInMin := dl.2.2.1
    ScheduledArrTime := d.2.1
    ActualArrTime := d.2.2
    ArrDelayMin := dl.2.2.2
    Canceled := dp.1
    CancelationReason := dp.2.1
    Diverted := dp.2.2
    ScheduledElapsedMin := el.1
    ActualElapsedMin := el.2.1
    AirTimeMin := el.2.2.1
    FlightSegments := el.2.2.2.1
    DistanceBetweenAirportsMiles := el.2.2.2.2
    CarrierDelayMin := cs.1
    WeatherDelayMin := cs.2.1
    NationalAirSystemDelayMin := cs.2.2.1
    SecurityDelayMin := cs.2.2.2.1
    LateAircraftDelayMin := cs.2.2.2.2 }

/-- The body of the flight loop for one record that is not a header, lines
293-647: the identity `id` and the record `flight`, or the failure that ends the
process. -/
def transform (env : Env) (airlines : List (String × String))
    (airports : List (String × Airport)) (line : List String) :
    Except Failure (String × Flight) := do
  let id ← flightId line
  let hd ← headBlock airlines line
  let o ← originBlock env airports line
  let d ← destBlock env airports line
  let dl ← delayBlock line
  let dp ← dispositionBlock line
  let el ← elapsedBlock line
  let cs ← causeBlock line
  pure (id, assemble hd o d dl dp el cs)

/-- The request built at lines 657-662; `DocType` is the argument of `Type(...)`,
`Doc` stands for the JSON rendering of the record (`json.Marshal` has no error on
this struct). -/
structure BulkIndexRequest where
  Index : String
  DocType : String
  OpType : String
  Id : String
  Doc : Flight
deriving DecidableEq, Repr

/-- One turn of the flight loop, lines 289-664: a header record is skipped
(`none`), any other record is transformed and handed to `bulkProc.Add`. -/
def processLine (env : Env) (airlines : List (String × String))
    (airports : List (String × Airport)) (line : List String) :
    Except Failure (Option BulkIndexRequest) := do
  let l0 ← index line 0
  if l0 = "FL_DATE" then pure none
  else
    let (id, flight) ← transform env airlines airports line
    pure (some { Index := "flights", DocType := "_doc", OpType := "create", Id := id,
                 Doc := flight })

/-! ## The after-commit hook (lines 69-81) -/

/-- One item of a bulk response of the Elasticsearch client library, as far as
failure is concerned: the document id, the HTTP status of the operation and the
error, if any. -/
structure BulkResponseItem where
  Id : String
  Status : Nat
  Error : Option String
deriving DecidableEq, Repr

/-- The bulk response handed to the hook (`*elastic.BulkResponse`). -/
structure BulkResponse where
  Took : Nat
  Errors : Bool
  Items : List BulkResponseItem
deriving DecidableEq, Repr

/-- The failed items of a response (`BulkResponse.Failed` of the library): those
whose status is not 2xx. -/
def BulkResponse.Failed (r : BulkResponse) : List BulkResponseItem :=
  r.Items.filter fun item => ¬ (200 ≤ item.Status ∧ item.Status ≤ 299)

/-- The function `checkForErrors`, lines 71-81: `err` is `none` for a `nil` error;
the result is `.ok ()` when the function returns and the run goes on. -/
def checkForErrors (_executionId : Int) (_requests : List BulkIndexRequest)
    (_response : Option BulkResponse) (err : Option String) : Except Failure Unit :=
  match err with
  | some _ => .error (.exit "Bulk Insert Error")
  | none => .ok ()

/-! ## The CSV reader and the loop over a flight file (lines 279-291) -/

/-- One call of `reader.Read()` of `encoding/csv` with its default settings,
followed by the error check of the loops (lines 195-203, 223-231, 281-288).
`item` is what the reader finds next in the file: the fields of a record, or `none`
for text that it cannot return as a record (`ErrQuote`, `ErrBareQuote`, an I/O
error). `fieldsPerRecord` is `Reader.FieldsPerRecord`: 0 until the first record,
then the number of fields of that record, and a later record with another number of
fields is `ErrFieldCount`. An error is logged with `msg` and ends the process;
otherwise the record and the new `FieldsPerRecord` are returned. -/
def readRecord (fieldsPerRecord : Nat) (item : Option (List String)) (msg : String) :
    Except Failure (List String × Nat) :=
  match item with
  | none => .error (.exit msg)
  | some record =>
    if fieldsPerRecord > 0 then
      if record.length ≠ fieldsPerRecord then .error (.exit msg)
      else .ok (record, fieldsPerRecord)
    else .ok (record, record.length)

/-- The flight loop over one file, lines 279-665: the requests handed to the bulk
processor, in order, or the failure that ends the process. The second argument is
the `FieldsPerRecord` of the reader, 0 for a new reader; the third is what the
reader finds in the file. -/
def processLines (env : Env) (airlines : List (String × String))
    (airports : List (String × Airport)) :
    Nat → List (Option (List String)) → Except Failure (List BulkIndexRequest)
  | _, [] => .ok []
  | fieldsPerRecord, item :: rest =>
    match readRecord fieldsPerRecord item "Reading Flight CSV file" with
    | .error e => .error e
    | .ok (line, fieldsPerRecord) =>
      match processLine env airlines airports line with
      | .error e => .error e
      | .ok none => processLines env airlines airports fieldsPerRecord rest
      | .ok (some req) =>
        match processLines env airlines airports fieldsPerRecord rest with
        | .error e => .error e
        | .ok reqs => .ok (req :: reqs)

/-! ## The reference loops of `main` (lines 194-243)

A Go map is an association list: the assignment `m[k] = v` puts `(k, v)` in front,
and `List.lookup` finds the latest assignment of a key. -/

/-- The airline loop, lines 194-207: `airlines[line[3]] = line[1]` for every
record that the reader returns. The first argument is the `FieldsPerRecord` of the
reader, 0 for a new reader; the second is what the reader finds in the file; the
third is the map so far. -/
def loadAirlines :
    Nat → List (Option (List String)) → List (String × String) →
      Except Failure (List (String × String))
  | _, [], airlines => .ok airlines
  | fieldsPerRecord, item :: rest, airlines =>
    match readRecord fieldsPerRecord item "Reading Airlines CSV file" with
    | .error e => .error e
    | .ok (line, fieldsPerRecord) =>
      match index line 3 with
      | .error e => .error e
      | .ok l3 =>
        match index line 1 with
        | .error e => .error e
        | .ok l1 => loadAirlines fieldsPerRecord rest ((l3, l1) :: airlines)

/-- The struct literal of lines 233-242 for one airport record. -/
def airportOf (line : List String) : Except Failure Airport := do
  let iataCode ← index line 4
  let l1 ← index line 1
  let l2 ← index line 2
  let l3 ← index line 3
  let l6 ← index line 6
  let l7 ← index line 7
  let l11 ← index line 11
  pure { IATA := iataCode, Name := l1, City := l2, Country := l3, Latitude := l6,
         Longitude := l7, Timezone := l11 }

/-- The airport loop, lines 222-243: `airports[iataCode] = Airport{...}` for every
record that the reader returns. The first argument is the `FieldsPerRecord` of the
reader, 0 for a new reader; the second is what the reader finds in the file; the
third is the map so far. -/
def loadAirports :
    Nat → List (Option (List String)) → List (String × Airport) →
      Except Failure (List (String × Airport))
  | _, [], airports => .ok airports
  | fieldsPerRecord, item :: rest, airports =>
    match readRecord fieldsPerRecord item "Reading Airport CSV file" with
    | .error e => .error e
    | .ok (line, fieldsPerRecord) =>
      match airportOf line with
      | .error e => .error e
      | .ok a => loadAirports fieldsPerRecord rest ((a.IATA, a) :: airports)

/-! ## Reading the record by field number -/

/-- The integer that the record holds for the numeric source field `k`: the
optional minute fields 8-10, 13, 17-19 and 22-26, and the two required counts
20 and 21. -/
def storedInt (flight : Flight) (k : Nat) : Option Int :=
  match k with
  | 8 => flight.DepDelayMin
  | 9 => flight.TaxiOutMin
  | 10 => flight.TaxiInMin
  | 13 => flight.ArrDelayMin
  | 17 => flight.ScheduledElapsedMin
  | 18 => flight.ActualElapsedMin
  | 19 => flight.AirTimeMin
  | 20 => some flight.FlightSegments
  | 21 => some flight.DistanceBetweenAirportsMiles
  | 22 => flight.CarrierDelayMin
  | 23 => flight.WeatherDelayMin
  | 24 => flight.NationalAirSystemDelayMin
  | 25 => flight.SecurityDelayMin
  | 26 => flight.LateAircraftDelayMin
  | _ => none

/-- The source fields of the optional minute fields of the record. -/
def optionalFields : List Nat := [8, 9, 10, 13, 17, 18, 19, 22, 23, 24, 25, 26]

/-- The source fields of the two required counts. -/
def requiredFields : List Nat := [20, 21]

/-- The source fields of the delay breakdown: departure delay, taxi-out, taxi-in,
arrival delay and the five causal delays. -/
def delayFields : List Nat := [8, 9, 10, 13, 22, 23, 24, 25, 26]

/-- The timestamp that the record holds for the clock field `k` (6, 7, 11, 12), as
`json.Marshal` writes it: `ScheduledDepTime` is a plain string and is always
written, the other three are pointers and are written as `null` when `nil`. -/
def storedTimestamp (flight : Flight) (k : Nat) : Option String :=
  match k with
  | 6 => some flight.ScheduledDepTime
  | 7 => flight.ActualDepTime
  | 11 => flight.ScheduledArrTime
  | 12 => flight.ActualArrTime
  | _ => none

/-- The three clock fields whose timestamp is a pointer in the record. -/
def pointerClockFields : List Nat := [7, 11, 12]

/-- The four clock fields of a flight record: scheduled and actual departure,
scheduled and actual arrival. -/
def clockFields : List Nat := [6, 7, 11, 12]

/-- The value of a numeral read as an exact number and truncated toward zero:
what "the numeral's value truncated toward zero" says, without any `float64`. -/
def Numeral.truncate (x : Numeral) : Int :=
  let b : Nat := if x.hex then 2 else 10
  let q : Nat := if 0 ≤ x.exp then x.mant * b ^ x.exp.toNat else x.mant / b ^ (-x.exp).toNat
  if x.neg then -(q : Int) else (q : Int)

/-! ## What a numeral is said to spell -/

/-- The magnitude that a numeral spells, as an exact number: `mant * base^exp`,
with base 2 when `hex` and base 10 otherwise. -/
def Numeral.magnitude (x : Numeral) : ℚ :=
  let b : ℚ := if x.hex then 2 else 10
  if 0 ≤ x.exp then (x.mant : ℚ) * b ^ x.exp.toNat else (x.mant : ℚ) / b ^ (-x.exp).toNat

/-- The number that a string of decimal digits spells. -/
def decimalDigits (ds : List UInt8) : Nat := ds.foldl (fun a c => a * 10 + digitVal c) 0

/-- The bytes of the sign of a numeral: none, `+` (`some false`) or `-`
(`some true`). -/
def signBytes : Option Bool → List UInt8
  | none => []
  | some true => [45]
  | some false => [43]

/-- The bytes of the fraction of a numeral: none, or the point and the digits after
it. -/
def fracBytes : Option (List UInt8) → List UInt8
  | none => []
  | some fp => 46 :: fp

/-- The bytes of a plain decimal numeral: an optional sign, the digits `ip` before
the point and, if there is a point, the digits after it. -/
def decimalNumeral (sign : Option Bool) (ip : List UInt8) (frac : Option (List UInt8)) :
    List UInt8 :=
  signBytes sign ++ ip ++ fracBytes frac

/-- The value that the digits of a plain decimal numeral spell: the digits before
and after the point as one number, over ten to the number of digits after the
point. -/
def decimalValue (ip : List UInt8) (frac : Option (List UInt8)) : ℚ :=
  (decimalDigits (ip ++ frac.getD []) : ℚ) / 10 ^ (frac.getD []).length

/-! ## What a timestamp is said to carry -/

/-- The calendar date that a date field spells: year, month and day of the
`YYYY-MM-DD` in its first ten bytes. -/
def fieldDate (date : String) : Option (Nat × Nat × Nat) :=
  match bytes date with
  | y1 :: y2 :: y3 :: y4 :: s1 :: m1 :: m2 :: s2 :: d1 :: d2 :: _ =>
    if isDigit y1 && isDigit y2 && isDigit y3 && isDigit y4 && s1 == 45 && isDigit m1 &&
        isDigit m2 && s2 == 45 && isDigit d1 && isDigit d2 then
      some (digitVal y1 * 1000 + digitVal y2 * 100 + digitVal y3 * 10 + digitVal y4,
        digitVal m1 * 10 + digitVal m2, digitVal d1 * 10 + digitVal d2)
    else none
  | _ => none

/-- The hour and minute that a clock field spells: the `hhmm` in its first four
bytes, where the tens of the hour may be a blank. -/
def fieldClock (clock : String) : Option (Nat × Nat) :=
  match bytes clock with
  | h1 :: h2 :: m1 :: m2 :: _ =>
    if (isDigit h1 || h1 == 32) && isDigit h2 && isDigit m1 && isDigit m2 then
      some ((if h1 = 32 then 0 else digitVal h1 * 10) + digitVal h2,
        digitVal m1 * 10 + digitVal m2)
    else none
  | _ => none

/-- A zone as the tz database has them today: an offset of whole minutes, and an
abbreviation that ends in `UTC` only at offset zero. -/
def Zone.regular (z : Zone) : Prop :=
  z.offset % 60 = 0 ∧ (bytes "UTC" <:+ bytes z.name → z.offset = 0)

/-- What the spec says of one timestamp: `ts` is the RFC 3339 rendering of the
calendar date of `date`, the hour and minute of `clock` and a UTC offset that the
location `loc` observes. -/
def carries (loc : Int → Zone) (date clock ts : String) : Prop :=
  ∃ year month day hour min t,
    fieldDate date = some (year, month, day) ∧ fieldClock clock = some (hour, min) ∧
      ts = formatRFC3339 { year := year, month := month, day := day, hour := hour,
                           min := min, offset := (loc t).offset }

/-! ## Sample data -/

/-- America/Chicago in 2017 and 2018: CST, with CDT from the second Sunday of
March to the first Sunday of November. -/
def chicago (t : Int) : Zone :=
  if t < 1489305600 then ⟨-21600, "CST"⟩
  else if t < 1509865200 then ⟨-18000, "CDT"⟩
  else if t < 1520755200 then ⟨-21600, "CST"⟩
  else if t < 1541314800 then ⟨-18000, "CDT"⟩
  else ⟨-21600, "CST"⟩

/-- America/Los_Angeles in 2017 and 2018. -/
def losAngeles (t : Int) : Zone :=
  if t < 1489312800 then ⟨-28800, "PST"⟩
  else if t < 1509872400 then ⟨-25200, "PDT"⟩
  else if t < 1520762400 then ⟨-28800, "PST"⟩
  else if t < 1541322000 then ⟨-25200, "PDT"⟩
  else ⟨-28800, "PST"⟩

/-- A time-zone database with the two sample locations. -/
def sampleLocations (tz : String) : Option (Int → Zone) :=
  if tz = "America/Chicago" then some chicago
  else if tz = "America/Los_Angeles" then some losAngeles
  else none

/-- A run on 2018-08-01 00:00 UTC (daylight saving time in both locations). -/
def summerEnv : Env := { loadLocation := sampleLocations, now := 1533081600 }

/-- A run on 2018-01-15 00:00 UTC (standard time in both locations). -/
def winterEnv : Env := { loadLocation := sampleLocations, now := 1515974400 }

/-- A sample airline table. -/
def sampleAirlines : List (String × String) := [("AA", "American Airlines")]

/-- A sample airport table. -/
def sampleAirports : List (String × Airport) :=
  [("ORD", { IATA := "ORD", Name := "Chicago O'Hare International Airport", City := "Chicago",
             Country := "United States", Latitude := "41.9786", Longitude := "-87.9048",
             Timezone := "America/Chicago" }),
   ("SFO", { IATA := "SFO", Name := "San Francisco International Airport",
             City := "San Francisco", Country := "United States",
             Latitude := "37.61899948120117", Longitude := "-122.375",
             Timezone := "America/Los_Angeles" })]

/-- A sample flight record of 27 fields: AA123 from ORD to SFO on 2017-01-31. -/
def sampleLine : List String :=
  ["2017-01-31", "AA", "N1234", "123", "ORD", "SFO", "1200", "1215", "15.00", "20.00",
   "5.00", "1430", "1440", "10.00", "0.00", "", "0.00", "270.00", "265.00", "240.00",
   "1.00", "1846.00", "", "", "", "", ""]

/-- The record that `sampleLine` gives in `summerEnv`. -/
def sampleFlight : Flight :=
  { Airline := "American Airlines", Carrier := "AA", Tail := some "N1234", Number := "123",
    Origin := "ORD", OriginGeo := "41.9786,-87.9048",
    OriginName := "Chicago O'Hare International Airport", OriginCity := "Chicago",
    OriginCountry := "United States", Destination := "SFO",
    DestinationGeo := "37.61899948120117,-122.375",
    DestinationName := "San Francisco International Airport",
    DestinationCity := "San Francisco", DestinationCountry := "United States",
    ScheduledDepTime := "2017-01-31T12:00:00-05:00",
    ActualDepTime := some "2017-01-31T12:15:00-05:00", DepDelayMin := some 15,
    TaxiOutMin := some 20, TaxiInMin := some 5,
    ScheduledArrTime := some "2017-01-31T14:30:00-07:00",
    ActualArrTime := some "2017-01-31T14:40:00-07:00", ArrDelayMin := some 10,
    Canceled := false, CancelationReason := none, Diverted := false,
    ScheduledElapsedMin := some 270, ActualElapsedMin := some 265, AirTimeMin := some 240,
    FlightSegments := 1, DistanceBetweenAirportsMiles := 1846 }

/-- The create request that the loop builds for `sampleLine` in `summerEnv`. -/
def sampleRequest : BulkIndexRequest :=
  { Index := "flights", DocType := "_doc", OpType := "create",
    Id := "2017-01-31.1200.AA123.N1234.ORD.SFO", Doc := sampleFlight }

/-- A record of the airline file. -/
def sampleAirlineRecord : List String :=
  ["24", "American Airlines", "\\N", "AA", "AAL", "AMERICAN", "United States", "Y"]

/-- A record of the airline file without a carrier code. -/
def blankCodeRecord : List String := ["1", "Private flight", "\\N", "", "", "", "", "Y"]

/-- The record of Chicago O'Hare in the airport file. -/
def ordRecord : List String :=
  ["3830", "Chicago O'Hare International Airport", "Chicago", "United States", "ORD",
   "KORD", "41.9786", "-87.9048", "672", "-6", "A", "America/Chicago"]

/-- An earlier record under the code of Chicago O'Hare. -/
def oldOrdRecord : List String :=
  ["3830", "Old Name", "Old City", "Old Country", "ORD", "KORD", "41.0", "-87.0", "672",
   "-6", "A", "America/Chicago"]

/-- The record of San Francisco in the airport file. -/
def sfoRecord : List String :=
  ["3469", "San Francisco International Airport", "San Francisco", "United States", "SFO",
   "KSFO", "37.61899948120117", "-122.375", "13", "-8", "A", "America/Los_Angeles"]

/-! ## General lemmas -/

theorem transform_sample :
    transform summerEnv sampleAirlines sampleAirports sampleLine =
      .ok ("2017-01-31.1200.AA123.N1234.ORD.SFO", sampleFlight) := by
  decide

theorem bind_eq_ok {ε α β : Type} (x : Except ε α) (f : α → Except ε β) (b : β) :
    (x >>= f) = .ok b ↔ ∃ a, x = .ok a ∧ f a = .ok b := by
  cases x with
  | error e => simp [bind, Except.bind]
  | ok a => simp [bind, Except.bind]

theorem index_eq_ok (line : List String) (k : Nat) (s : String) :
    index line k = .ok s ↔ line.get? k = some s := by
  unfold index
  cases h : line.get? k <;> simp

theorem transform_ok_inv {env : Env} {airlines : List (String × String)}
    {airports : List (String × Airport)} {line : List String} {id : String} {flight : Flight}
    (h : transform env airlines airports line = .ok (id, flight)) :
    ∃ hd o d dl dp el cs,
      flightId line = .ok id ∧ headBlock airlines line = .ok hd ∧
      originBlock env airports line = .ok o ∧ destBlock env airports line = .ok d ∧
      delayBlock line = .ok dl ∧ dispositionBlock line = .ok dp ∧
      elapsedBlock line = .ok el ∧ causeBlock line = .ok cs ∧
      flight = assemble hd o d dl dp el cs := by
  simp only [transform, bind_eq_ok] at h
  obtain ⟨a, h0, hd, h1, o, h2, d, h3, dl, h4, dp, h5, el, h6, cs, h7, h8⟩ := h
  simp only [pure, Except.pure, Except.ok.injEq, Prod.mk.injEq] at h8
  obtain ⟨rfl, rfl⟩ := h8
  exact ⟨hd, o, d, dl, dp, el, cs, h0, h1, h2, h3, h4, h5, h6, h7, rfl⟩

theorem optMinutes_ok (line : List String) (k : Nat) (msg : String) (v : Option Int) :
    optMinutes line k msg = .ok v ↔
      ∃ s, line.get? k = some s ∧
        ((s = "" ∧ v = none) ∨ (s ≠ "" ∧ ∃ f, parseFloat s = some f ∧ v = some f.toInt)) := by
  simp only [optMinutes, bind_eq_ok, index_eq_ok]
  constructor
  · rintro ⟨s, hs, h⟩
    refine ⟨s, hs, ?_⟩
    by_cases hb : s = ""
    · simp [hb] at h
      exact Or.inl ⟨hb, h.symm⟩
    · simp only [ne_eq, hb, not_false_eq_true, if_true] at h
      cases hf : parseFloat s with
      | none => simp [hf] at h
      | some f =>
        simp only [hf, Except.ok.injEq] at h
        exact Or.inr ⟨hb, f, rfl, h.symm⟩
  · rintro ⟨s, hs, h⟩
    refine ⟨s, hs, ?_⟩
    rcases h with ⟨hb, rfl⟩ | ⟨hb, f, hf, rfl⟩
    · simp [hb]
    · simp [hb, hf]

theorem reqCount_ok (line : List String) (k : Nat) (msg : String) (v : Int) :
    reqCount line k msg = .ok v ↔
      ∃ s f, line.get? k = some s ∧ parseFloat s = some f ∧ v = f.toInt := by
  simp only [reqCount, bind_eq_ok, index_eq_ok]
  constructor
  · rintro ⟨s, hs, h⟩
    cases hf : parseFloat s with
    | none => simp [hf] at h
    | some f =>
      simp only [hf, Except.ok.injEq] at h
      exact ⟨s, f, hs, hf, h.symm⟩
  · rintro ⟨s, f, hs, hf, rfl⟩
    exact ⟨s, hs, by simp [hf]⟩

theorem boolFlag_ok (line : List String) (k : Nat) (m1 m2 : String) (b : Bool) :
    boolFlag line k m1 m2 = .ok b ↔
      ∃ s f, line.get? k = some s ∧ parseFloat s = some f ∧
        parseBool (sprintf0f f) = some b := by
  simp only [boolFlag, bind_eq_ok, index_eq_ok]
  constructor
  · rintro ⟨s, hs, h⟩
    cases hf : parseFloat s with
    | none => simp [hf] at h
    | some f =>
      simp only [hf] at h
      cases hb : parseBool (sprintf0f f) with
      | none => simp [hb] at h
      | some c =>
        simp only [hb, Except.ok.injEq] at h
        exact ⟨s, f, hs, hf, by rw [hb, h]⟩
  · rintro ⟨s, f, hs, hf, hb⟩
    exact ⟨s, hs, by simp [hf, hb]⟩

theorem transform_optional {env : Env} {airlines : List (String × String)}
    {airports : List (String × Airport)} {line : List String} {id : String} {flight : Flight}
    (h : transform env airlines airports line = .ok (id, flight)) (k : Nat)
    (hk : k ∈ optionalFields) :
    ∃ msg, optMinutes line k msg = .ok (storedInt flight k) := by
  obtain ⟨hd, o, d, dl, dp, el, cs, -, -, -, -, h4, -, h6, h7, rfl⟩ := transform_ok_inv h
  simp only [delayBlock, elapsedBlock, causeBlock, bind_eq_ok] at h4 h6 h7
  obtain ⟨a8, h8, a9, h9, a10, h10, a13, h13, e4⟩ := h4
  obtain ⟨a17, h17, a18, h18, a19, h19, a20, -, a21, -, e6⟩ := h6
  obtain ⟨a22, h22, a23, h23, a24, h24, a25, h25, a26, h26, e7⟩ := h7
  simp only [pure, Except.pure, Except.ok.injEq] at e4 e6 e7
  subst e4 e6 e7
  simp only [optionalFields, List.mem_cons, List.mem_singleton, List.not_mem_nil,
    or_false] at hk
  rcases hk with rfl | rfl | rfl | rfl | rfl | rfl | rfl | rfl | rfl | rfl | rfl | rfl
  all_goals first
    | exact ⟨_, h8⟩ | exact ⟨_, h9⟩ | exact ⟨_, h10⟩ | exact ⟨_, h13⟩ | exact ⟨_, h17⟩
    | exact ⟨_, h18⟩ | exact ⟨_, h19⟩ | exact ⟨_, h22⟩ | exact ⟨_, h23⟩ | exact ⟨_, h24⟩
    | exact ⟨_, h25⟩ | exact ⟨_, h26⟩

theorem transform_required {env : Env} {airlines : List (String × String)}
    {airports : List (String × Airport)} {line : List String} {id : String} {flight : Flight}
    (h : transform env airlines airports line = .ok (id, flight)) (k : Nat)
    (hk : k ∈ requiredFields) :
    ∃ msg v, reqCount line k msg = .ok v ∧ storedInt flight k = some v := by
  obtain ⟨hd, o, d, dl, dp, el, cs, -, -, -, -, -, -, h6, -, rfl⟩ := transform_ok_inv h
  simp only [elapsedBlock, bind_eq_ok] at h6
  obtain ⟨a17, -, a18, -, a19, -, a20, h20, a21, h21, e6⟩ := h6
  simp only [pure, Except.pure, Except.ok.injEq] at e6
  subst e6
  simp only [requiredFields, List.mem_cons, List.mem_singleton, List.not_mem_nil,
    or_false] at hk
  rcases hk with rfl | rfl
  · exact ⟨_, _, h20, rfl⟩
  · exact ⟨_, _, h21, rfl⟩

theorem error_of_not_ok {ε α : Type} (x : Except ε α) (h : ∀ a, x ≠ .ok a) :
    ∃ e, x = .error e := by
  cases x with
  | error e => exact ⟨e, rfl⟩
  | ok a => exact absurd rfl (h a)

theorem cancelationReason_ok (line : List String) (r : Option String) :
    cancelationReason line = .ok r ↔
      ∃ code, line.get? 15 = some code ∧
        r = (if code = "A" then some "Carrier" else if code = "B" then some "Weather"
          else if code = "C" then some "National Air System"
          else if code = "D" then some "Security" else none) := by
  simp only [cancelationReason, bind_eq_ok, index_eq_ok]
  constructor
  · rintro ⟨code, hc, h⟩
    refine ⟨code, hc, ?_⟩
    split_ifs at h ⊢ <;> simp_all [pure, Except.pure]
  · rintro ⟨code, hc, rfl⟩
    refine ⟨code, hc, ?_⟩
    split_ifs <;> simp [pure, Except.pure]

theorem transform_reason {env : Env} {airlines : List (String × String)}
    {airports : List (String × Airport)} {line : List String} {id : String} {flight : Flight}
    (h : transform env airlines airports line = .ok (id, flight)) :
    cancelationReason line = .ok flight.CancelationReason := by
  obtain ⟨hd, o, d, dl, dp, el, cs, -, -, -, -, -, h5, -, -, rfl⟩ := transform_ok_inv h
  simp only [dispositionBlock, bind_eq_ok] at h5
  obtain ⟨c, -, r, hr, dv, -, e5⟩ := h5
  simp only [pure, Except.pure, Except.ok.injEq] at e5
  subst e5
  exact hr

theorem headBlock_ok (airlines : List (String × String)) (line : List String)
    (hd : String × String × Option String × String) :
    headBlock airlines line = .ok hd ↔
      ∃ l1 l2 l3, line.get? 1 = some l1 ∧ line.get? 2 = some l2 ∧ line.get? 3 = some l3 ∧
        hd = ((match airlines.lookup l1 with
                | some a => a
                | none => ""), l1, (if l2 ≠ "" then some l2 else none), l3) := by
  simp only [headBlock, bind_eq_ok, index_eq_ok, pure, Except.pure, Except.ok.injEq]
  constructor
  · rintro ⟨l1, h1, l2, h2, l3, h3, e⟩
    exact ⟨l1, l2, l3, h1, h2, h3, e.symm⟩
  · rintro ⟨l1, l2, l3, h1, h2, h3, e⟩
    exact ⟨l1, h1, l2, h2, l3, h3, e.symm⟩

theorem headBlock_error (airlines airlines2 : List (String × String)) (line : List String)
    (e : Failure) (h : headBlock airlines line = .error e) :
    headBlock airlines2 line = .error e := by
  simp only [headBlock] at h ⊢
  cases h1 : index line 1 with
  | error e1 => simpa [h1, bind, Except.bind] using h
  | ok l1 =>
    cases h2 : index line 2 with
    | error e2 => simpa [h1, h2, bind, Except.bind] using h
    | ok l2 =>
      cases h3 : index line 3 with
      | error e3 => simpa [h1, h2, h3, bind, Except.bind] using h
      | ok l3 => simp [h1, h2, h3, bind, Except.bind, pure, Except.pure] at h

theorem originBlock_ok_lookup {env : Env} {airports : List (String × Airport)}
    {line : List String} {o : Airport × String × Option String}
    (h : originBlock env airports line = .ok o) :
    ∃ l4, line.get? 4 = some l4 ∧ airports.lookup l4 = some o.1 := by
  simp only [originBlock, bind_eq_ok, index_eq_ok] at h
  obtain ⟨l4, h4, h⟩ := h
  refine ⟨l4, h4, ?_⟩
  cases hl : airports.lookup l4 with
  | none => simp [hl] at h
  | some origin =>
    simp only [hl, bind_eq_ok] at h
    obtain ⟨z, -, l6, -, l0, -, sc, -, l7, -, ac, -, e⟩ := h
    simp only [pure, Except.pure, Except.ok.injEq] at e
    rw [← e]

theorem destBlock_ok_lookup {env : Env} {airports : List (String × Airport)}
    {line : List String} {d : Airport × Option String × Option String}
    (h : destBlock env airports line = .ok d) :
    ∃ l5, line.get? 5 = some l5 ∧ airports.lookup l5 = some d.1 := by
  simp only [destBlock, bind_eq_ok, index_eq_ok] at h
  obtain ⟨l5, h5, h⟩ := h
  refine ⟨l5, h5, ?_⟩
  cases hl : airports.lookup l5 with
  | none => simp [hl] at h
  | some dest =>
    simp only [hl, bind_eq_ok] at h
    obtain ⟨z, -, l11, -, l0, -, sc, -, l12, -, ac, -, e⟩ := h
    simp only [pure, Except.pure, Except.ok.injEq] at e
    rw [← e]

theorem processLine_of_transform_error (env : Env) (airlines : List (String × String))
    (airports : List (String × Airport)) (line : List String) (e : Failure)
    (h : transform env airlines airports line = .error e)
    (hh : line.get? 0 ≠ some "FL_DATE") :
    processLine env airlines airports line = .error e := by
  simp only [processLine]
  cases h0 : index line 0 with
  | error e0 =>
    have : flightId line = .error e0 := by simp [flightId, h0, bind, Except.bind]
    simp only [transform, this, bind, Except.bind] at h
    simp only [Except.error.injEq] at h
    simp [bind, Except.bind, h]
  | ok l0 =>
    have hne : l0 ≠ "FL_DATE" := by
      intro hl
      apply hh
      rw [← hl]
      exact (index_eq_ok line 0 l0).1 h0
    simp [bind, Except.bind, hne, h]

theorem toDigitsCore_suffix (fuel n : Nat) (acc : List Char) :
    ∃ pre, Nat.toDigitsCore 10 fuel n acc = pre ++ acc := by
  induction fuel generalizing n acc with
  | zero => exact ⟨[], rfl⟩
  | succ f ih =>
    simp only [Nat.toDigitsCore]
    split_ifs with h0
    · exact ⟨[Nat.digitChar (n % 10)], rfl⟩
    · obtain ⟨pre, hp⟩ := ih (n / 10) (Nat.digitChar (n % 10) :: acc)
      exact ⟨pre ++ [Nat.digitChar (n % 10)], by simp [hp]⟩

theorem repr_data (n : Nat) :
    ∃ pre, (Nat.repr n).data = pre ++ [Nat.digitChar (n % 10)] ∧
      (n < 10 → pre = []) ∧ (10 ≤ n → pre ≠ []) := by
  simp only [Nat.repr, Nat.toDigits, List.asString, Nat.toDigitsCore]
  split_ifs with h0
  · refine ⟨[], rfl, fun _ => rfl, fun h => ?_⟩
    omega
  · have hn : 10 ≤ n := by omega
    obtain ⟨f, hf⟩ : ∃ f, n = f + 1 := ⟨n - 1, by omega⟩
    rw [hf]
    simp only [Nat.toDigitsCore]
    rw [← hf]
    split_ifs with h1
    · refine ⟨[Nat.digitChar (n / 10 % 10)], rfl, fun h => ?_, fun _ => by simp⟩
      omega
    · obtain ⟨pre, hp⟩ := toDigitsCore_suffix f (n / 10 / 10)
        [Nat.digitChar (n / 10 % 10), Nat.digitChar (n % 10)]
      refine ⟨pre ++ [Nat.digitChar (n / 10 % 10)], by simp [hp], fun h => ?_,
        fun _ => by simp⟩
      omega

theorem repr_eq_one (n : Nat) (h : Nat.repr n = "1") : n = 1 := by
  obtain ⟨pre, hd, hlt, hge⟩ := repr_data n
  rw [h] at hd
  by_cases hn : n < 10
  · interval_cases n <;> first | rfl | (exfalso; revert h; decide)
  · have := hge (by omega)
    cases pre with
    | nil => exact absurd rfl this
    | cons a t =>
      cases t <;> simp at hd

theorem repr_eq_zero (n : Nat) (h : Nat.repr n = "0") : n = 0 := by
  obtain ⟨pre, hd, hlt, hge⟩ := repr_data n
  rw [h] at hd
  by_cases hn : n < 10
  · interval_cases n <;> first | rfl | (exfalso; revert h; decide)
  · have := hge (by omega)
    cases pre with
    | nil => exact absurd rfl this
    | cons a t =>
      cases t <;> simp at hd

theorem repr_last_digit (n : Nat) (s : String) (h : Nat.repr n = s) :
    ∃ c, s.data.getLast? = some c ∧ 48 ≤ c.toNat ∧ c.toNat ≤ 57 := by
  obtain ⟨pre, hd, -, -⟩ := repr_data n
  rw [h] at hd
  refine ⟨Nat.digitChar (n % 10), by simp [hd], ?_⟩
  have hk : n % 10 < 10 := Nat.mod_lt _ (by decide)
  generalize n % 10 = k at hk
  interval_cases k <;> decide

theorem repr_ne_of_last (n : Nat) (s : String) (c : Char)
    (hs : s.data.getLast? = some c) (hc : c.toNat < 48 ∨ 57 < c.toNat) : Nat.repr n ≠ s := by
  intro h
  obtain ⟨c2, h2, h48, h57⟩ := repr_last_digit n s h
  rw [hs] at h2
  simp only [Option.some.injEq] at h2
  subst h2
  omega

theorem minus_append_ne (x tok : String) (ht : tok.data.head? ≠ some '-') :
    "-" ++ x ≠ tok := by
  intro h
  apply ht
  rw [← h]
  simp [String.data_append]

theorem empty_append_eq (x : String) : "" ++ x = x := by
  apply String.ext
  simp [String.data_append]

theorem parseBool_sprintf0f (f : F64) (b : Bool) (h : parseBool (sprintf0f f) = some b) :
    ∃ m e, f = .finite false m e ∧
      ((roundMagnitude m e = 1 ∧ b = true) ∨ (roundMagnitude m e = 0 ∧ b = false)) := by
  cases f with
  | nan =>
    have hn : parseBool (sprintf0f .nan) = none := by decide
    rw [hn] at h
    exact absurd h (by simp)
  | inf neg =>
    have hn : parseBool (sprintf0f (.inf neg)) = none := by cases neg <;> decide
    rw [hn] at h
    exact absurd h (by simp)
  | finite neg m e =>
    cases neg with
    | true =>
      exfalso
      simp only [sprintf0f, if_true] at h
      generalize Nat.repr (roundMagnitude m e) = x at h
      unfold parseBool at h
      have n1 := minus_append_ne x "1" (by decide)
      have n2 := minus_append_ne x "t" (by decide)
      have n3 := minus_append_ne x "T" (by decide)
      have n4 := minus_append_ne x "TRUE" (by decide)
      have n5 := minus_append_ne x "true" (by decide)
      have n6 := minus_append_ne x "True" (by decide)
      have n7 := minus_append_ne x "0" (by decide)
      have n8 := minus_append_ne x "f" (by decide)
      have n9 := minus_append_ne x "F" (by decide)
      have n10 := minus_append_ne x "FALSE" (by decide)
      have n11 := minus_append_ne x "false" (by decide)
      have n12 := minus_append_ne x "False" (by decide)
      simp [n1, n2, n3, n4, n5, n6, n7, n8, n9, n10, n11, n12] at h
    | false =>
      refine ⟨m, e, rfl, ?_⟩
      simp only [sprintf0f, Bool.false_eq_true, if_false, empty_append_eq] at h
      generalize roundMagnitude m e = r at h ⊢
      unfold parseBool at h
      have n2 := repr_ne_of_last r "t" 't' (by decide) (by decide)
      have n3 := repr_ne_of_last r "T" 'T' (by decide) (by decide)
      have n4 := repr_ne_of_last r "TRUE" 'E' (by decide) (by decide)
      have n5 := repr_ne_of_last r "true" 'e' (by decide) (by decide)
      have n6 := repr_ne_of_last r "True" 'e' (by decide) (by decide)
      have n8 := repr_ne_of_last r "f" 'f' (by decide) (by decide)
      have n9 := repr_ne_of_last r "F" 'F' (by decide) (by decide)
      have n10 := repr_ne_of_last r "FALSE" 'E' (by decide) (by decide)
      have n11 := repr_ne_of_last r "false" 'e' (by decide) (by decide)
      have n12 := repr_ne_of_last r "False" 'e' (by decide) (by decide)
      simp only [n2, n3, n4, n5, n6, n8, n9, n10, n11, n12, or_false] at h
      by_cases h1 : Nat.repr r = "1"
      · simp only [h1, if_true, Option.some.injEq] at h
        exact Or.inl ⟨repr_eq_one r h1, h.symm⟩
      · simp only [h1, if_false] at h
        by_cases h0 : Nat.repr r = "0"
        · simp only [h0, if_true, Option.some.injEq] at h
          exact Or.inr ⟨repr_eq_zero r h0, h.symm⟩
        · simp [h0] at h

theorem roundHalfEven_nearest (n d : Nat) (hd : 0 < d) :
    2 * (roundHalfEven n d * d) ≤ 2 * n + d ∧ 2 * n ≤ 2 * (roundHalfEven n d * d) + d := by
  have h1 := Nat.div_add_mod n d
  have h2 := Nat.mod_lt n hd
  unfold roundHalfEven
  simp only []
  generalize n / d = q at h1 ⊢
  generalize n % d = r at h1 h2 ⊢
  have e1 : (q + 1) * d = d * q + d := by ring
  have e2 : q * d = d * q := by ring
  split_ifs <;> rw [← h1] <;> constructor <;> first | (rw [e1]; omega) | (rw [e2]; omega)

theorem roundMagnitude_nearest (m : Nat) (e : Int) :
    |(roundMagnitude m e : ℚ) - (m : ℚ) * (2 : ℚ) ^ e| ≤ 1 / 2 := by
  unfold roundMagnitude
  split_ifs with h
  · obtain ⟨k, rfl⟩ := Int.eq_ofNat_of_zero_le h
    simp [zpow_natCast]
  · obtain ⟨k, hk⟩ : ∃ k : ℕ, e = -(k : ℤ) := ⟨(-e).toNat, by omega⟩
    subst hk
    simp only [neg_neg, Int.toNat_ofNat]
    have hd : 0 < 2 ^ k := by positivity
    obtain ⟨h1, h2⟩ := roundHalfEven_nearest m (2 ^ k) hd
    generalize roundHalfEven m (2 ^ k) = r at h1 h2 ⊢
    have hx : (0 : ℚ) < 2 ^ k := by positivity
    have h1q : (2 : ℚ) * (r * 2 ^ k) ≤ 2 * m + 2 ^ k := by exact_mod_cast h1
    have h2q : (2 : ℚ) * m ≤ 2 * (r * 2 ^ k) + 2 ^ k := by exact_mod_cast h2
    rw [zpow_neg, zpow_natCast, abs_le]
    generalize (2 : ℚ) ^ k = x at hx h1q h2q ⊢
    have hxi : 0 < x⁻¹ := inv_pos.mpr hx
    have hc : x * x⁻¹ = 1 := mul_inv_cancel₀ hx.ne'
    have a1 := mul_le_mul_of_nonneg_right h1q hxi.le
    have a2 := mul_le_mul_of_nonneg_right h2q hxi.le
    have e1 : 2 * ((r : ℚ) * x) * x⁻¹ = 2 * r := by
      rw [mul_assoc, mul_assoc, hc, mul_one]
    have e2 : (2 * (m : ℚ) + x) * x⁻¹ = 2 * (m * x⁻¹) + 1 := by
      rw [add_mul, hc]; ring
    have e3 : (2 * ((r : ℚ) * x) + x) * x⁻¹ = 2 * r + 1 := by
      rw [add_mul, hc, e1]
    have e4 : 2 * (m : ℚ) * x⁻¹ = 2 * (m * x⁻¹) := by ring
    rw [e1, e2] at a1
    rw [e3, e4] at a2
    constructor <;> linarith

theorem floor_magnitude (m : Nat) (e : Int) :
    ⌊(m : ℚ) * (2 : ℚ) ^ e⌋ =
      ((if 0 ≤ e then m * 2 ^ e.toNat else m / 2 ^ (-e).toNat : Nat) : Int) := by
  split_ifs with h
  · obtain ⟨k, rfl⟩ := Int.eq_ofNat_of_zero_le h
    simp only [Int.toNat_ofNat, zpow_natCast]
    have : (m : ℚ) * 2 ^ k = ((m * 2 ^ k : ℕ) : ℚ) := by push_cast; ring
    rw [this, Int.floor_natCast]
  · obtain ⟨k, hk⟩ : ∃ k : ℕ, e = -(k : ℤ) := ⟨(-e).toNat, by omega⟩
    subst hk
    simp only [neg_neg, Int.toNat_ofNat]
    have : (m : ℚ) * (2 : ℚ) ^ (-(k : ℤ)) = ((m : ℤ) : ℚ) / ((2 ^ k : ℕ) : ℚ) := by
      rw [zpow_neg, zpow_natCast]; push_cast; ring
    rw [this, Rat.floor_intCast_div_natCast]
    push_cast
    rfl

theorem toInt_eq_truncation (neg : Bool) (m : Nat) (e : Int)
    (h : (m : ℚ) * (2 : ℚ) ^ e < 2 ^ 63) :
    F64.toInt (.finite neg m e) =
      if neg then -⌊(m : ℚ) * (2 : ℚ) ^ e⌋ else ⌊(m : ℚ) * (2 : ℚ) ^ e⌋ := by
  have hf := floor_magnitude m e
  have hlt : ⌊(m : ℚ) * (2 : ℚ) ^ e⌋ < 2 ^ 63 := by
    have h1 : (⌊(m : ℚ) * (2 : ℚ) ^ e⌋ : ℚ) ≤ (m : ℚ) * (2 : ℚ) ^ e := Int.floor_le _
    have h2 : (⌊(m : ℚ) * (2 : ℚ) ^ e⌋ : ℚ) < ((2 ^ 63 : ℤ) : ℚ) := by
      push_cast; linarith
    exact_mod_cast h2
  rw [hf] at hlt ⊢
  simp only [F64.toInt]
  generalize (if 0 ≤ e then m * 2 ^ e.toNat else m / 2 ^ (-e).toNat : Nat) = q at hlt ⊢
  have hq : q < 9223372036854775808 := by
    have : q < 2 ^ 63 := by exact_mod_cast hlt
    simpa using this
  cases neg
  · simp [hq]
  · simp only [if_true]
    rw [if_pos (by norm_num; omega)]

theorem transform_flags {env : Env} {airlines : List (String × String)}
    {airports : List (String × Airport)} {line : List String} {id : String} {flight : Flight}
    (h : transform env airlines airports line = .ok (id, flight)) :
    (∃ m1 m2, boolFlag line 14 m1 m2 = .ok flight.Canceled) ∧
      ∃ m1 m2, boolFlag line 16 m1 m2 = .ok flight.Diverted := by
  obtain ⟨hd, o, d, dl, dp, el, cs, -, -, -, -, -, h5, -, -, rfl⟩ := transform_ok_inv h
  simp only [dispositionBlock, bind_eq_ok] at h5
  obtain ⟨c, hc, r, -, dv, hdv, e5⟩ := h5
  simp only [pure, Except.pure, Except.ok.injEq] at e5
  subst e5
  exact ⟨⟨_, _, hc⟩, ⟨_, _, hdv⟩⟩

theorem flag_of_boolFlag {line : List String} {k : Nat} {m1 m2 : String} {b : Bool}
    (h : boolFlag line k m1 m2 = .ok b) :
    ∃ s m e, line.get? k = some s ∧ parseFloat s = some (.finite false m e) ∧
      |(roundMagnitude m e : ℚ) - (m : ℚ) * (2 : ℚ) ^ e| ≤ 1 / 2 ∧
      (b = true ↔ roundMagnitude m e ≠ 0) ∧ (b = false ↔ roundMagnitude m e = 0) := by
  obtain ⟨s, f, hs, hf, hb⟩ := (boolFlag_ok line k m1 m2 b).1 h
  obtain ⟨m, e, rfl, hr⟩ := parseBool_sprintf0f f b hb
  refine ⟨s, m, e, hs, hf, roundMagnitude_nearest m e, ?_, ?_⟩
  · rcases hr with ⟨h1, rfl⟩ | ⟨h0, rfl⟩
    · simp [h1]
    · simp [h0]
  · rcases hr with ⟨h1, rfl⟩ | ⟨h0, rfl⟩
    · simp [h1]
    · simp [h0]

theorem roundHalfEven_rat (n d : Nat) (hd : 0 < d) :
    |(roundHalfEven n d : ℚ) - (n : ℚ) / d| ≤ 1 / 2 := by
  obtain ⟨h1, h2⟩ := roundHalfEven_nearest n d hd
  generalize roundHalfEven n d = r at h1 h2 ⊢
  have hx : (0 : ℚ) < d := by exact_mod_cast hd
  have h1q : (2 : ℚ) * (r * d) ≤ 2 * n + d := by exact_mod_cast h1
  have h2q : (2 : ℚ) * n ≤ 2 * (r * d) + d := by exact_mod_cast h2
  rw [abs_le]
  constructor
  · rw [neg_le_sub_iff_le_add, div_le_iff₀ hx]
    linarith
  · rw [sub_le_iff_le_add, ← sub_le_iff_le_add', le_div_iff₀ hx]
    linarith

theorem significand_half_ulp (n d : Nat) (u : Int) (hd : 0 < d) :
    |(significand n d u : ℚ) * (2 : ℚ) ^ u - (n : ℚ) / d| ≤ (2 : ℚ) ^ u / 2 := by
  unfold significand
  split_ifs with h
  · obtain ⟨k, rfl⟩ := Int.eq_ofNat_of_zero_le h
    simp only [Int.toNat_ofNat, zpow_natCast]
    have hp : 0 < d * 2 ^ k := by positivity
    have hr := roundHalfEven_rat n (d * 2 ^ k) hp
    generalize roundHalfEven n (d * 2 ^ k) = r at hr ⊢
    have hx : (0 : ℚ) < 2 ^ k := by positivity
    have hdq : (0 : ℚ) < d := by exact_mod_cast hd
    have e1 : (r : ℚ) * 2 ^ k - (n : ℚ) / d =
        ((r : ℚ) - (n : ℚ) / ((d * 2 ^ k : ℕ) : ℚ)) * 2 ^ k := by
      push_cast
      field_simp
      ring
    rw [e1, abs_mul, abs_of_pos hx]
    calc |(r : ℚ) - (n : ℚ) / ((d * 2 ^ k : ℕ) : ℚ)| * 2 ^ k ≤ 1 / 2 * 2 ^ k :=
          mul_le_mul_of_nonneg_right hr hx.le
      _ = 2 ^ k / 2 := by ring
  · obtain ⟨k, hk⟩ : ∃ k : ℕ, u = -(k : ℤ) := ⟨(-u).toNat, by omega⟩
    subst hk
    simp only [neg_neg, Int.toNat_ofNat]
    have hr := roundHalfEven_rat (n * 2 ^ k) d hd
    generalize roundHalfEven (n * 2 ^ k) d = r at hr ⊢
    have hx : (0 : ℚ) < 2 ^ k := by positivity
    have hxi : (0 : ℚ) < (2 ^ k)⁻¹ := inv_pos.mpr hx
    have hdq : (0 : ℚ) < d := by exact_mod_cast hd
    rw [zpow_neg, zpow_natCast]
    have e1 : (r : ℚ) * (2 ^ k)⁻¹ - (n : ℚ) / d =
        ((r : ℚ) - ((n * 2 ^ k : ℕ) : ℚ) / d) * (2 ^ k)⁻¹ := by
      push_cast
      field_simp
      ring
    rw [e1, abs_mul, abs_of_pos hxi]
    calc |(r : ℚ) - ((n * 2 ^ k : ℕ) : ℚ) / d| * (2 ^ k)⁻¹ ≤ 1 / 2 * (2 ^ k)⁻¹ :=
          mul_le_mul_of_nonneg_right hr hxi.le
      _ = (2 ^ k)⁻¹ / 2 := by ring

theorem roundF64_half_ulp (neg : Bool) (n d : Nat) (hd : 0 < d) (f : F64)
    (h : roundF64 neg n d = some f) :
    ∃ m u, f = .finite neg m u ∧
      |(m : ℚ) * (2 : ℚ) ^ u - (n : ℚ) / d| ≤ (2 : ℚ) ^ u / 2 := by
  unfold roundF64 at h
  simp only [] at h
  split_ifs at h
  simp only [Option.some.injEq] at h
  exact ⟨_, _, h.symm, significand_half_ulp n d _ hd⟩

theorem roundHalfEven_mul (a d : Nat) (hd : 0 < d) : roundHalfEven (a * d) d = a := by
  unfold roundHalfEven
  simp [Nat.mul_div_cancel _ hd, hd]

theorem bitLengthAux_spec (fuel n : Nat) (h : n ≤ fuel) (hn : 0 < n) :
    2 ^ (bitLengthAux fuel n - 1) ≤ n ∧ n < 2 ^ bitLengthAux fuel n := by
  induction fuel generalizing n with
  | zero => omega
  | succ f ih =>
    simp only [bitLengthAux]
    rw [if_neg (by omega)]
    simp only [Nat.add_sub_cancel]
    by_cases h2 : n / 2 = 0
    · have hlt : n < 2 := by omega
      have h1 : n = 1 := by omega
      subst h1
      cases f <;> simp [bitLengthAux]
    · have hpos : 0 < n / 2 := Nat.pos_of_ne_zero h2
      obtain ⟨i1, i2⟩ := ih (n / 2) (by omega) hpos
      generalize bitLengthAux f (n / 2) = b at i1 i2 ⊢
      have hb : 0 < b := by
        rcases Nat.eq_zero_or_pos b with hb | hb
        · subst hb
          simp at i2
          omega
        · exact hb
      obtain ⟨c, rfl⟩ : ∃ c, b = c + 1 := ⟨b - 1, by omega⟩
      simp only [Nat.add_sub_cancel] at i1
      rw [pow_succ] at i2 ⊢
      constructor
      · omega
      · rw [pow_succ]
        omega

theorem bitLength_spec (n : Nat) (hn : 0 < n) :
    2 ^ (bitLength n - 1) ≤ n ∧ n < 2 ^ bitLength n :=
  bitLengthAux_spec n n (Nat.le_refl n) hn

theorem ulpExponent_nonpos (v d : Nat) (hd : 0 < d) (hv : 0 < v) (hlt : v < 2 ^ 53) :
    ulpExponent (v * d) d ≤ 0 := by
  unfold ulpExponent
  simp only []
  have hn : 0 < v * d := Nat.mul_pos hv hd
  obtain ⟨n1, n2⟩ := bitLength_spec (v * d) hn
  obtain ⟨d1, d2⟩ := bitLength_spec d hd
  generalize bitLength (v * d) = bn at n1 n2 ⊢
  generalize bitLength d = bd at d1 d2 ⊢
  have hbn : bn ≤ bd + 53 := by
    by_contra hc
    have h54 : bd + 53 ≤ bn - 1 := by omega
    have : 2 ^ (bd + 53) ≤ 2 ^ (bn - 1) := Nat.pow_le_pow_right (by decide) h54
    have h3 : 2 ^ (bd + 53) ≤ v * d := le_trans this n1
    rw [pow_add] at h3
    have h4 : v * d < 2 ^ 53 * 2 ^ bd := by
      calc v * d < 2 ^ 53 * d := Nat.mul_lt_mul_of_pos_right hlt hd
        _ ≤ 2 ^ 53 * 2 ^ bd := Nat.mul_le_mul_left _ d2.le
    rw [Nat.mul_comm] at h3
    omega
  have key : (if (if (0 : Int) ≤ (bn : Int) - (bd : Int)
        then decide (d * 2 ^ ((bn : Int) - (bd : Int)).toNat ≤ v * d)
        else decide (d ≤ v * d * 2 ^ (-((bn : Int) - (bd : Int))).toNat)) = true
      then (bn : Int) - (bd : Int) else (bn : Int) - (bd : Int) - 1) ≤ 52 := by
    split_ifs with a b c
    · by_contra hc
      have e53 : ((bn : Int) - (bd : Int)).toNat = 53 := by omega
      rw [e53] at b
      simp only [decide_eq_true_eq] at b
      have : d * 2 ^ 53 ≤ d * v := by rw [Nat.mul_comm d v]; exact b
      have := Nat.le_of_mul_le_mul_left this hd
      omega
    · omega
    · omega
    · omega
  omega

theorem roundF64_integer (neg : Bool) (v d : Nat) (hd : 0 < d) (hv : 0 < v)
    (hlt : v < 2 ^ 53) :
    ∃ m u, roundF64 neg (v * d) d = some (.finite neg m u) ∧
      F64.toInt (.finite neg m u) = if neg then -(v : Int) else (v : Int) := by
  have hu := ulpExponent_nonpos v d hd hv hlt
  unfold roundF64
  simp only []
  generalize ulpExponent (v * d) d = u at hu ⊢
  rw [if_neg (by omega)]
  refine ⟨_, _, rfl, ?_⟩
  obtain ⟨k, hk⟩ : ∃ k : ℕ, u = -(k : ℤ) := ⟨(-u).toNat, by omega⟩
  subst hk
  have hs : significand (v * d) d (-(k : ℤ)) = v * 2 ^ k := by
    unfold significand
    rcases Nat.eq_zero_or_pos k with h0 | hpos
    · subst h0
      simp [roundHalfEven_mul v d hd]
    · rw [if_neg (by omega)]
      simp only [neg_neg, Int.toNat_ofNat]
      have : v * d * 2 ^ k = v * 2 ^ k * d := by ring
      rw [this, roundHalfEven_mul _ d hd]
  rw [hs]
  have hq : (if (0 : Int) ≤ -(k : ℤ) then v * 2 ^ k * 2 ^ (-(k : ℤ)).toNat
      else v * 2 ^ k / 2 ^ (-(-(k : ℤ))).toNat) = v := by
    rcases Nat.eq_zero_or_pos k with h0 | hpos
    · subst h0
      simp
    · rw [if_neg (by omega)]
      simp only [neg_neg, Int.toNat_ofNat]
      exact Nat.mul_div_cancel _ (by positivity)
  simp only [F64.toInt, hq]
  have hv63 : v < 9223372036854775808 := by
    have : (2 : ℕ) ^ 53 = 9007199254740992 := by norm_num
    omega
  cases neg
  · simp [hv63]
  · simp only [if_true]
    rw [if_pos (by norm_num; omega)]

theorem integer_numeral_exact (neg : Bool) (v k : Nat) (hlt : v < 2 ^ 53) :
    (Numeral.toF64 { neg := neg, hex := false, mant := v * 10 ^ k, exp := -(k : ℤ) }).map
        F64.toInt = some (if neg then -(v : Int) else (v : Int)) := by
  unfold Numeral.toF64
  simp only []
  rcases Nat.eq_zero_or_pos v with h0 | hv
  · subst h0
    cases neg <;> simp [F64.toInt]
  · have hm : v * 10 ^ k ≠ 0 := by positivity
    rw [if_neg hm]
    simp only [Bool.false_eq_true, if_false]
    rcases Nat.eq_zero_or_pos k with hk | hk
    · subst hk
      obtain ⟨m, u, h1, h2⟩ := roundF64_integer neg v 1 (by decide) hv hlt
      simp only [Nat.mul_one] at h1
      simp [h1, h2]
    · rw [if_neg (by omega)]
      simp only [neg_neg, Int.toNat_ofNat]
      obtain ⟨m, u, h1, h2⟩ := roundF64_integer neg v (10 ^ k) (by positivity) hv hlt
      simp [h1, h2]

/-! ## The claims -/

/-- C1: for every flight row with fields 0 to 6, the delivery identity is
date "." scheduled-departure clock "." carrier ++ number "." tail "." origin "."
destination (fields 0, 6, 1, 3, 2, 4, 5); it is the `Id` of the create request that
the loop hands to the bulk processor; an empty tail number stays as an empty
segment; the sample of the source comment gives
`2017-01-31.1200.AA123.N1234.ORD.SFO`. -/
theorem identity_is_dotted_concatenation (env : Env) (airlines : List (String × String))
    (airports : List (String × Airport))
    (date carrier tail number origin dest clock : String) (rest : List String) :
    flightId (date :: carrier :: tail :: number :: origin :: dest :: clock :: rest) =
        .ok (date ++ "." ++ clock ++ "." ++ carrier ++ number ++ "." ++ tail ++ "." ++
          origin ++ "." ++ dest) ∧
      (∀ req, processLine env airlines airports
            (date :: carrier :: tail :: number :: origin :: dest :: clock :: rest) =
              .ok (some req) →
          req.Id = date ++ "." ++ clock ++ "." ++ carrier ++ number ++ "." ++ tail ++ "." ++
            origin ++ "." ++ dest ∧ req.OpType = "create") ∧
      flightId ["2017-01-31", "AA", "N1234", "123", "ORD", "SFO", "1200"] =
        .ok "2017-01-31.1200.AA123.N1234.ORD.SFO" ∧
      flightId ["2017-01-31", "AA", "", "123", "ORD", "SFO", "1200"] =
        .ok "2017-01-31.1200.AA123..ORD.SFO" := by
  have hid : flightId (date :: carrier :: tail :: number :: origin :: dest :: clock :: rest) =
      .ok (date ++ "." ++ clock ++ "." ++ carrier ++ number ++ "." ++ tail ++ "." ++
        origin ++ "." ++ dest) := rfl
  refine ⟨hid, ?_, by decide, by decide⟩
  intro req h
  simp only [processLine, bind_eq_ok, index_eq_ok] at h
  obtain ⟨l0, -, h⟩ := h
  split_ifs at h with hh
  · simp [pure, Except.pure] at h
  · simp only [bind_eq_ok] at h
    obtain ⟨⟨id, flight⟩, ht, hreq⟩ := h
    obtain ⟨hd, o, d, dl, dp, el, cs, h0, -⟩ := transform_ok_inv ht
    rw [hid] at h0
    simp only [Except.ok.injEq] at h0
    simp only [pure, Except.pure, Except.ok.injEq, Option.some.injEq] at hreq
    subst hreq
    exact ⟨h0.symm, rfl⟩

/-- Witness of C1 on the sample record. -/
theorem identity_is_dotted_concatenation_witness :
    processLine summerEnv sampleAirlines sampleAirports sampleLine =
        .ok (some sampleRequest) ∧
      sampleRequest.Id =
        "2017-01-31" ++ "." ++ "1200" ++ "." ++ "AA" ++ "123" ++ "." ++ "N1234" ++ "." ++
          "ORD" ++ "." ++ "SFO" :=
  ⟨by decide,
   ((identity_is_dotted_concatenation summerEnv sampleAirlines sampleAirports "2017-01-31"
      "AA" "N1234" "123" "ORD" "SFO" "1200" (sampleLine.drop 7)).2.1 sampleRequest
        (show processLine summerEnv sampleAirlines sampleAirports sampleLine =
          .ok (some sampleRequest) by decide)).1⟩

/-- C2 (the code departs from the claim): the actual-departure, scheduled-arrival
and actual-arrival blocks rewrite `"2400"` to `"2359"`, so both values give the same
timestamp there; the scheduled-departure block has no such rewrite, and a row whose
scheduled-departure clock is `"2400"` ends the run with a parse error, while the same
row with `"2359"` is transformed. -/
theorem scheduled_departure_2400_not_rolled :
    transform summerEnv sampleAirlines sampleAirports (sampleLine.set 6 "2400") =
        .error (.exit "Error parsing Sched Dep Time into Time") ∧
      (transform summerEnv sampleAirlines sampleAirports (sampleLine.set 6 "2359")).toOption.map
          (fun r => r.2.ScheduledDepTime) = some "2017-01-31T23:59:00-05:00" ∧
      (∀ (zone : Zone) (date msg : String),
          clockField zone date "2400" msg true = clockField zone date "2359" msg true) ∧
      (transform summerEnv sampleAirlines sampleAirports (sampleLine.set 7 "2400")).toOption.map
          (fun r => r.2.ActualDepTime) = some (some "2017-01-31T23:59:00-05:00") := by
  refine ⟨by decide, by decide, ?_, by decide⟩
  intro zone date msg
  rfl

/-- C3 (the code departs from the claim): the offset of a timestamp is the one that
the airport's zone has when the program runs. The sample flight of 2017-01-31 from
Chicago gets `-05:00` in a run on 2018-08-01 and `-06:00` in a run on 2018-01-15,
while Chicago's offset is `-06:00` (-21600 s) at every instant from 2017-01-30 to
2017-02-02. -/
theorem offset_taken_at_run_time :
    (transform summerEnv sampleAirlines sampleAirports sampleLine).toOption.map
        (fun r => r.2.ScheduledDepTime) = some "2017-01-31T12:00:00-05:00" ∧
      (transform winterEnv sampleAirlines sampleAirports sampleLine).toOption.map
        (fun r => r.2.ScheduledDepTime) = some "2017-01-31T12:00:00-06:00" ∧
      (∀ t : Int, 1485734400 ≤ t → t ≤ 1485993600 → (chicago t).offset = -21600) := by
  refine ⟨by decide, by decide, ?_⟩
  intro t _ h2
  have : t < 1489305600 := by omega
  simp [chicago, this]

/-- C4 (the code departs from the claim): `checkForErrors` ends the process exactly
when `err` is not `nil` and never looks at the response; with a `nil` error and a
response that holds a failed item (a 409 conflict of a create-only write) it returns
and the run goes on. -/
theorem checkForErrors_ignores_failed_items :
    (∀ (executionId : Int) (requests : List BulkIndexRequest)
        (response : Option BulkResponse) (err : Option String),
        checkForErrors executionId requests response err =
          if err.isSome then .error (.exit "Bulk Insert Error") else .ok ()) ∧
      (BulkResponse.Failed
          { Took := 3, Errors := true,
            Items := [{ Id := "2017-01-31.1200.AA123.N1234.ORD.SFO", Status := 409,
                        Error := some "version_conflict_engine_exception" }] }).length = 1 ∧
      checkForErrors 1 []
          (some { Took := 3, Errors := true,
                  Items := [{ Id := "2017-01-31.1200.AA123.N1234.ORD.SFO", Status := 409,
                              Error := some "version_conflict_engine_exception" }] })
          none = .ok () := by
  refine ⟨?_, by decide, rfl⟩
  intro _ _ _ err
  cases err <;> rfl

/-- C5: for every successfully transformed row the cancellation reason is decided
by field 15 alone: "A", "B", "C", "D" give "Carrier", "Weather", "National Air
System", "Security"; any other code, blank included, gives no reason; and any other
successful transform with the same code (whatever its canceled indicator, field 14,
and its other fields are) gives the same reason. -/
theorem cancellation_reason_from_code {env : Env} {airlines : List (String × String)}
    {airports : List (String × Airport)} {line : List String} {id : String} {flight : Flight}
    (h : transform env airlines airports line = .ok (id, flight)) :
    ∃ code, line.get? 15 = some code ∧
      (code = "A" → flight.CancelationReason = some "Carrier") ∧
      (code = "B" → flight.CancelationReason = some "Weather") ∧
      (code = "C" → flight.CancelationReason = some "National Air System") ∧
      (code = "D" → flight.CancelationReason = some "Security") ∧
      (code ≠ "A" → code ≠ "B" → code ≠ "C" → code ≠ "D" →
        flight.CancelationReason = none) ∧
      (flight.CancelationReason.isSome ↔
        code = "A" ∨ code = "B" ∨ code = "C" ∨ code = "D") ∧
      ∀ (env2 : Env) (airlines2 : List (String × String))
        (airports2 : List (String × Airport)) (line2 : List String) (id2 : String)
        (flight2 : Flight),
        transform env2 airlines2 airports2 line2 = .ok (id2, flight2) →
        line2.get? 15 = some code → flight2.CancelationReason = flight.CancelationReason := by
  obtain ⟨code, hc, hr⟩ := (cancelationReason_ok line _).1 (transform_reason h)
  refine ⟨code, hc, ?_, ?_, ?_, ?_, ?_, ?_, ?_⟩
  · intro e; rw [hr]; simp [e]
  · intro e; rw [hr]; simp [e]
  · intro e; rw [hr]; simp [e]
  · intro e; rw [hr]; simp [e]
  · intro a b c d; rw [hr]; simp [a, b, c, d]
  · rw [hr]; split_ifs <;> simp_all
  · intro env2 airlines2 airports2 line2 id2 flight2 h2 hc2
    obtain ⟨code2, hc2', hr2⟩ := (cancelationReason_ok line2 _).1 (transform_reason h2)
    rw [hc2] at hc2'
    simp only [Option.some.injEq] at hc2'
    subst hc2'
    rw [hr, hr2]

/-- Witness of C5: the sample record with code "B" and canceled indicator "1.00". -/
theorem cancellation_reason_from_code_witness :
    transform summerEnv sampleAirlines sampleAirports
        ((sampleLine.set 14 "1.00").set 15 "B") =
        .ok ("2017-01-31.1200.AA123.N1234.ORD.SFO",
          { sampleFlight with Canceled := true, CancelationReason := some "Weather" }) ∧
      ∃ code, ((sampleLine.set 14 "1.00").set 15 "B").get? 15 = some code ∧
        (code = "B" →
          ({ sampleFlight with Canceled := true, CancelationReason := some "Weather" } :
            Flight).CancelationReason = some "Weather") :=
  ⟨by decide,
   let ⟨code, hc, _, hB, _⟩ := cancellation_reason_from_code
     (show transform summerEnv sampleAirlines sampleAirports
        ((sampleLine.set 14 "1.00").set 15 "B") =
        .ok ("2017-01-31.1200.AA123.N1234.ORD.SFO",
          { sampleFlight with Canceled := true, CancelationReason := some "Weather" }) by
        decide)
   ⟨code, hc, hB⟩⟩

/-- C6: for every successfully transformed row, the tail number is present exactly
when field 2 is non-blank (and is then that field), and each optional minute field
(departure delay, taxi-out, taxi-in, arrival delay, scheduled elapsed, actual
elapsed, air time, and the five causal delays: source fields 8, 9, 10, 13, 17, 18,
19, 22-26) is present exactly when its source field is non-blank; a blank source
field gives an absent value, never zero. -/
theorem optional_present_iff_nonblank {env : Env} {airlines : List (String × String)}
    {airports : List (String × Airport)} {line : List String} {id : String} {flight : Flight}
    (h : transform env airlines airports line = .ok (id, flight)) :
    (∃ t, line.get? 2 = some t ∧ (flight.Tail.isSome ↔ t ≠ "") ∧
        (t ≠ "" → flight.Tail = some t)) ∧
      ∀ k ∈ optionalFields, ∃ s, line.get? k = some s ∧
        ((storedInt flight k).isSome ↔ s ≠ "") ∧
        (s = "" → storedInt flight k = none ∧ storedInt flight k ≠ some 0) := by
  constructor
  · obtain ⟨hd, o, d, dl, dp, el, cs, -, h1, -, -, -, -, -, -, rfl⟩ := transform_ok_inv h
    obtain ⟨l1, l2, l3, -, h2, -, rfl⟩ := (headBlock_ok airlines line hd).1 h1
    refine ⟨l2, h2, ?_, ?_⟩
    · by_cases hb : l2 = "" <;> simp [assemble, hb]
    · intro hb
      simp [assemble, hb]
  · intro k hk
    obtain ⟨msg, hm⟩ := transform_optional h k hk
    obtain ⟨s, hs, hv⟩ := (optMinutes_ok line k msg _).1 hm
    refine ⟨s, hs, ?_, ?_⟩
    · rcases hv with ⟨hb, hn⟩ | ⟨hb, f, -, hf⟩
      · simp [hb, hn]
      · simp [hb, hf]
    · intro hb
      rcases hv with ⟨-, hn⟩ | ⟨hb2, -⟩
      · simp [hn]
      · exact absurd hb hb2

/-- Witness of C6 on the sample record: the tail number and the departure delay are
given and present, the five causal delays are blank and absent. -/
theorem optional_present_iff_nonblank_witness :
    transform summerEnv sampleAirlines sampleAirports sampleLine =
        .ok ("2017-01-31.1200.AA123.N1234.ORD.SFO", sampleFlight) ∧
      (∃ t, sampleLine.get? 2 = some t ∧ (sampleFlight.Tail.isSome ↔ t ≠ "") ∧
        (t ≠ "" → sampleFlight.Tail = some t)) ∧
      (∃ s, sampleLine.get? 8 = some s ∧ ((storedInt sampleFlight 8).isSome ↔ s ≠ "")) ∧
      (∃ s, sampleLine.get? 22 = some s ∧ ((storedInt sampleFlight 22).isSome ↔ s ≠ "")) :=
  ⟨transform_sample, (optional_present_iff_nonblank transform_sample).1,
   let ⟨s, hs, hv, _⟩ := (optional_present_iff_nonblank transform_sample).2 8 (by decide)
   ⟨s, hs, hv⟩,
   let ⟨s, hs, hv, _⟩ := (optional_present_iff_nonblank transform_sample).2 22 (by decide)
   ⟨s, hs, hv⟩⟩

/-- C9: for every flight row whose origin code (field 4) or destination code
(field 5) is not a key of the airport table, the transform fails and gives no
record; with a missing origin on a row of at least seven fields the failure is the
logged exit "Error getting origin airport"; and a failed transform of a row that is
not a header makes the loop turn fail in the same way, so that no request is handed
to the bulk processor. -/
theorem missing_airport_is_fatal (env : Env) (airlines : List (String × String))
    (airports : List (String × Airport)) (line : List String) :
    (∀ o, line.get? 4 = some o → airports.lookup o = none →
        (∃ e, transform env airlines airports line = .error e) ∧
        (7 ≤ line.length →
          transform env airlines airports line =
            .error (.exit "Error getting origin airport"))) ∧
      (∀ d, line.get? 5 = some d → airports.lookup d = none →
        ∃ e, transform env airlines airports line = .error e) ∧
      (∀ e, transform env airlines airports line = .error e →
        line.get? 0 ≠ some "FL_DATE" →
        processLine env airlines airports line = .error e) := by
  refine ⟨?_, ?_, ?_⟩
  · intro o ho hl
    constructor
    · apply error_of_not_ok
      rintro ⟨id, flight⟩ h
      obtain ⟨hd, ob, d, dl, dp, el, cs, -, -, h2, -⟩ := transform_ok_inv h
      obtain ⟨l4, h4, hl4⟩ := originBlock_ok_lookup h2
      rw [ho] at h4
      simp only [Option.some.injEq] at h4
      subst h4
      rw [hl] at hl4
      exact absurd hl4 (by simp)
    · intro hlen
      match line, hlen, ho with
      | l0 :: l1 :: l2 :: l3 :: l4 :: l5 :: l6 :: rest, _, ho =>
        simp only [List.get?_cons_succ, List.get?_cons_zero, Option.some.injEq] at ho
        subst ho
        simp [transform, flightId, headBlock, originBlock, index, bind, Except.bind,
          pure, Except.pure, hl]
  · intro d hd hl
    apply error_of_not_ok
    rintro ⟨id, flight⟩ h
    obtain ⟨hd', ob, db, dl, dp, el, cs, -, -, -, h3, -⟩ := transform_ok_inv h
    obtain ⟨l5, h5, hl5⟩ := destBlock_ok_lookup h3
    rw [hd] at h5
    simp only [Option.some.injEq] at h5
    subst h5
    rw [hl] at hl5
    exact absurd hl5 (by simp)
  · intro e h hh
    exact processLine_of_transform_error env airlines airports line e h hh

/-- Witness of C9: the sample record with an airport table that lacks ORD, and with
one that lacks SFO. -/
theorem missing_airport_is_fatal_witness :
    (sampleLine.get? 4 = some "ORD" ∧ (sampleAirports.drop 1).lookup "ORD" = none ∧
        transform summerEnv sampleAirlines (sampleAirports.drop 1) sampleLine =
          .error (.exit "Error getting origin airport")) ∧
      (sampleLine.get? 5 = some "SFO" ∧ (sampleAirports.take 1).lookup "SFO" = none ∧
        ∃ e, transform summerEnv sampleAirlines (sampleAirports.take 1) sampleLine =
          .error e) :=
  ⟨⟨by decide, by decide,
     ((missing_airport_is_fatal summerEnv sampleAirlines (sampleAirports.drop 1)
        sampleLine).1 "ORD" (by decide) (by decide)).2 (by decide)⟩,
   ⟨by decide, by decide,
     (missing_airport_is_fatal summerEnv sampleAirlines (sampleAirports.take 1)
        sampleLine).2.1 "SFO" (by decide) (by decide)⟩⟩

/-- C10: a carrier code missing from the airline table never causes a failure: a
transform that fails with one airline table fails in the same way with every other
airline table; and in every record the carrier is field 1 of the row, the airline
name is the empty string when the carrier is not in the table and the table's name
for it when it is. -/
theorem airline_miss_is_not_fatal (env : Env) (airlines : List (String × String))
    (airports : List (String × Airport)) (line : List String) :
    (∀ (airlines2 : List (String × String)) (e : Failure),
        transform env airlines airports line = .error e →
        transform env airlines2 airports line = .error e) ∧
      (∀ id flight, transform env airlines airports line = .ok (id, flight) →
        ∃ c, line.get? 1 = some c ∧ flight.Carrier = c ∧
          (airlines.lookup c = none → flight.Airline = "") ∧
          (∀ n, airlines.lookup c = some n → flight.Airline = n)) := by
  constructor
  · intro airlines2 e h
    simp only [transform] at h ⊢
    cases h0 : flightId line with
    | error e0 => simpa [h0, bind, Except.bind] using h
    | ok id =>
      cases h1 : headBlock airlines line with
      | error e1 =>
        have h1b := headBlock_error airlines airlines2 line e1 h1
        simpa [h0, h1, h1b, bind, Except.bind] using h
      | ok hd =>
        obtain ⟨l1, l2, l3, g1, g2, g3, -⟩ := (headBlock_ok airlines line hd).1 h1
        have h1b := (headBlock_ok airlines2 line _).2 ⟨l1, l2, l3, g1, g2, g3, rfl⟩
        simp only [h0, h1, h1b, bind, Except.bind] at h ⊢
        cases h2 : originBlock env airports line with
        | error e2 => simpa [h2] using h
        | ok o =>
          cases h3 : destBlock env airports line with
          | error e3 => simpa [h2, h3] using h
          | ok d =>
            cases h4 : delayBlock line with
            | error e4 => simpa [h2, h3, h4] using h
            | ok dl =>
              cases h5 : dispositionBlock line with
              | error e5 => simpa [h2, h3, h4, h5] using h
              | ok dp =>
                cases h6 : elapsedBlock line with
                | error e6 => simpa [h2, h3, h4, h5, h6] using h
                | ok el =>
                  cases h7 : causeBlock line with
                  | error e7 => simpa [h2, h3, h4, h5, h6, h7] using h
                  | ok cs => simp [h2, h3, h4, h5, h6, h7, pure, Except.pure] at h
  · intro id flight h
    obtain ⟨hd, o, d, dl, dp, el, cs, -, h1, -, -, -, -, -, -, rfl⟩ := transform_ok_inv h
    obtain ⟨l1, l2, l3, g1, -, -, rfl⟩ := (headBlock_ok airlines line hd).1 h1
    refine ⟨l1, g1, rfl, ?_, ?_⟩
    · intro hn
      simp [assemble, hn]
    · intro n hn
      simp [assemble, hn]

/-- Witness of C10: the sample record with its airline table and with the empty
airline table. -/
theorem airline_miss_is_not_fatal_witness :
    (transform summerEnv [] sampleAirports sampleLine =
        .ok ("2017-01-31.1200.AA123.N1234.ORD.SFO", { sampleFlight with Airline := "" }) ∧
      ∃ c, sampleLine.get? 1 = some c ∧
        ({ sampleFlight with Airline := "" } : Flight).Carrier = c ∧
        (([] : List (String × String)).lookup c = none →
          ({ sampleFlight with Airline := "" } : Flight).Airline = "")) ∧
      (transform summerEnv sampleAirlines sampleAirports (sampleLine.set 6 "2400") =
          .error (.exit "Error parsing Sched Dep Time into Time") ∧
        transform summerEnv [] sampleAirports (sampleLine.set 6 "2400") =
          .error (.exit "Error parsing Sched Dep Time into Time")) :=
  ⟨⟨by decide,
    let ⟨c, hc, hcar, hnone, _⟩ :=
      (airline_miss_is_not_fatal summerEnv [] sampleAirports sampleLine).2 _ _
        (show transform summerEnv [] sampleAirports sampleLine =
          .ok ("2017-01-31.1200.AA123.N1234.ORD.SFO", { sampleFlight with Airline := "" }) by
          decide)
    ⟨c, hc, hcar, hnone⟩⟩,
   ⟨by decide,
    (airline_miss_is_not_fatal summerEnv sampleAirlines sampleAirports
      (sampleLine.set 6 "2400")).1 [] _ (by decide)⟩⟩

/-- C7, as stated, fails on the code: the canceled indicator "0x1p0" is no decimal
number (`readFloat` reads it as a hexadecimal numeral), and the row does not fail:
`strconv.ParseFloat` takes it for 1, printed as "1", and the flag is true. -/
theorem hexadecimal_indicator_is_accepted :
    (readFloat (bytes "0x1p0")).map (fun r => (r.1.hex, r.2)) = some (true, []) ∧
      (parseFloat "0x1p0").map sprintf0f = some "1" ∧
      (transform summerEnv sampleAirlines sampleAirports
          (sampleLine.set 14 "0x1p0")).toOption.map
        (fun r => r.2.Canceled) = some true := by
  refine ⟨by decide, by decide, by decide⟩

/-- C7, amended: for the canceled and diverted indicators (fields 14 and 16): when
`strconv.ParseFloat` rejects the text, or when its value printed with `%.0f` (rounded
to the nearest whole number) is rejected by `strconv.ParseBool`, the indicator
block ends with its logged exit and the transform gives no record; in every record
the indicator is a finite non-negative number whose rounded value (at most one half
away from it) is non-zero exactly when the flag is true and zero exactly when it is
false. -/
theorem flags_rounded_or_fatal (env : Env) (airlines : List (String × String))
    (airports : List (String × Airport)) (line : List String) :
    (∀ k s, k = 14 ∨ k = 16 → line.get? k = some s →
        (parseFloat s = none ∨
          ∃ f, parseFloat s = some f ∧ parseBool (sprintf0f f) = none) →
        ∃ e, transform env airlines airports line = .error e) ∧
      (∀ k s m1 m2, line.get? k = some s →
        (parseFloat s = none → boolFlag line k m1 m2 = .error (.exit m1)) ∧
        (∀ f, parseFloat s = some f → parseBool (sprintf0f f) = none →
          boolFlag line k m1 m2 = .error (.exit m2))) ∧
      (∀ id flight, transform env airlines airports line = .ok (id, flight) →
        (∃ s m e, line.get? 14 = some s ∧ parseFloat s = some (.finite false m e) ∧
          |(roundMagnitude m e : ℚ) - (m : ℚ) * (2 : ℚ) ^ e| ≤ 1 / 2 ∧
          (flight.Canceled = true ↔ roundMagnitude m e ≠ 0) ∧
          (flight.Canceled = false ↔ roundMagnitude m e = 0)) ∧
        (∃ s m e, line.get? 16 = some s ∧ parseFloat s = some (.finite false m e) ∧
          |(roundMagnitude m e : ℚ) - (m : ℚ) * (2 : ℚ) ^ e| ≤ 1 / 2 ∧
          (flight.Diverted = true ↔ roundMagnitude m e ≠ 0) ∧
          (flight.Diverted = false ↔ roundMagnitude m e = 0))) := by
  refine ⟨?_, ?_, ?_⟩
  · intro k s hk hs hbad
    apply error_of_not_ok
    rintro ⟨id, flight⟩ h
    obtain ⟨⟨a1, a2, hc⟩, ⟨b1, b2, hdv⟩⟩ := transform_flags h
    have key : ∀ m1 m2 b, boolFlag line k m1 m2 = .ok b → False := by
      intro m1 m2 b hb
      obtain ⟨s2, f, hs2, hf, hpb⟩ := (boolFlag_ok line k m1 m2 b).1 hb
      rw [hs] at hs2
      simp only [Option.some.injEq] at hs2
      subst hs2
      rcases hbad with hn | ⟨f2, hf2, hn⟩
      · rw [hn] at hf
        exact absurd hf (by simp)
      · rw [hf2] at hf
        simp only [Option.some.injEq] at hf
        subst hf
        rw [hn] at hpb
        exact absurd hpb (by simp)
    rcases hk with rfl | rfl
    · exact key _ _ _ hc
    · exact key _ _ _ hdv
  · intro k s m1 m2 hs
    have hi : index line k = .ok s := (index_eq_ok line k s).2 hs
    constructor
    · intro hn
      simp [boolFlag, hi, hn, bind, Except.bind]
    · intro f hf hn
      simp [boolFlag, hi, hf, hn, bind, Except.bind]
  · intro id flight h
    obtain ⟨⟨a1, a2, hc⟩, ⟨b1, b2, hdv⟩⟩ := transform_flags h
    exact ⟨flag_of_boolFlag hc, flag_of_boolFlag hdv⟩

/-- Witness of C7 (amended): a canceled indicator "abc" (no number) and "2.00" (rounds to
"2", no boolean token) make the sample record fail; "0.00" gives `false` and "1.00"
gives `true`. -/
theorem flags_rounded_or_fatal_witness :
    ((sampleLine.set 14 "abc").get? 14 = some "abc" ∧ parseFloat "abc" = none ∧
        ∃ e, transform summerEnv sampleAirlines sampleAirports (sampleLine.set 14 "abc") =
          .error e) ∧
      ((sampleLine.set 14 "2.00").get? 14 = some "2.00" ∧
        (parseFloat "2.00").map sprintf0f = some "2" ∧
        ∃ e, transform summerEnv sampleAirlines sampleAirports (sampleLine.set 14 "2.00") =
          .error e) ∧
      (transform summerEnv sampleAirlines sampleAirports sampleLine =
          .ok ("2017-01-31.1200.AA123.N1234.ORD.SFO", sampleFlight) ∧
        ∃ s m e, sampleLine.get? 14 = some s ∧ parseFloat s = some (.finite false m e) ∧
          (sampleFlight.Canceled = false ↔ roundMagnitude m e = 0)) ∧
      (transform summerEnv sampleAirlines sampleAirports (sampleLine.set 14 "1.00")).toOption.map
          (fun r => r.2.Canceled) = some true :=
  ⟨⟨by decide, by decide,
     (flags_rounded_or_fatal summerEnv sampleAirlines sampleAirports
        (sampleLine.set 14 "abc")).1 14 "abc" (Or.inl rfl) (by decide)
        (Or.inl (by decide))⟩,
   ⟨by decide, by decide,
     (flags_rounded_or_fatal summerEnv sampleAirlines sampleAirports
        (sampleLine.set 14 "2.00")).1 14 "2.00" (Or.inl rfl) (by decide)
        (Or.inr ⟨.finite false 4503599627370496 (-51), by decide, by decide⟩)⟩,
   ⟨transform_sample,
     let ⟨s, m, e, hs, hf, _, _, h0⟩ :=
       ((flags_rounded_or_fatal summerEnv sampleAirlines sampleAirports sampleLine).2.2 _ _
         transform_sample).1
     ⟨s, m, e, hs, hf, h0⟩⟩,
   by decide⟩

/-! ### Numerals and their `float64` -/

theorem digit_cases (b : UInt8) (h : isDigit b = true) :
    b ∈ [(48 : UInt8), 49, 50, 51, 52, 53, 54, 55, 56, 57] := by
  have h1 : 48 ≤ b.toNat ∧ b.toNat ≤ 57 := by
    simpa [isDigit] using h
  have hb : b = UInt8.ofNat b.toNat := by
    cases b with
    | mk v =>
      apply congrArg UInt8.mk
      simp [UInt8.toNat]
  generalize b.toNat = n at h1 hb
  subst hb
  obtain ⟨h48, h57⟩ := h1
  interval_cases n <;> decide

theorem lower_digit (b : UInt8) (h : isDigit b = true ∨ b = 46) : lower b ≠ 120 := by
  rcases h with h | h
  · have := digit_cases b h
    simp only [List.mem_cons, List.mem_singleton, List.not_mem_nil, or_false] at this
    rcases this with rfl | rfl | rfl | rfl | rfl | rfl | rfl | rfl | rfl | rfl <;> decide
  · subst h
    decide

theorem isDigit_ne {a : UInt8} (h : isDigit a = true) :
    a ≠ 95 ∧ a ≠ 46 ∧ a ≠ 43 ∧ a ≠ 45 := by
  have := digit_cases a h
  simp only [List.mem_cons, List.mem_singleton, List.not_mem_nil, or_false] at this
  rcases this with rfl | rfl | rfl | rfl | rfl | rfl | rfl | rfl | rfl | rfl <;> decide

theorem readUnsigned_decimal (neg : Bool) (s : List UInt8) (st : Scan) (rest : List UInt8)
    (hh : ∀ a b c t, s = a :: b :: c :: t → ¬ (a = 48 ∧ lower b = 120))
    (hs : scanDigits false s {} = (st, rest)) :
    readUnsigned neg s =
      if ¬ st.sawdigits then none
      else
        match readExp false rest with
        | none => none
        | some (e, u, rest2) =>
          some ({ neg := neg, hex := false, mant := st.mant, exp := e - st.frac },
                st.underscores || u, rest2) := by
  unfold readUnsigned
  lift_lets
  intro hex
  have hhex : hex = false := by
    rcases s with _ | ⟨a, _ | ⟨b, _ | ⟨c, t⟩⟩⟩
    · rfl
    · rfl
    · rfl
    · have h := hh a b c t rfl
      show decide (a = 48 ∧ lower b = 120) = false
      simpa using h
  clear_value hex
  subst hhex
  simp only [Bool.false_eq_true, if_false, hs]

theorem readUnsigned_none (neg : Bool) (a : UInt8) (rest : List UInt8)
    (hd : isDigit a = false) (h46 : a ≠ 46) (h95 : a ≠ 95) :
    readUnsigned neg (a :: rest) = none := by
  have h48 : a ≠ 48 := by
    intro h
    subst h
    revert hd
    decide
  have hhex : ∀ a2 b c t, a :: rest = a2 :: b :: c :: t → ¬ (a2 = 48 ∧ lower b = 120) := by
    intro a2 b c t heq hc
    simp only [List.cons.injEq] at heq
    exact h48 (heq.1.trans hc.1)
  have hs : scanDigits false (a :: rest) {} = ({}, a :: rest) := by
    simp [scanDigits, h95, h46, hd]
  rw [readUnsigned_decimal neg _ _ _ hhex hs]
  rfl

theorem special_excludes_numeral (l : List UInt8) (r : F64 × Nat) (h : special l = some r) :
    readFloat l = none := by
  have hinf : bytes "infinity" = [105, 110, 102, 105, 110, 105, 116, 121] := by decide
  cases l with
  | nil => rfl
  | cons c cs =>
    simp only [special] at h
    by_cases hs : c = 43 ∨ c = 45
    · rw [if_pos hs] at h
      cases hi : specialInf cs with
      | none => simp [hi] at h
      | some n =>
        have hcs : ∃ c1 cs2, cs = c1 :: cs2 ∧ isDigit c1 = false ∧ c1 ≠ 46 ∧ c1 ≠ 95 := by
          cases cs with
          | nil =>
            exfalso
            revert hi
            simp [specialInf, commonPrefixLenIgnoreCase]
          | cons c1 cs2 =>
            refine ⟨c1, cs2, rfl, ?_⟩
            by_contra hbad
            have hz : commonPrefixLenIgnoreCase (c1 :: cs2) (bytes "infinity") = 0 := by
              rw [hinf]
              simp only [commonPrefixLenIgnoreCase]
              rw [if_pos]
              intro hc
              apply hbad
              by_cases hup : 65 ≤ c1.toNat ∧ c1.toNat ≤ 90
              · refine ⟨?_, ?_, ?_⟩
                · simp only [isDigit, Bool.and_eq_false_iff, decide_eq_false_iff_not]
                  right
                  omega
                · intro h46
                  rw [h46] at hup
                  revert hup
                  decide
                · intro h95
                  rw [h95] at hup
                  revert hup
                  decide
              · rw [if_neg hup] at hc
                subst hc
                decide
            revert hi
            simp [specialInf, hz]
        obtain ⟨c1, cs2, rfl, hd, h46, h95⟩ := hcs
        simp only [readFloat, hs, if_true, readUnsigned_none _ c1 cs2 hd h46 h95]
    · rw [if_neg hs] at h
      have key : isDigit c = false ∧ c ≠ 46 ∧ c ≠ 95 := by
        by_cases h1 : c = 105 ∨ c = 73
        · rcases h1 with rfl | rfl <;> decide
        · rw [if_neg h1] at h
          by_cases h2 : c = 110 ∨ c = 78
          · rcases h2 with rfl | rfl <;> decide
          · rw [if_neg h2] at h
            cases h
      simp only [readFloat, hs, if_false, readUnsigned_none _ c cs key.1 key.2.1 key.2.2]

theorem parseFloat_of_readFloat {s : String} {x : Numeral}
    (h : readFloat (bytes s) = some (x, [])) : parseFloat s = x.toF64 := by
  unfold parseFloat
  cases hs : special (bytes s) with
  | some r =>
    have := special_excludes_numeral _ r hs
    rw [this] at h
    cases h
  | none =>
    simp only [h]

theorem toF64_half_ulp (x : Numeral) (f : F64) (h : x.toF64 = some f) :
    ∃ m u, f = .finite x.neg m u ∧
      |(m : ℚ) * (2 : ℚ) ^ u - x.magnitude| ≤ (2 : ℚ) ^ u / 2 := by
  unfold Numeral.toF64 at h
  unfold Numeral.magnitude
  by_cases h0 : x.mant = 0
  · rw [if_pos h0] at h
    simp only [Option.some.injEq] at h
    refine ⟨0, 0, h.symm, ?_⟩
    rw [h0]
    split_ifs <;> norm_num
  · rw [if_neg h0] at h
    simp only [] at h ⊢
    by_cases he : 0 ≤ x.exp
    · rw [if_pos he] at h ⊢
      obtain ⟨m, u, hf, hb⟩ := roundF64_half_ulp _ _ 1 (by decide) f h
      refine ⟨m, u, hf, ?_⟩
      cases hx : x.hex <;> simp only [hx, Bool.false_eq_true, if_false, if_true] at hb ⊢ <;>
        · push_cast at hb
          simpa using hb
    · rw [if_neg he] at h ⊢
      have hpos : 0 < (if x.hex = true then 2 else 10) ^ (-x.exp).toNat := by
        split_ifs <;> positivity
      obtain ⟨m, u, hf, hb⟩ := roundF64_half_ulp _ _ _ hpos f h
      refine ⟨m, u, hf, ?_⟩
      cases hx : x.hex <;> simp only [hx, Bool.false_eq_true, if_false, if_true] at hb ⊢ <;>
        · push_cast at hb
          exact hb

theorem toF64_whole (x : Numeral) (v : Nat) (hv : x.magnitude = v) (hlt : v < 2 ^ 53) :
    x.toF64.map F64.toInt = some (if x.neg then -(v : Int) else (v : Int)) := by
  unfold Numeral.magnitude at hv
  unfold Numeral.toF64
  simp only [] at hv ⊢
  by_cases h0 : x.mant = 0
  · rw [if_pos h0]
    rw [h0] at hv
    have hv0 : v = 0 := by
      have : (v : ℚ) = 0 := by
        rw [← hv]
        split_ifs <;> simp
      exact_mod_cast this
    subst hv0
    cases x.neg <;> simp [F64.toInt]
  · rw [if_neg h0]
    have hmpos : 0 < x.mant := Nat.pos_of_ne_zero h0
    obtain ⟨b, hb, hb2⟩ : ∃ b : Nat, (if x.hex = true then 2 else 10) = b ∧ 0 < b := by
      by_cases hx : x.hex = true
      · exact ⟨2, by simp [hx], by decide⟩
      · exact ⟨10, by simp [hx], by decide⟩
    have hbq : (if x.hex = true then (2 : ℚ) else 10) = (b : ℚ) := by
      rw [← hb]
      split_ifs <;> simp
    rw [hb]
    rw [hbq] at hv
    by_cases he : 0 ≤ x.exp
    · rw [if_pos he] at hv ⊢
      have hn : x.mant * b ^ x.exp.toNat = v * 1 := by
        have : ((x.mant * b ^ x.exp.toNat : Nat) : ℚ) = (v : ℚ) := by
          push_cast
          exact hv
        rw [Nat.mul_one]
        exact_mod_cast this
      have hvpos : 0 < v := by
        have : 0 < x.mant * b ^ x.exp.toNat := by positivity
        omega
      rw [hn]
      obtain ⟨m, u, h1, h2⟩ := roundF64_integer x.neg v 1 (by decide) hvpos hlt
      rw [h1]
      simp only [Option.map_some', h2]
    · rw [if_neg he] at hv ⊢
      have hd : 0 < b ^ (-x.exp).toNat := by positivity
      have hn : x.mant = v * b ^ (-x.exp).toNat := by
        have hq : (x.mant : ℚ) = (v : ℚ) * (b : ℚ) ^ (-x.exp).toNat := by
          have hne : ((b : ℚ) ^ (-x.exp).toNat) ≠ 0 := by positivity
          field_simp at hv
          exact hv
        exact_mod_cast hq
      have hvpos : 0 < v := by
        rcases Nat.eq_zero_or_pos v with h | h
        · rw [h] at hn
          omega
        · exact h
      rw [hn]
      obtain ⟨m, u, h1, h2⟩ := roundF64_integer x.neg v _ hd hvpos hlt
      rw [h1]
      simp only [Option.map_some', h2]

theorem scanDigits_digits (ds rest : List UInt8) (st : Scan)
    (hd : ∀ c ∈ ds, isDigit c = true) :
    ∃ st2, scanDigits false (ds ++ rest) st = scanDigits false rest st2 ∧
      st2.mant = ds.foldl (fun a c => a * 10 + digitVal c) st.mant ∧
      st2.frac = (if st.sawdot then st.frac + ds.length else st.frac) ∧
      st2.sawdot = st.sawdot ∧ st2.underscores = st.underscores ∧
      st2.sawdigits = (st.sawdigits || !ds.isEmpty) := by
  induction ds generalizing st with
  | nil =>
    refine ⟨st, rfl, rfl, ?_, rfl, rfl, by simp⟩
    split_ifs <;> simp
  | cons c ds ih =>
    have hc := hd c (List.mem_cons_self _ _)
    obtain ⟨h95, h46, -, -⟩ := isDigit_ne hc
    obtain ⟨st2, h1, h2, h3, h4, h5, h6⟩ := ih
      { st with
        sawdigits := true
        mant := st.mant * 10 + digitVal c
        frac := if st.sawdot then st.frac + 1 else st.frac }
      (fun x hx => hd x (List.mem_cons_of_mem _ hx))
    refine ⟨st2, ?_, ?_, ?_, h4, h5, ?_⟩
    · rw [← h1]
      simp [scanDigits, h95, h46, hc]
    · rw [h2]
      rfl
    · rw [h3]
      simp only [List.length_cons]
      split_ifs <;> omega
    · rw [h6]
      simp

theorem magnitude_decimal (neg : Bool) (ip : List UInt8) (frac : Option (List UInt8)) :
    Numeral.magnitude { neg := neg, hex := false, mant := decimalDigits (ip ++ frac.getD []),
                        exp := -((frac.getD []).length : ℤ) } = decimalValue ip frac := by
  unfold Numeral.magnitude decimalValue
  simp only [Bool.false_eq_true, if_false]
  by_cases h0 : (frac.getD []).length = 0
  · rw [h0]
    simp
  · have hneg : ¬ (0 : ℤ) ≤ -((frac.getD []).length : ℤ) := by omega
    rw [if_neg hneg]
    simp

theorem readFloat_signed (c : UInt8) (body : List UInt8) (n : Numeral)
    (hc : c = 43 ∨ c = 45)
    (h : readUnsigned (decide (c = 45)) body = some (n, false, [])) :
    readFloat (c :: body) = some (n, []) := by
  simp only [readFloat, hc, if_true, h]
  simp

theorem readFloat_unsigned (c : UInt8) (cs : List UInt8) (n : Numeral)
    (hc : ¬ (c = 43 ∨ c = 45))
    (h : readUnsigned (decide (c = 45)) (c :: cs) = some (n, false, [])) :
    readFloat (c :: cs) = some (n, []) := by
  simp only [readFloat, hc, if_false, h]
  simp

theorem readFloat_decimalNumeral (sign : Option Bool) (ip : List UInt8)
    (frac : Option (List UInt8)) (hd : ∀ c ∈ ip ++ frac.getD [], isDigit c = true)
    (hne : ip ++ frac.getD [] ≠ []) :
    readFloat (decimalNumeral sign ip frac) =
      some ({ neg := sign.getD false, hex := false,
              mant := decimalDigits (ip ++ frac.getD []),
              exp := -((frac.getD []).length : ℤ) }, []) := by
  have hip : ∀ c ∈ ip, isDigit c = true := fun c hc => hd c (List.mem_append_left _ hc)
  have hfp : ∀ c ∈ frac.getD [], isDigit c = true :=
    fun c hc => hd c (List.mem_append_right _ hc)
  -- the digits and the point
  obtain ⟨body, hbody⟩ : ∃ body, body = ip ++ fracBytes frac := ⟨_, rfl⟩
  have hmem : ∀ b ∈ body, isDigit b = true ∨ b = 46 := by
    intro b hb
    rw [hbody] at hb
    rcases List.mem_append.1 hb with h | h
    · exact Or.inl (hip b h)
    · cases frac with
      | none => cases h
      | some fp =>
        rcases List.mem_cons.1 h with h | h
        · exact Or.inr h
        · exact Or.inl (hfp b h)
  have hhex : ∀ a b c t, body = a :: b :: c :: t → ¬ (a = 48 ∧ lower b = 120) := by
    intro a b c t e hc
    exact lower_digit b (hmem b (by rw [e]; simp)) hc.2
  have hscan : ∃ st, scanDigits false body {} = (st, []) ∧ st.sawdigits = true ∧
      st.mant = decimalDigits (ip ++ frac.getD []) ∧ st.frac = (frac.getD []).length ∧
      st.underscores = false := by
    cases frac with
    | none =>
      obtain ⟨st2, h1, h2, h3, h4, h5, h6⟩ := scanDigits_digits ip [] {} hip
      refine ⟨st2, ?_, ?_, ?_, ?_, h5⟩
      · rw [hbody]
        show scanDigits false (ip ++ []) {} = (st2, [])
        rw [h1]
        rfl
      · rw [h6]
        have : ip ≠ [] := by simpa using hne
        cases ip with
        | nil => exact absurd rfl this
        | cons a t => rfl
      · rw [h2]
        simp [decimalDigits]
      · rw [h3]
        rfl
    | some fp =>
      obtain ⟨st2, h1, h2, h3, h4, h5, h6⟩ := scanDigits_digits ip (46 :: fp) {} hip
      obtain ⟨st4, g1, g2, g3, g4, g5, g6⟩ := scanDigits_digits fp [] { st2 with sawdot := true }
        hfp
      have hdot : scanDigits false (46 :: fp) st2 = scanDigits false fp { st2 with sawdot := true } := by
        have hsd : st2.sawdot = false := h4
        simp [scanDigits, hsd]
      refine ⟨st4, ?_, ?_, ?_, ?_, ?_⟩
      · rw [hbody]
        show scanDigits false (ip ++ 46 :: fp) {} = (st4, [])
        rw [h1, hdot]
        have : scanDigits false fp { st2 with sawdot := true } =
            scanDigits false (fp ++ []) { st2 with sawdot := true } := by simp
        rw [this, g1]
        rfl
      · rw [g6, h6]
        have hne2 : ip ++ fp ≠ [] := hne
        cases ip with
        | nil =>
          cases fp with
          | nil => exact absurd rfl hne2
          | cons a t => simp
        | cons a t => simp
      · rw [g2]
        simp only [decimalDigits, Option.getD_some, List.foldl_append]
        rw [h2]
      · rw [g3]
        simp only [if_true, Option.getD_some]
        have : st2.frac = 0 := by
          rw [h3]
          rfl
        omega
      · rw [g5]
        exact h5
  obtain ⟨st, hs, hsd, hm, hf, hu⟩ := hscan
  have hread : ∀ neg, readUnsigned neg body =
      some ({ neg := neg, hex := false, mant := decimalDigits (ip ++ frac.getD []),
              exp := -((frac.getD []).length : ℤ) }, false, []) := by
    intro neg
    rw [readUnsigned_decimal neg body st [] hhex hs]
    simp [hsd, readExp, hm, hf, hu]
  have hbne : body ≠ [] := by
    rw [hbody]
    cases frac with
    | none => simpa [fracBytes] using hne
    | some fp => simp [fracBytes]
  obtain ⟨c, cs, hcs⟩ : ∃ c cs, body = c :: cs := by
    cases body with
    | nil => exact absurd rfl hbne
    | cons c cs => exact ⟨c, cs, rfl⟩
  have hcsign : ¬ (c = 43 ∨ c = 45) := by
    rcases hmem c (by rw [hcs]; simp) with h | h
    · obtain ⟨-, -, h43, h45⟩ := isDigit_ne h
      rintro (e | e)
      · exact h43 e
      · exact h45 e
    · subst h
      decide
  have hdn : decimalNumeral sign ip frac = signBytes sign ++ body := by
    rw [hbody]
    simp [decimalNumeral]
  rw [hdn]
  cases sign with
  | none =>
    have h := hread (decide (c = 45))
    rw [hcs] at h
    have hc45 : decide (c = 45) = false := by
      simpa using fun e : c = 45 => hcsign (Or.inr e)
    rw [hcs]
    show readFloat (c :: cs) = _
    rw [readFloat_unsigned c cs _ hcsign h, hc45]
    rfl
  | some b =>
    cases b with
    | true =>
      show readFloat (45 :: body) = _
      rw [readFloat_signed 45 body _ (Or.inr rfl) (hread _)]
      rfl
    | false =>
      show readFloat (43 :: body) = _
      rw [readFloat_signed 43 body _ (Or.inl rfl) (hread _)]
      rfl

/-- C8, as stated, fails on the code: the decimal numeral "0.99999999999999999",
whose value truncated toward zero is 0, is stored as 1, because the nearest
`float64` is 1; and "Inf", which `readFloat` does not take for a numeral, does not
make the row fail. -/
theorem truncation_differs_from_numeral_value :
    (readFloat (bytes "0.99999999999999999")).map
        (fun r => (r.1.hex, r.1.truncate, r.2)) = some (false, 0, []) ∧
      (transform summerEnv sampleAirlines sampleAirports
          (sampleLine.set 8 "0.99999999999999999")).toOption.map
        (fun r => r.2.DepDelayMin) = some (some 1) ∧
      readFloat (bytes "Inf") = none ∧
      (transform summerEnv sampleAirlines sampleAirports
          (sampleLine.set 8 "Inf")).toOption.isSome = true := by
  refine ⟨by decide, by decide, by decide, by decide⟩

/-- C8, amended: for every non-blank numeric minute or count field (source fields
8-10, 13, 17-26) of a successfully transformed row, `strconv.ParseFloat` accepts the
field and the stored integer is the conversion `int(f)` of the `float64` it returns;
that `float64` is within half a unit in the last place of the value that the
numeral in the field spells, and for a finite `f` below 2^63 in magnitude the
conversion is the value of `f` truncated toward zero; so a numeral whose value is a
whole number below 2^53 is stored as that number, and "12.0" and "12.9" give 12,
"-3.7" gives -3, "1e2" gives 100; a non-blank field that `strconv.ParseFloat`
rejects makes the row fail. The numeral of a field is what `readFloat` reads from
the whole of it; for a plain decimal numeral (sign, digits, point, digits) that is
the number its digits spell. -/
theorem minutes_are_truncated_floats (env : Env) (airlines : List (String × String))
    (airports : List (String × Airport)) (line : List String) :
    (∀ id flight, transform env airlines airports line = .ok (id, flight) →
        ∀ k ∈ optionalFields ++ requiredFields, ∀ s, line.get? k = some s → s ≠ "" →
          ∃ f, parseFloat s = some f ∧ storedInt flight k = some f.toInt) ∧
      (∀ k ∈ optionalFields ++ requiredFields, ∀ s, line.get? k = some s → s ≠ "" →
        parseFloat s = none → ∃ e, transform env airlines airports line = .error e) ∧
      (∀ (neg : Bool) (m : Nat) (e : Int), (m : ℚ) * (2 : ℚ) ^ e < 2 ^ 63 →
        F64.toInt (.finite neg m e) =
          if neg then -⌊(m : ℚ) * (2 : ℚ) ^ e⌋ else ⌊(m : ℚ) * (2 : ℚ) ^ e⌋) ∧
      (∀ (neg : Bool) (n d : Nat) (f : F64), 0 < d → roundF64 neg n d = some f →
        ∃ m u, f = .finite neg m u ∧
          |(m : ℚ) * (2 : ℚ) ^ u - (n : ℚ) / d| ≤ (2 : ℚ) ^ u / 2) ∧
      (∀ (neg : Bool) (v k : Nat), v < 2 ^ 53 →
        (Numeral.toF64 { neg := neg, hex := false, mant := v * 10 ^ k,
                         exp := -(k : ℤ) }).map F64.toInt =
          some (if neg then -(v : Int) else (v : Int))) ∧
      (∀ (s : String) (x : Numeral), readFloat (bytes s) = some (x, []) →
        parseFloat s = x.toF64 ∧
        (∀ f, parseFloat s = some f →
          ∃ m u, f = .finite x.neg m u ∧
            |(m : ℚ) * (2 : ℚ) ^ u - x.magnitude| ≤ (2 : ℚ) ^ u / 2) ∧
        (∀ v : Nat, x.magnitude = v → v < 2 ^ 53 →
          (parseFloat s).map F64.toInt = some (if x.neg then -(v : Int) else (v : Int)))) ∧
      (∀ (sign : Option Bool) (ip : List UInt8) (frac : Option (List UInt8)) (s : String),
        bytes s = decimalNumeral sign ip frac →
        (∀ c ∈ ip ++ frac.getD [], isDigit c = true) → ip ++ frac.getD [] ≠ [] →
        (∀ f, parseFloat s = some f →
          ∃ m u, f = .finite (sign.getD false) m u ∧
            |(m : ℚ) * (2 : ℚ) ^ u - decimalValue ip frac| ≤ (2 : ℚ) ^ u / 2) ∧
        (∀ v : Nat, decimalValue ip frac = v → v < 2 ^ 53 →
          (parseFloat s).map F64.toInt =
            some (if sign.getD false then -(v : Int) else (v : Int)))) ∧
      (parseFloat "12.0").map F64.toInt = some 12 ∧
      (parseFloat "12.9").map F64.toInt = some 12 ∧
      (parseFloat "-3.7").map F64.toInt = some (-3) ∧
      (parseFloat "1e2").map F64.toInt = some 100 := by
  have succ : ∀ id flight, transform env airlines airports line = .ok (id, flight) →
      ∀ k ∈ optionalFields ++ requiredFields, ∀ s, line.get? k = some s → s ≠ "" →
        ∃ f, parseFloat s = some f ∧ storedInt flight k = some f.toInt := by
    intro id flight h k hk s hs hne
    rcases List.mem_append.1 hk with ho | hr
    · obtain ⟨msg, hm⟩ := transform_optional h k ho
      obtain ⟨s2, hs2, hv⟩ := (optMinutes_ok line k msg _).1 hm
      rw [hs] at hs2
      simp only [Option.some.injEq] at hs2
      subst hs2
      rcases hv with ⟨hb, -⟩ | ⟨-, f, hf, hv⟩
      · exact absurd hb hne
      · exact ⟨f, hf, hv⟩
    · obtain ⟨msg, v, hm, hv⟩ := transform_required h k hr
      obtain ⟨s2, f, hs2, hf, rfl⟩ := (reqCount_ok line k msg v).1 hm
      rw [hs] at hs2
      simp only [Option.some.injEq] at hs2
      subst hs2
      exact ⟨f, hf, hv⟩
  have link : ∀ (s : String) (x : Numeral), readFloat (bytes s) = some (x, []) →
      parseFloat s = x.toF64 ∧
      (∀ f, parseFloat s = some f →
        ∃ m u, f = .finite x.neg m u ∧
          |(m : ℚ) * (2 : ℚ) ^ u - x.magnitude| ≤ (2 : ℚ) ^ u / 2) ∧
      (∀ v : Nat, x.magnitude = v → v < 2 ^ 53 →
        (parseFloat s).map F64.toInt = some (if x.neg then -(v : Int) else (v : Int))) := by
    intro s x hr
    have hp := parseFloat_of_readFloat hr
    refine ⟨hp, ?_, ?_⟩
    · intro f hf
      rw [hp] at hf
      exact toF64_half_ulp x f hf
    · intro v hv hlt
      rw [hp]
      exact toF64_whole x v hv hlt
  refine ⟨succ, ?_, toInt_eq_truncation, ?_, integer_numeral_exact, link, ?_, by decide,
    by decide, by decide, by decide⟩
  · intro k hk s hs hne hn
    apply error_of_not_ok
    rintro ⟨id, flight⟩ h
    obtain ⟨f, hf, -⟩ := succ id flight h k hk s hs hne
    rw [hn] at hf
    exact absurd hf (by simp)
  · intro neg n d f hd h
    exact roundF64_half_ulp neg n d hd f h
  · intro sign ip frac s hs hd hne
    have hr := readFloat_decimalNumeral sign ip frac hd hne
    rw [← hs] at hr
    obtain ⟨-, h2, h3⟩ := link s _ hr
    rw [magnitude_decimal] at h2 h3
    exact ⟨h2, h3⟩

/-- Witness of C8 (amended) on the sample record: field 8 is "15.00", a plain decimal
numeral whose digits spell 1500 / 10^2, and is stored as 15; with "12.9x" in its
place the row fails. -/
theorem minutes_are_truncated_floats_witness :
    (transform summerEnv sampleAirlines sampleAirports sampleLine =
          .ok ("2017-01-31.1200.AA123.N1234.ORD.SFO", sampleFlight) ∧
        sampleLine.get? 8 = some "15.00" ∧
        ∃ f, parseFloat "15.00" = some f ∧ storedInt sampleFlight 8 = some f.toInt) ∧
      ((sampleLine.set 8 "12.9x").get? 8 = some "12.9x" ∧ parseFloat "12.9x" = none ∧
        ∃ e, transform summerEnv sampleAirlines sampleAirports (sampleLine.set 8 "12.9x") =
          .error e) ∧
      (((15 : ℕ) : ℚ) * (2 : ℚ) ^ (0 : ℤ) < 2 ^ 63 ∧
        F64.toInt (.finite false 15 0) =
          if false then -⌊((15 : ℕ) : ℚ) * (2 : ℚ) ^ (0 : ℤ)⌋
          else ⌊((15 : ℕ) : ℚ) * (2 : ℚ) ^ (0 : ℤ)⌋) ∧
      (bytes "15.00" = decimalNumeral none [49, 53] (some [48, 48]) ∧
        decimalValue [49, 53] (some [48, 48]) = ((15 : ℕ) : ℚ) ∧
        (parseFloat "15.00").map F64.toInt =
          some (if (none : Option Bool).getD false then -((15 : ℕ) : Int)
                else ((15 : ℕ) : Int))) ∧
      (readFloat (bytes "1e2") =
          some ({ neg := false, hex := false, mant := 1, exp := 2 }, []) ∧
        (parseFloat "1e2").map F64.toInt =
          some (if false then -((100 : ℕ) : Int) else ((100 : ℕ) : Int))) :=
  have hval : decimalValue [49, 53] (some [48, 48]) = ((15 : ℕ) : ℚ) := by
    have hd : decimalDigits ([49, 53] ++ (some [48, 48] : Option (List UInt8)).getD []) =
        1500 := by decide
    unfold decimalValue
    rw [hd]
    norm_num
  have hmag : Numeral.magnitude { neg := false, hex := false, mant := 1, exp := 2 } =
      ((100 : ℕ) : ℚ) := by
    have h2 : Int.toNat 2 = 2 := rfl
    unfold Numeral.magnitude
    simp only [Bool.false_eq_true, if_false, h2]
    norm_num
  ⟨⟨transform_sample, by decide,
     (minutes_are_truncated_floats summerEnv sampleAirlines sampleAirports sampleLine).1 _ _
       transform_sample 8 (by decide) "15.00" (by decide) (by decide)⟩,
   ⟨by decide, by decide,
     (minutes_are_truncated_floats summerEnv sampleAirlines sampleAirports
       (sampleLine.set 8 "12.9x")).2.1 8 (by decide) "12.9x" (by decide) (by decide)
       (by decide)⟩,
   ⟨by norm_num,
     (minutes_are_truncated_floats summerEnv sampleAirlines sampleAirports sampleLine).2.2.1
       false 15 0 (by norm_num)⟩,
   ⟨by decide, hval,
     ((minutes_are_truncated_floats summerEnv sampleAirlines sampleAirports
       sampleLine).2.2.2.2.2.2.1 none [49, 53] (some [48, 48]) "15.00" (by decide)
       (by decide) (by decide)).2 15 hval (by norm_num)⟩,
   ⟨by decide,
     ((minutes_are_truncated_floats summerEnv sampleAirlines sampleAirports
       sampleLine).2.2.2.2.2.1 "1e2" _ (by decide)).2.2 100 hmag (by norm_num)⟩⟩

/-! ## Further lemmas -/

theorem toInt_range (f : F64) : -(2 ^ 63 : Int) ≤ f.toInt ∧ f.toInt < (2 ^ 63 : Int) := by
  cases f with
  | nan => simp [F64.toInt]
  | inf neg => simp [F64.toInt]
  | finite neg m e =>
    simp only [F64.toInt]
    generalize (if 0 ≤ e then m * 2 ^ e.toNat else m / 2 ^ (-e).toNat : Nat) = q
    cases neg
    · simp only [Bool.false_eq_true, if_false]
      split_ifs with h
      · constructor
        · have : (0 : Int) ≤ (q : Int) := Int.natCast_nonneg q
          omega
        · exact_mod_cast h
      · norm_num
    · simp only [if_true]
      split_ifs with h
      · have h2 : (q : Int) ≤ 2 ^ 63 := by exact_mod_cast h
        have : (0 : Int) ≤ (q : Int) := Int.natCast_nonneg q
        constructor
        · omega
        · have : (0 : Int) < 2 ^ 63 := by norm_num
          omega
      · norm_num

theorem toInt_nonneg (m : Nat) (e : Int) (h : (m : ℚ) * (2 : ℚ) ^ e < 2 ^ 63) :
    0 ≤ F64.toInt (.finite false m e) := by
  rw [toInt_eq_truncation false m e h]
  simp only [Bool.false_eq_true, if_false]
  apply Int.floor_nonneg.2
  positivity

theorem toInt_nonpos (m : Nat) (e : Int) : F64.toInt (.finite true m e) ≤ 0 := by
  simp only [F64.toInt, if_true]
  generalize (if 0 ≤ e then m * 2 ^ e.toNat else m / 2 ^ (-e).toNat : Nat) = q
  have hq : (0 : Int) ≤ (q : Int) := Int.natCast_nonneg q
  split_ifs
  · omega
  · norm_num

theorem parseFloat_blank : parseFloat "" = none := by decide

theorem clockField_ok (zone : Zone) (date clock msg : String) (roll : Bool)
    (r : Option String) :
    clockField zone date clock msg roll = .ok r ↔
      (clock = "" ∧ r = none) ∨
        (clock ≠ "" ∧ ∃ ts, timestamp zone date (if roll then rollover clock else clock) msg =
          .ok ts ∧ r = some ts) := by
  unfold clockField
  by_cases hb : clock = ""
  · simp [hb]
    exact eq_comm
  · simp only [ne_eq, hb, not_false_eq_true, if_true, false_and, false_or, true_and]
    cases ht : timestamp zone date (if roll then rollover clock else clock) msg with
    | error e => simp
    | ok ts =>
      simp only [Except.ok.injEq, exists_eq_left']
      exact eq_comm

theorem zoneNow_ok (env : Env) (tz : String) (zone : Zone) :
    zoneNow env tz = .ok zone ↔ ∃ loc, env.loadLocation tz = some loc ∧ zone = loc env.now := by
  unfold zoneNow
  cases h : env.loadLocation tz with
  | none => simp
  | some loc =>
    simp only [Except.ok.injEq, Option.some.injEq, exists_eq_left']
    exact eq_comm

theorem originBlock_ok {env : Env} {airports : List (String × Airport)}
    {line : List String} {o : Airport × String × Option String}
    (h : originBlock env airports line = .ok o) :
    ∃ l4 l6 l0 l7 zone sched,
      line.get? 4 = some l4 ∧ airports.lookup l4 = some o.1 ∧
      zoneNow env o.1.Timezone = .ok zone ∧
      line.get? 6 = some l6 ∧ line.get? 0 = some l0 ∧ line.get? 7 = some l7 ∧
      clockField zone l0 l6 "Error parsing Sched Dep Time into Time" false = .ok sched ∧
      o.2.1 = sched.getD "" ∧
      clockField zone l0 l7 "Error parsing Actual Dep Time into Time" true = .ok o.2.2 := by
  simp only [originBlock, bind_eq_ok, index_eq_ok] at h
  obtain ⟨l4, h4, h⟩ := h
  cases hl : airports.lookup l4 with
  | none => simp [hl] at h
  | some origin =>
    simp only [hl, bind_eq_ok, index_eq_ok] at h
    obtain ⟨z, hz, l6, h6, l0, h0, sc, hsc, l7, h7, ac, hac, e⟩ := h
    simp only [pure, Except.pure, Except.ok.injEq] at e
    subst e
    exact ⟨l4, l6, l0, l7, z, sc, h4, hl, hz, h6, h0, h7, hsc, rfl, hac⟩

theorem destBlock_ok {env : Env} {airports : List (String × Airport)}
    {line : List String} {d : Airport × Option String × Option String}
    (h : destBlock env airports line = .ok d) :
    ∃ l5 l11 l0 l12 zone,
      line.get? 5 = some l5 ∧ airports.lookup l5 = some d.1 ∧
      zoneNow env d.1.Timezone = .ok zone ∧
      line.get? 11 = some l11 ∧ line.get? 0 = some l0 ∧ line.get? 12 = some l12 ∧
      clockField zone l0 l11 "Error parsing Sched Arr Time into Time" true = .ok d.2.1 ∧
      clockField zone l0 l12 "Error parsing Actual Arr Time into Time" true = .ok d.2.2 := by
  simp only [destBlock, bind_eq_ok, index_eq_ok] at h
  obtain ⟨l5, h5, h⟩ := h
  cases hl : airports.lookup l5 with
  | none => simp [hl] at h
  | some dest =>
    simp only [hl, bind_eq_ok, index_eq_ok] at h
    obtain ⟨z, hz, l11, h11, l0, h0, sc, hsc, l12, h12, ac, hac, e⟩ := h
    simp only [pure, Except.pure, Except.ok.injEq] at e
    subst e
    exact ⟨l5, l11, l0, l12, z, h5, hl, hz, h11, h0, h12, hsc, hac⟩

theorem formatRFC3339_ne_empty (t : ParsedTime) : formatRFC3339 t ≠ "" := by
  intro h
  have hl := congrArg String.length h
  simp only [formatRFC3339, String.length_append] at hl
  have h1 : ("T" : String).length = 1 := by decide
  have h0 : ("" : String).length = 0 := by decide
  rw [h1, h0] at hl
  omega

theorem timestamp_ok (zone : Zone) (date clock msg ts : String) :
    timestamp zone date clock msg = .ok ts ↔
      2 ≤ (bytes clock).length ∧
        ∃ t, parseTime (isoTime zone date clock) = some t ∧ ts = formatRFC3339 t := by
  unfold timestamp
  by_cases hlen : (bytes clock).length < 2
  · simp only [hlen, if_true]
    constructor
    · intro h
      exact absurd h (by simp)
    · rintro ⟨h2, -⟩
      omega
  · simp only [hlen, if_false]
    cases hp : parseTime (isoTime zone date clock) with
    | none => simp
    | some t =>
      simp only [Except.ok.injEq, Option.some.injEq, exists_eq_left']
      constructor
      · intro h
        exact ⟨by omega, h.symm⟩
      · rintro ⟨-, h⟩
        exact h.symm

theorem timestamp_ne_empty {zone : Zone} {date clock msg ts : String}
    (h : timestamp zone date clock msg = .ok ts) : ts ≠ "" := by
  obtain ⟨-, t, -, rfl⟩ := (timestamp_ok zone date clock msg ts).1 h
  exact formatRFC3339_ne_empty t

theorem transform_timestamps {env : Env} {airlines : List (String × String)}
    {airports : List (String × Airport)} {line : List String} {id : String} {flight : Flight}
    (h : transform env airlines airports line = .ok (id, flight)) :
    ∃ l0 l6 l7 l11 l12 ozone dzone origin dest sched,
      line.get? 0 = some l0 ∧ line.get? 6 = some l6 ∧ line.get? 7 = some l7 ∧
      line.get? 11 = some l11 ∧ line.get? 12 = some l12 ∧
      (∃ l4, line.get? 4 = some l4 ∧ airports.lookup l4 = some origin) ∧
      (∃ l5, line.get? 5 = some l5 ∧ airports.lookup l5 = some dest) ∧
      zoneNow env origin.Timezone = .ok ozone ∧ zoneNow env dest.Timezone = .ok dzone ∧
      clockField ozone l0 l6 "Error parsing Sched Dep Time into Time" false = .ok sched ∧
      flight.ScheduledDepTime = sched.getD "" ∧
      clockField ozone l0 l7 "Error parsing Actual Dep Time into Time" true =
        .ok flight.ActualDepTime ∧
      clockField dzone l0 l11 "Error parsing Sched Arr Time into Time" true =
        .ok flight.ScheduledArrTime ∧
      clockField dzone l0 l12 "Error parsing Actual Arr Time into Time" true =
        .ok flight.ActualArrTime := by
  obtain ⟨hd, o, d, dl, dp, el, cs, -, -, h2, h3, -, -, -, -, rfl⟩ := transform_ok_inv h
  obtain ⟨l4, l6, l0, l7, oz, sched, g4, gl4, gz, g6, g0, g7, gs, gse, ga⟩ := originBlock_ok h2
  obtain ⟨l5, l11, l0b, l12, dz, g5, gl5, gzd, g11, g0b, g12, gsa, gaa⟩ := destBlock_ok h3
  rw [g0] at g0b
  simp only [Option.some.injEq] at g0b
  subst g0b
  exact ⟨l0, l6, l7, l11, l12, oz, dz, o.1, d.1, sched, g0, g6, g7, g11, g12, ⟨l4, g4, gl4⟩,
    ⟨l5, g5, gl5⟩, gz, gzd, gs, gse, ga, gsa, gaa⟩

theorem clockField_present {zone : Zone} {date clock msg : String} {roll : Bool}
    {r : Option String} (h : clockField zone date clock msg roll = .ok r) :
    (clock = "" → r = none) ∧ (clock ≠ "" → ∃ ts, r = some ts ∧ ts ≠ "") := by
  rcases (clockField_ok zone date clock msg roll r).1 h with ⟨hb, hr⟩ | ⟨hb, ts, ht, hr⟩
  · exact ⟨fun _ => hr, fun hn => absurd hb hn⟩
  · exact ⟨fun hn => absurd hn hb, fun _ => ⟨ts, hr, timestamp_ne_empty ht⟩⟩

theorem readRecord_ok (f : Nat) (item : Option (List String)) (msg : String)
    (line : List String) (g : Nat) :
    readRecord f item msg = .ok (line, g) ↔
      item = some line ∧ g = line.length ∧ (f = 0 ∨ f = line.length) := by
  cases item with
  | none => simp [readRecord]
  | some record =>
    simp only [readRecord, Option.some.injEq]
    by_cases hf : f > 0
    · simp only [hf, if_true]
      by_cases hl : record.length = f
      · simp only [hl, ne_eq, not_true_eq_false, if_false, Except.ok.injEq, Prod.mk.injEq]
        constructor
        · rintro ⟨rfl, rfl⟩
          exact ⟨rfl, hl.symm, Or.inr hl.symm⟩
        · rintro ⟨rfl, rfl, -⟩
          exact ⟨rfl, hl.symm⟩
      · simp only [ne_eq, hl, not_false_eq_true, if_true]
        constructor
        · intro h
          cases h
        · rintro ⟨rfl, -, h0 | h0⟩
          · omega
          · exact absurd h0.symm hl
    · have h0 : f = 0 := by omega
      simp only [hf, if_false, Except.ok.injEq, Prod.mk.injEq]
      constructor
      · rintro ⟨rfl, rfl⟩
        exact ⟨rfl, rfl, Or.inl h0⟩
      · rintro ⟨rfl, rfl, -⟩
        exact ⟨rfl, rfl⟩

theorem readRecord_of (f : Nat) (line : List String) (msg : String)
    (h : f = 0 ∨ f = line.length) :
    readRecord f (some line) msg = .ok (line, line.length) :=
  (readRecord_ok f (some line) msg line line.length).2 ⟨rfl, rfl, h⟩

theorem loadAirlines_cons {f : Nat} {item : Option (List String)}
    {rest : List (Option (List String))} {acc t : List (String × String)}
    (h : loadAirlines f (item :: rest) acc = .ok t) :
    ∃ line l3 l1, item = some line ∧ (f = 0 ∨ f = line.length) ∧
      line.get? 3 = some l3 ∧ line.get? 1 = some l1 ∧
      loadAirlines line.length rest ((l3, l1) :: acc) = .ok t := by
  simp only [loadAirlines] at h
  cases hr : readRecord f item "Reading Airlines CSV file" with
  | error e => simp [hr] at h
  | ok p =>
    obtain ⟨line, g⟩ := p
    obtain ⟨rfl, rfl, hf⟩ := (readRecord_ok _ _ _ _ _).1 hr
    simp only [hr] at h
    cases h3 : index line 3 with
    | error e => simp [h3] at h
    | ok l3 =>
      cases h1 : index line 1 with
      | error e => simp [h3, h1] at h
      | ok l1 =>
        simp only [h3, h1] at h
        exact ⟨line, l3, l1, rfl, hf, (index_eq_ok line 3 l3).1 h3,
          (index_eq_ok line 1 l1).1 h1, h⟩

theorem loadAirlines_step {f : Nat} {line : List String} {l3 l1 : String}
    (rest : List (Option (List String))) (acc : List (String × String))
    (hf : f = 0 ∨ f = line.length) (h3 : line.get? 3 = some l3) (h1 : line.get? 1 = some l1) :
    loadAirlines f (some line :: rest) acc =
      loadAirlines line.length rest ((l3, l1) :: acc) := by
  have i3 : index line 3 = .ok l3 := (index_eq_ok line 3 l3).2 h3
  have i1 : index line 1 = .ok l1 := (index_eq_ok line 1 l1).2 h1
  simp only [loadAirlines, readRecord_of f line _ hf, i3, i1]

theorem loadAirlines_append {f : Nat} {pre rest : List (Option (List String))}
    {acc t : List (String × String)} (h : loadAirlines f (pre ++ rest) acc = .ok t) :
    ∃ f2 acc2, loadAirlines f2 rest acc2 = .ok t ∧
      ∀ rest2, loadAirlines f (pre ++ rest2) acc = loadAirlines f2 rest2 acc2 := by
  induction pre generalizing f acc with
  | nil => exact ⟨f, acc, h, fun _ => rfl⟩
  | cons item pre ih =>
    rw [List.cons_append] at h
    obtain ⟨line, l3, l1, rfl, hf, g3, g1, hrest⟩ := loadAirlines_cons h
    obtain ⟨f2, acc2, h2, hall⟩ := ih hrest
    refine ⟨f2, acc2, h2, fun rest2 => ?_⟩
    rw [List.cons_append, loadAirlines_step _ _ hf g3 g1]
    exact hall rest2

theorem loadAirlines_agree {rows : List (Option (List String))} {f f2 : Nat}
    {acc1 acc2 t1 : List (String × String)}
    (P : String → Prop) (h : loadAirlines f rows acc1 = .ok t1) (hf : f2 = f ∨ f2 = 0)
    (hacc : ∀ k, P k → acc1.lookup k = acc2.lookup k) :
    ∃ t2, loadAirlines f2 rows acc2 = .ok t2 ∧ ∀ k, P k → t1.lookup k = t2.lookup k := by
  induction rows generalizing f f2 acc1 acc2 with
  | nil =>
    simp only [loadAirlines, Except.ok.injEq] at h
    subst h
    exact ⟨acc2, rfl, hacc⟩
  | cons item rest ih =>
    obtain ⟨line, l3, l1, rfl, hfl, g3, g1, hrest⟩ := loadAirlines_cons h
    have hf2 : f2 = 0 ∨ f2 = line.length := by
      rcases hf with rfl | rfl
      · exact hfl
      · exact Or.inl rfl
    rw [loadAirlines_step _ _ hf2 g3 g1]
    apply ih hrest (Or.inl rfl)
    intro k hk
    simp only [List.lookup_cons]
    cases k == l3
    · exact hacc k hk
    · rfl

theorem loadAirlines_keeps {rows : List (Option (List String))} {f : Nat}
    {acc t : List (String × String)}
    (k : String) (h : loadAirlines f rows acc = .ok t) (hacc : acc.lookup k ≠ none) :
    t.lookup k ≠ none := by
  induction rows generalizing f acc with
  | nil =>
    simp only [loadAirlines, Except.ok.injEq] at h
    subst h
    exact hacc
  | cons item rest ih =>
    obtain ⟨line, l3, l1, -, -, -, -, hrest⟩ := loadAirlines_cons h
    apply ih hrest
    simp only [List.lookup_cons]
    cases k == l3
    · exact hacc
    · simp

theorem loadAirlines_records {rows : List (Option (List String))} {f : Nat}
    {acc t : List (String × String)} (h : loadAirlines f rows acc = .ok t) :
    ∀ item ∈ rows, ∃ q, item = some q := by
  induction rows generalizing f acc with
  | nil =>
    intro item hi
    cases hi
  | cons item rest ih =>
    obtain ⟨line, l3, l1, rfl, -, -, -, hrest⟩ := loadAirlines_cons h
    intro x hx
    rcases List.mem_cons.1 hx with rfl | hx
    · exact ⟨line, rfl⟩
    · exact ih hrest x hx

theorem loadAirlines_total (rows : List (Option (List String))) (f n : Nat)
    (acc : List (String × String)) (hn : 4 ≤ n) (hf : f = 0 ∨ f = n)
    (h : ∀ item ∈ rows, ∃ q, item = some q ∧ q.length = n) :
    ∃ t, loadAirlines f rows acc = .ok t := by
  induction rows generalizing f acc with
  | nil => exact ⟨acc, rfl⟩
  | cons item rest ih =>
    obtain ⟨line, rfl, hl⟩ := h item (List.mem_cons_self _ _)
    have hf2 : f = 0 ∨ f = line.length := by rw [hl]; exact hf
    have h4 : 4 ≤ line.length := by omega
    match line, h4, hl, hf2 with
    | a :: b :: c :: d :: tl, _, hl, hf2 =>
      rw [@loadAirlines_step _ _ d b _ _ hf2 rfl rfl]
      exact ih _ _ (Or.inr hl) (fun r hr => h r (List.mem_cons_of_mem _ hr))

theorem airportOf_ok (line : List String) (a : Airport) :
    airportOf line = .ok a ↔
      line.get? 4 = some a.IATA ∧ line.get? 1 = some a.Name ∧ line.get? 2 = some a.City ∧
        line.get? 3 = some a.Country ∧ line.get? 6 = some a.Latitude ∧
        line.get? 7 = some a.Longitude ∧ line.get? 11 = some a.Timezone := by
  simp only [airportOf, bind_eq_ok, index_eq_ok, pure, Except.pure, Except.ok.injEq]
  constructor
  · rintro ⟨c, h4, l1, h1, l2, h2, l3, h3, l6, h6, l7, h7, l11, h11, rfl⟩
    exact ⟨h4, h1, h2, h3, h6, h7, h11⟩
  · rintro ⟨h4, h1, h2, h3, h6, h7, h11⟩
    exact ⟨_, h4, _, h1, _, h2, _, h3, _, h6, _, h7, _, h11, rfl⟩

theorem loadAirports_cons {f : Nat} {item : Option (List String)}
    {rest : List (Option (List String))} {acc t : List (String × Airport)}
    (h : loadAirports f (item :: rest) acc = .ok t) :
    ∃ line a, item = some line ∧ (f = 0 ∨ f = line.length) ∧ airportOf line = .ok a ∧
      loadAirports line.length rest ((a.IATA, a) :: acc) = .ok t := by
  simp only [loadAirports] at h
  cases hr : readRecord f item "Reading Airport CSV file" with
  | error e => simp [hr] at h
  | ok p =>
    obtain ⟨line, g⟩ := p
    obtain ⟨rfl, rfl, hf⟩ := (readRecord_ok _ _ _ _ _).1 hr
    simp only [hr] at h
    cases ha : airportOf line with
    | error e => simp [ha] at h
    | ok a =>
      simp only [ha] at h
      exact ⟨line, a, rfl, hf, ha, h⟩

theorem loadAirports_step {f : Nat} {line : List String} {a : Airport}
    (rest : List (Option (List String))) (acc : List (String × Airport))
    (hf : f = 0 ∨ f = line.length) (ha : airportOf line = .ok a) :
    loadAirports f (some line :: rest) acc =
      loadAirports line.length rest ((a.IATA, a) :: acc) := by
  simp only [loadAirports, readRecord_of f line _ hf, ha]

theorem loadAirports_append {f : Nat} {pre rest : List (Option (List String))}
    {acc t : List (String × Airport)} (h : loadAirports f (pre ++ rest) acc = .ok t) :
    ∃ f2 acc2, loadAirports f2 rest acc2 = .ok t := by
  induction pre generalizing f acc with
  | nil => exact ⟨f, acc, h⟩
  | cons item pre ih =>
    rw [List.cons_append] at h
    obtain ⟨line, a, rfl, hf, ha, hrest⟩ := loadAirports_cons h
    exact ih hrest

theorem loadAirports_untouched {rows : List (Option (List String))} {f : Nat}
    {acc t : List (String × Airport)}
    (c : String) (h : loadAirports f rows acc = .ok t)
    (hno : ∀ q, some q ∈ rows → q.get? 4 ≠ some c) : t.lookup c = acc.lookup c := by
  induction rows generalizing f acc with
  | nil =>
    simp only [loadAirports, Except.ok.injEq] at h
    subst h
    rfl
  | cons item rest ih =>
    obtain ⟨line, a, rfl, -, ha, hrest⟩ := loadAirports_cons h
    rw [ih hrest (fun q hq => hno q (List.mem_cons_of_mem _ hq))]
    have h4 := ((airportOf_ok line a).1 ha).1
    have hne : c ≠ a.IATA := by
      intro hc
      apply hno line (List.mem_cons_self _ _)
      rw [h4, hc]
    have hb : (c == a.IATA) = false := by simp [hne]
    simp [List.lookup_cons, hb]

theorem loadAirports_total (rows : List (Option (List String))) (f n : Nat)
    (acc : List (String × Airport)) (hn : 12 ≤ n) (hf : f = 0 ∨ f = n)
    (h : ∀ item ∈ rows, ∃ q, item = some q ∧ q.length = n) :
    ∃ t, loadAirports f rows acc = .ok t := by
  induction rows generalizing f acc with
  | nil => exact ⟨acc, rfl⟩
  | cons item rest ih =>
    obtain ⟨line, rfl, hl⟩ := h item (List.mem_cons_self _ _)
    have hf2 : f = 0 ∨ f = line.length := by rw [hl]; exact hf
    have h12 : 12 ≤ line.length := by omega
    match line, h12, hl, hf2 with
    | a0 :: a1 :: a2 :: a3 :: a4 :: a5 :: a6 :: a7 :: a8 :: a9 :: a10 :: a11 :: tl, _, hl,
      hf2 =>
      have ha : airportOf
          (a0 :: a1 :: a2 :: a3 :: a4 :: a5 :: a6 :: a7 :: a8 :: a9 :: a10 :: a11 :: tl) =
          .ok { IATA := a4, Name := a1, City := a2, Country := a3, Latitude := a6,
                Longitude := a7, Timezone := a11 } := by
        simp only [airportOf, index, List.get?_cons_succ, List.get?_cons_zero, bind,
          Except.bind, pure, Except.pure]
      rw [loadAirports_step _ _ hf2 ha]
      exact ih _ _ (Or.inr hl) (fun r hr => h r (List.mem_cons_of_mem _ hr))

theorem exists_last_row (rows : List (Option (List String))) (c : String)
    (h : ∃ q, some q ∈ rows ∧ q.get? 4 = some c) :
    ∃ pre r post, rows = pre ++ some r :: post ∧ r.get? 4 = some c ∧
      ∀ q, some q ∈ post → q.get? 4 ≠ some c := by
  induction rows with
  | nil =>
    obtain ⟨q, hq, -⟩ := h
    exact absurd hq (List.not_mem_nil _)
  | cons item rest ih =>
    by_cases hr : ∃ q, some q ∈ rest ∧ q.get? 4 = some c
    · obtain ⟨pre, r, post, e, hr4, hpost⟩ := ih hr
      exact ⟨item :: pre, r, post, by rw [e, List.cons_append], hr4, hpost⟩
    · obtain ⟨q, hq, hq4⟩ := h
      rcases List.mem_cons.1 hq with rfl | hq
      · refine ⟨[], q, rest, rfl, hq4, ?_⟩
        intro q2 hq2 h2
        exact hr ⟨q2, hq2, h2⟩
      · exact absurd ⟨q, hq, hq4⟩ hr

theorem loadAirports_last {pre post : List (Option (List String))} {r : List String}
    {a : Airport} {t : List (String × Airport)}
    (h : loadAirports 0 (pre ++ some r :: post) [] = .ok t)
    (ha : airportOf r = .ok a) (hlast : ∀ q, some q ∈ post → q.get? 4 ≠ some a.IATA) :
    t.lookup a.IATA = some a := by
  obtain ⟨f2, acc, hrest⟩ := loadAirports_append h
  obtain ⟨line, a2, hline, -, ha2, hpost⟩ := loadAirports_cons hrest
  simp only [Option.some.injEq] at hline
  subst hline
  rw [ha] at ha2
  simp only [Except.ok.injEq] at ha2
  subst ha2
  rw [loadAirports_untouched a.IATA hpost hlast]
  simp [List.lookup_cons]

theorem processLine_header (env : Env) (airlines : List (String × String))
    (airports : List (String × Airport)) (rest : List String) :
    processLine env airlines airports ("FL_DATE" :: rest) = .ok none := by
  simp [processLine, index, bind, Except.bind, pure, Except.pure]

theorem processLine_other (env : Env) (airlines : List (String × String))
    (airports : List (String × Airport)) (l0 : String) (rest : List String)
    (hne : l0 ≠ "FL_DATE") :
    processLine env airlines airports (l0 :: rest) =
      match transform env airlines airports (l0 :: rest) with
      | .ok (id, flight) =>
        .ok (some { Index := "flights", DocType := "_doc", OpType := "create",
                    Id := id, Doc := flight })
      | .error e => .error e := by
  simp only [processLine, index, List.get?_cons_zero, bind, Except.bind, hne, if_false]
  cases transform env airlines airports (l0 :: rest) with
  | error e => rfl
  | ok r => rfl

theorem processLine_ok {env : Env} {airlines : List (String × String)}
    {airports : List (String × Airport)} {line : List String} {r : Option BulkIndexRequest}
    (h : processLine env airlines airports line = .ok r) :
    (r = none ∧ line.get? 0 = some "FL_DATE") ∨
      (line.get? 0 ≠ some "FL_DATE" ∧ ∃ id flight,
        transform env airlines airports line = .ok (id, flight) ∧
        r = some { Index := "flights", DocType := "_doc", OpType := "create",
                   Id := id, Doc := flight }) := by
  cases line with
  | nil => simp [processLine, index, bind, Except.bind] at h
  | cons l0 rest =>
    by_cases hl : l0 = "FL_DATE"
    · subst hl
      rw [processLine_header] at h
      simp only [Except.ok.injEq] at h
      exact Or.inl ⟨h.symm, rfl⟩
    · rw [processLine_other env airlines airports l0 rest hl] at h
      right
      refine ⟨by simpa using hl, ?_⟩
      cases ht : transform env airlines airports (l0 :: rest) with
      | error e => simp [ht] at h
      | ok p =>
        obtain ⟨id, flight⟩ := p
        simp only [ht, Except.ok.injEq] at h
        exact ⟨id, flight, rfl, h.symm⟩

theorem processLines_step (env : Env) (airlines : List (String × String))
    (airports : List (String × Airport)) (f : Nat) (line : List String)
    (items : List (Option (List String))) (hf : f = 0 ∨ f = line.length) :
    processLines env airlines airports f (some line :: items) =
      match processLine env airlines airports line with
      | .error e => .error e
      | .ok none => processLines env airlines airports line.length items
      | .ok (some req) =>
        match processLines env airlines airports line.length items with
        | .error e => .error e
        | .ok reqs => .ok (req :: reqs) := by
  simp only [processLines, readRecord_of f line _ hf]

theorem processLines_ok {env : Env} {airlines : List (String × String)}
    {airports : List (String × Airport)} {items : List (Option (List String))} {f : Nat}
    {reqs : List BulkIndexRequest}
    (h : processLines env airlines airports f items = .ok reqs) :
    ∃ records : List (List String), items = records.map some ∧
      List.Forall₂
        (fun r req => ∃ id flight, transform env airlines airports r = .ok (id, flight) ∧
          req = { Index := "flights", DocType := "_doc", OpType := "create",
                  Id := id, Doc := flight })
        (records.filter (fun r => decide (r.get? 0 ≠ some "FL_DATE"))) reqs := by
  induction items generalizing f reqs with
  | nil =>
    simp only [processLines, Except.ok.injEq] at h
    subst h
    exact ⟨[], rfl, List.Forall₂.nil⟩
  | cons item rest ih =>
    simp only [processLines] at h
    cases hr : readRecord f item "Reading Flight CSV file" with
    | error e => simp [hr] at h
    | ok p =>
      obtain ⟨line, g⟩ := p
      obtain ⟨rfl, rfl, hf⟩ := (readRecord_ok _ _ _ _ _).1 hr
      simp only [hr] at h
      cases hp : processLine env airlines airports line with
      | error e => simp [hp] at h
      | ok r =>
        rcases processLine_ok hp with ⟨rfl, hhead⟩ | ⟨hhead, id, flight, ht, rfl⟩
        · simp only [hp] at h
          obtain ⟨records, e, hall⟩ := ih h
          refine ⟨line :: records, by rw [e]; rfl, ?_⟩
          rw [List.filter_cons_of_neg (by simpa using hhead)]
          exact hall
        · simp only [hp] at h
          cases hrest : processLines env airlines airports line.length rest with
          | error e => simp [hrest] at h
          | ok more =>
            simp only [hrest, Except.ok.injEq] at h
            subst h
            obtain ⟨records, e, hall⟩ := ih hrest
            refine ⟨line :: records, by rw [e]; rfl, ?_⟩
            rw [List.filter_cons_of_pos (by simpa using hhead)]
            exact List.Forall₂.cons ⟨id, flight, ht, rfl⟩ hall

/-! ## The claims, continued -/

/-- C11 (the code departs from the claim; the defect is the one of C3): with the
same row, the same airline and airport tables and the same time-zone database, a
run on 2018-08-01 and a run on 2018-01-15 give the same identity but different
records: the offsets of the timestamps follow `time.Now()`. -/
theorem transform_depends_on_run_time :
    summerEnv.loadLocation = winterEnv.loadLocation ∧
      transform summerEnv sampleAirlines sampleAirports sampleLine ≠
        transform winterEnv sampleAirlines sampleAirports sampleLine ∧
      (transform summerEnv sampleAirlines sampleAirports sampleLine).toOption.map
          (fun r => r.1) =
        (transform winterEnv sampleAirlines sampleAirports sampleLine).toOption.map
          (fun r => r.1) ∧
      (transform summerEnv sampleAirlines sampleAirports sampleLine).toOption.map
          (fun r => r.2.ActualArrTime) = some (some "2017-01-31T14:40:00-07:00") ∧
      (transform winterEnv sampleAirlines sampleAirports sampleLine).toOption.map
          (fun r => r.2.ActualArrTime) = some (some "2017-01-31T14:40:00-08:00") := by
  refine ⟨rfl, by decide, by decide, by decide, by decide⟩

/-- C12, as stated, fails on the code: a departure delay "-5.00" (an early
departure) is stored as -5. -/
theorem negative_delay_is_stored :
    (transform summerEnv sampleAirlines sampleAirports (sampleLine.set 8 "-5.00")).toOption.map
        (fun r => r.2.DepDelayMin) = some (some (-5)) := by
  decide

/-- C12, amended: for every successfully transformed row, each present
delay-breakdown value (source fields 8, 9, 10, 13, 22-26) is a 64-bit signed
integer, the conversion `int(f)` of the `float64` of its non-blank source field; it
is non-negative when that `float64` is non-negative, finite and below 2^63, and
zero or negative when the `float64` has a minus sign. -/
theorem delay_values_are_signed_integers {env : Env} {airlines : List (String × String)}
    {airports : List (String × Airport)} {line : List String} {id : String} {flight : Flight}
    (h : transform env airlines airports line = .ok (id, flight)) :
    ∀ k ∈ delayFields, ∀ v, storedInt flight k = some v →
      ∃ s f, line.get? k = some s ∧ s ≠ "" ∧ parseFloat s = some f ∧ v = f.toInt ∧
        -(2 ^ 63 : Int) ≤ v ∧ v < (2 ^ 63 : Int) ∧
        (∀ m e, f = .finite false m e → (m : ℚ) * (2 : ℚ) ^ e < 2 ^ 63 → 0 ≤ v) ∧
        (∀ m e, f = .finite true m e → v ≤ 0) := by
  intro k hk v hv
  have hko : k ∈ optionalFields := by
    simp only [delayFields, List.mem_cons, List.mem_singleton, List.not_mem_nil,
      or_false] at hk
    rcases hk with rfl | rfl | rfl | rfl | rfl | rfl | rfl | rfl | rfl <;> decide
  obtain ⟨msg, hm⟩ := transform_optional h k hko
  obtain ⟨s, hs, hc⟩ := (optMinutes_ok line k msg _).1 hm
  rcases hc with ⟨-, hn⟩ | ⟨hb, f, hf, hsv⟩
  · rw [hn] at hv
    exact absurd hv (by simp)
  · rw [hsv] at hv
    simp only [Option.some.injEq] at hv
    subst hv
    refine ⟨s, f, hs, hb, hf, rfl, (toInt_range f).1, (toInt_range f).2, ?_, ?_⟩
    · intro m e hfe hlt
      subst hfe
      exact toInt_nonneg m e hlt
    · intro m e hfe
      subst hfe
      exact toInt_nonpos m e

/-- Witness of C12 (amended) on the sample record: the departure delay "15.00" is
stored as 15. -/
theorem delay_values_are_signed_integers_witness :
    transform summerEnv sampleAirlines sampleAirports sampleLine =
        .ok ("2017-01-31.1200.AA123.N1234.ORD.SFO", sampleFlight) ∧
      storedInt sampleFlight 8 = some 15 ∧
      ∃ s f, sampleLine.get? 8 = some s ∧ s ≠ "" ∧ parseFloat s = some f ∧
        (15 : Int) = f.toInt ∧ -(2 ^ 63 : Int) ≤ 15 ∧ (15 : Int) < (2 ^ 63 : Int) :=
  ⟨transform_sample, by decide,
   let ⟨s, f, hs, hb, hf, hv, h1, h2, _⟩ :=
     delay_values_are_signed_integers transform_sample 8 (by decide) 15 (by decide)
   ⟨s, f, hs, hb, hf, hv, h1, h2⟩⟩

/-- C17, as stated, fails on the code: a record with "FL_DATE" in front whose number
of fields is not that of the first record of the file is an error of the reader,
which ends the run. -/
theorem header_row_of_other_length_is_fatal :
    processLines summerEnv sampleAirlines sampleAirports 0
        [some sampleLine, some ["FL_DATE", "x"]] =
      .error (.exit "Reading Flight CSV file") := by
  decide

/-- C17, amended: a record that the reader returns, its number of fields being that
of the first record of the file, and whose first field is "FL_DATE" is skipped
whatever its other fields are: the loop turn gives no request and no failure, and
the loop goes on with the next record; every record that the reader returns with a
different first field is transformed: a failure of the transform ends the run, and
otherwise the create request under its identity is handed on and the loop goes on;
so the requests of a file whose loop completes are those of its records without
"FL_DATE" in front, one each, in the order of the file. -/
theorem delivered_header_row_is_skipped (env : Env) (airlines : List (String × String))
    (airports : List (String × Airport)) :
    (∀ rest, processLine env airlines airports ("FL_DATE" :: rest) = .ok none) ∧
      (∀ f rest items, f = 0 ∨ f = rest.length + 1 →
        processLines env airlines airports f (some ("FL_DATE" :: rest) :: items) =
          processLines env airlines airports (rest.length + 1) items) ∧
      (∀ f l0 rest items, l0 ≠ "FL_DATE" → f = 0 ∨ f = rest.length + 1 →
        processLines env airlines airports f (some (l0 :: rest) :: items) =
          match transform env airlines airports (l0 :: rest) with
          | .error e => .error e
          | .ok (id, flight) =>
            match processLines env airlines airports (rest.length + 1) items with
            | .error e => .error e
            | .ok reqs =>
              .ok ({ Index := "flights", DocType := "_doc", OpType := "create",
                     Id := id, Doc := flight } :: reqs)) ∧
      (∀ items reqs, processLines env airlines airports 0 items = .ok reqs →
        ∃ records : List (List String), items = records.map some ∧
          List.Forall₂
            (fun r req => ∃ id flight,
              transform env airlines airports r = .ok (id, flight) ∧
              req = { Index := "flights", DocType := "_doc", OpType := "create",
                      Id := id, Doc := flight })
            (records.filter (fun r => decide (r.get? 0 ≠ some "FL_DATE"))) reqs) := by
  refine ⟨processLine_header env airlines airports, ?_, ?_, fun items reqs h =>
    processLines_ok h⟩
  · intro f rest items hf
    rw [processLines_step env airlines airports f _ items (by simpa using hf),
      processLine_header]
    rfl
  · intro f l0 rest items hne hf
    rw [processLines_step env airlines airports f _ items (by simpa using hf),
      processLine_other env airlines airports l0 rest hne]
    cases transform env airlines airports (l0 :: rest) with
    | error e => rfl
    | ok p => rfl

/-- Witness of C17 (amended): a file of a header record of 27 fields and the sample
record gives the request of the sample record. -/
theorem delivered_header_row_is_skipped_witness :
    ((0 = 0 ∨ 0 = (sampleLine.drop 1).length + 1) ∧
        processLines summerEnv sampleAirlines sampleAirports 0
            [some ("FL_DATE" :: sampleLine.drop 1), some sampleLine] =
          .ok [sampleRequest]) ∧
      ("2017-01-31" ≠ "FL_DATE" ∧
        processLines summerEnv sampleAirlines sampleAirports 27 [some sampleLine] =
          .ok [sampleRequest]) ∧
      ∃ records : List (List String),
        [some ("FL_DATE" :: sampleLine.drop 1), some sampleLine] = records.map some ∧
        List.Forall₂
          (fun r req => ∃ id flight,
            transform summerEnv sampleAirlines sampleAirports r = .ok (id, flight) ∧
            req = { Index := "flights", DocType := "_doc", OpType := "create",
                    Id := id, Doc := flight })
          (records.filter (fun r => decide (r.get? 0 ≠ some "FL_DATE"))) [sampleRequest] :=
  ⟨⟨Or.inl rfl,
     ((delivered_header_row_is_skipped summerEnv sampleAirlines sampleAirports).2.1 0
        (sampleLine.drop 1) [some sampleLine] (Or.inl rfl)).trans (by decide)⟩,
   ⟨by decide,
     ((delivered_header_row_is_skipped summerEnv sampleAirlines sampleAirports).2.2.1 27
        "2017-01-31" (sampleLine.drop 1) [] (by decide) (Or.inr (by decide))).trans
       (by decide)⟩,
   (delivered_header_row_is_skipped summerEnv sampleAirlines sampleAirports).2.2.2
     [some ("FL_DATE" :: sampleLine.drop 1), some sampleLine] [sampleRequest] (by decide)⟩

/-- C18: the identity is not injective on its seven source fields: carrier "AA" with
number "123" and carrier "AA1" with number "23", all other fields equal, give the
same identity. -/
theorem identity_not_injective (date tail origin dest clock : String) :
    flightId [date, "AA", tail, "123", origin, dest, clock] =
        flightId [date, "AA1", tail, "23", origin, dest, clock] ∧
      [date, "AA", tail, "123", origin, dest, clock] ≠
        [date, "AA1", tail, "23", origin, dest, clock] ∧
      flightId [date, "AA", tail, "123", origin, dest, clock] =
        .ok (date ++ "." ++ clock ++ "." ++ "AA123" ++ "." ++ tail ++ "." ++ origin ++ "." ++
          dest) := by
  have e1 : ∀ x : String, x ++ "AA" ++ "123" = x ++ "AA123" := by
    intro x
    apply String.ext
    simp [String.data_append]
  have e2 : ∀ x : String, x ++ "AA1" ++ "23" = x ++ "AA123" := by
    intro x
    apply String.ext
    simp [String.data_append]
  refine ⟨?_, ?_, ?_⟩
  · show Except.ok _ = Except.ok _
    rw [e1, e2]
  · intro h
    simp at h
  · show Except.ok _ = Except.ok _
    rw [e1]

/-- C19: for every flight row whose flight-segment count (field 20) or distance
(field 21) is blank, the transform fails: `strconv.ParseFloat` rejects the empty
string and the block exits; in every record the two fields are non-blank and the
counts are the conversions `int(f)` of their `float64` values, never a default. -/
theorem blank_required_count_is_fatal (env : Env) (airlines : List (String × String))
    (airports : List (String × Airport)) (line : List String) :
    (line.get? 20 = some "" ∨ line.get? 21 = some "" →
        ∃ e, transform env airlines airports line = .error e) ∧
      (∀ k msg, line.get? k = some "" → reqCount line k msg = .error (.exit msg)) ∧
      (∀ id flight, transform env airlines airports line = .ok (id, flight) →
        (∃ s f, line.get? 20 = some s ∧ s ≠ "" ∧ parseFloat s = some f ∧
          flight.FlightSegments = f.toInt) ∧
        (∃ s f, line.get? 21 = some s ∧ s ≠ "" ∧ parseFloat s = some f ∧
          flight.DistanceBetweenAirportsMiles = f.toInt)) := by
  have succ : ∀ id flight, transform env airlines airports line = .ok (id, flight) →
      (∃ s f, line.get? 20 = some s ∧ s ≠ "" ∧ parseFloat s = some f ∧
        flight.FlightSegments = f.toInt) ∧
      (∃ s f, line.get? 21 = some s ∧ s ≠ "" ∧ parseFloat s = some f ∧
        flight.DistanceBetweenAirportsMiles = f.toInt) := by
    intro id flight h
    obtain ⟨m20, v20, h20, e20⟩ := transform_required h 20 (by decide)
    obtain ⟨m21, v21, h21, e21⟩ := transform_required h 21 (by decide)
    obtain ⟨s20, f20, g20, p20, rfl⟩ := (reqCount_ok line 20 m20 v20).1 h20
    obtain ⟨s21, f21, g21, p21, rfl⟩ := (reqCount_ok line 21 m21 v21).1 h21
    simp only [storedInt, Option.some.injEq] at e20 e21
    refine ⟨⟨s20, f20, g20, ?_, p20, e20⟩, ⟨s21, f21, g21, ?_, p21, e21⟩⟩
    · intro hb
      rw [hb, parseFloat_blank] at p20
      exact absurd p20 (by simp)
    · intro hb
      rw [hb, parseFloat_blank] at p21
      exact absurd p21 (by simp)
  refine ⟨?_, ?_, succ⟩
  · intro hb
    apply error_of_not_ok
    rintro ⟨id, flight⟩ h
    obtain ⟨⟨s20, f20, g20, n20, -⟩, ⟨s21, f21, g21, n21, -⟩⟩ := succ id flight h
    rcases hb with hb | hb
    · rw [hb] at g20
      simp only [Option.some.injEq] at g20
      exact n20 g20.symm
    · rw [hb] at g21
      simp only [Option.some.injEq] at g21
      exact n21 g21.symm
  · intro k msg hk
    have hi : index line k = .ok "" := (index_eq_ok line k "").2 hk
    simp [reqCount, hi, parseFloat_blank, bind, Except.bind]

/-- Witness of C19: the sample record with a blank flight-segment count, and with a
blank distance. -/
theorem blank_required_count_is_fatal_witness :
    ((sampleLine.set 20 "").get? 20 = some "" ∧
        transform summerEnv sampleAirlines sampleAirports (sampleLine.set 20 "") =
          .error (.exit "Converting Flight Segments to int")) ∧
      ((sampleLine.set 21 "").get? 21 = some "" ∧
        ∃ e, transform summerEnv sampleAirlines sampleAirports (sampleLine.set 21 "") =
          .error e) ∧
      (transform summerEnv sampleAirlines sampleAirports sampleLine =
          .ok ("2017-01-31.1200.AA123.N1234.ORD.SFO", sampleFlight) ∧
        ∃ s f, sampleLine.get? 20 = some s ∧ s ≠ "" ∧ parseFloat s = some f ∧
          sampleFlight.FlightSegments = f.toInt) :=
  ⟨⟨by decide, by decide⟩,
   ⟨by decide,
     (blank_required_count_is_fatal summerEnv sampleAirlines sampleAirports
       (sampleLine.set 21 "")).1 (Or.inr (by decide))⟩,
   ⟨transform_sample,
     ((blank_required_count_is_fatal summerEnv sampleAirlines sampleAirports sampleLine).2.2
       _ _ transform_sample).1⟩⟩

/-- C13, as stated, fails on the code: with a blank scheduled-departure clock the
record still holds a scheduled-departure timestamp, the empty string, because
`ScheduledDepTime` is a plain string; the blank actual-departure clock of the same
kind of row leaves its pointer `nil`. -/
theorem blank_scheduled_departure_is_empty_string :
    (transform summerEnv sampleAirlines sampleAirports (sampleLine.set 6 "")).toOption.map
        (fun r => storedTimestamp r.2 6) = some (some "") ∧
      (transform summerEnv sampleAirlines sampleAirports (sampleLine.set 7 "")).toOption.map
        (fun r => storedTimestamp r.2 7) = some none := by
  refine ⟨by decide, by decide⟩

/-- C13, amended: a blank clock value is not an error in any of the four clock
blocks; in every record a blank actual-departure, scheduled-arrival or
actual-arrival clock leaves its timestamp absent and a non-blank one gives a
present, non-empty timestamp; the scheduled-departure timestamp is a plain string
that is always written: empty for a blank clock, non-empty for a non-blank one. -/
theorem blank_clock_leaves_timestamp_unset (env : Env) (airlines : List (String × String))
    (airports : List (String × Airport)) (line : List String) :
    (∀ (zone : Zone) (date msg : String) (roll : Bool),
        clockField zone date "" msg roll = .ok none) ∧
      (∀ id flight, transform env airlines airports line = .ok (id, flight) →
        (∃ c, line.get? 6 = some c ∧ (c = "" → flight.ScheduledDepTime = "") ∧
          (c ≠ "" → flight.ScheduledDepTime ≠ "")) ∧
        ∀ k ∈ pointerClockFields, ∃ c, line.get? k = some c ∧
          (c = "" → storedTimestamp flight k = none) ∧
          (c ≠ "" → ∃ ts, storedTimestamp flight k = some ts ∧ ts ≠ "")) := by
  constructor
  · intro zone date msg roll
    rfl
  · intro id flight h
    obtain ⟨l0, l6, l7, l11, l12, oz, dz, origin, dest, sched, g0, g6, g7, g11, g12, -, -, -,
      -, hs, hse, ha, hsa, haa⟩ := transform_timestamps h
    constructor
    · refine ⟨l6, g6, ?_, ?_⟩
      · intro hb
        rw [hse, (clockField_present hs).1 hb]
        rfl
      · intro hb
        obtain ⟨ts, hts, hne⟩ := (clockField_present hs).2 hb
        rw [hse, hts]
        exact hne
    · intro k hk
      simp only [pointerClockFields, List.mem_cons, List.mem_singleton, List.not_mem_nil,
        or_false] at hk
      rcases hk with rfl | rfl | rfl
      · exact ⟨l7, g7, (clockField_present ha).1, (clockField_present ha).2⟩
      · exact ⟨l11, g11, (clockField_present hsa).1, (clockField_present hsa).2⟩
      · exact ⟨l12, g12, (clockField_present haa).1, (clockField_present haa).2⟩

/-- Witness of C13 (amended): the sample record with its four clock fields blank is
transformed, its three pointer timestamps are absent and its scheduled-departure
timestamp is the empty string. -/
theorem blank_clock_leaves_timestamp_unset_witness :
    (transform summerEnv sampleAirlines sampleAirports
          ((((sampleLine.set 6 "").set 7 "").set 11 "").set 12 "")).toOption.map
        (fun r => (r.2.ScheduledDepTime, r.2.ActualDepTime, r.2.ScheduledArrTime,
          r.2.ActualArrTime)) = some ("", none, none, none) ∧
      (transform summerEnv sampleAirlines sampleAirports sampleLine =
          .ok ("2017-01-31.1200.AA123.N1234.ORD.SFO", sampleFlight) ∧
        ∃ c, sampleLine.get? 7 = some c ∧
          (c ≠ "" → ∃ ts, storedTimestamp sampleFlight 7 = some ts ∧ ts ≠ "")) :=
  ⟨by decide, transform_sample,
   let ⟨c, hc, _, hp⟩ :=
     ((blank_clock_leaves_timestamp_unset summerEnv sampleAirlines sampleAirports
       sampleLine).2 _ _ transform_sample).2 7 (by decide)
   ⟨c, hc, hp⟩⟩

/-- C14, as stated, fails on the code: an airline record with a blank carrier code
is inserted, under the empty code. -/
theorem blank_airline_code_gets_an_entry :
    (loadAirlines 0
        [some sampleAirlineRecord, some blankCodeRecord] []).toOption.map
        (fun t => (t.lookup "", t.lookup "AA")) =
      some (some "Private flight", some "American Airlines") := by
  decide

/-- C14, amended: an airline record with a blank carrier code (field 3) that the
reader returns, its number of fields being that of the first record of the file, is
not an error: the loop inserts it like every other record and goes on, so that
after loading the table has an entry under the empty code, and the entries of all
other codes are the same as if that record had been omitted. -/
theorem blank_airline_code_is_inserted (pre post : List (Option (List String)))
    (r : List String) (name : String) (h3 : r.get? 3 = some "") (h1 : r.get? 1 = some name) :
    (∀ f rest acc, f = 0 ∨ f = r.length →
        loadAirlines f (some r :: rest) acc =
          loadAirlines r.length rest (("", name) :: acc)) ∧
      (∀ t, loadAirlines 0 (pre ++ some r :: post) [] = .ok t →
        t.lookup "" ≠ none ∧
        ∃ t2, loadAirlines 0 (pre ++ post) [] = .ok t2 ∧
          ∀ k, k ≠ "" → t.lookup k = t2.lookup k) ∧
      (∀ t2, loadAirlines 0 (pre ++ post) [] = .ok t2 →
        (∀ q, some q ∈ pre ++ post → q.length = r.length) →
        ∃ t, loadAirlines 0 (pre ++ some r :: post) [] = .ok t) ∧
      ((∀ item ∈ pre ++ some r :: post, ∃ q, item = some q ∧ q.length = r.length) →
        ∃ t, loadAirlines 0 (pre ++ some r :: post) [] = .ok t) := by
  have hr4 : 4 ≤ r.length := by
    by_contra hlt
    rw [List.get?_eq_none.2 (by omega)] at h3
    cases h3
  have total : (∀ item ∈ pre ++ some r :: post, ∃ q, item = some q ∧ q.length = r.length) →
      ∃ t, loadAirlines 0 (pre ++ some r :: post) [] = .ok t :=
    fun h => loadAirlines_total _ 0 r.length [] hr4 (Or.inl rfl) h
  refine ⟨?_, ?_, ?_, total⟩
  · intro f rest acc hf
    exact loadAirlines_step rest acc hf h3 h1
  · intro t h
    obtain ⟨f2, acc2, hrest, hpre⟩ := loadAirlines_append h
    obtain ⟨line, l3, l1, hline, hf2, g3, g1, hpost⟩ := loadAirlines_cons hrest
    simp only [Option.some.injEq] at hline
    subst hline
    rw [h3] at g3
    rw [h1] at g1
    simp only [Option.some.injEq] at g3 g1
    subst g3 g1
    constructor
    · exact loadAirlines_keeps "" hpost (by simp)
    · obtain ⟨t2, ht2, hagree⟩ := @loadAirlines_agree post r.length f2 _ acc2 _
        (fun k => k ≠ "") hpost
        (by
          rcases hf2 with h0 | h0
          · exact Or.inr h0
          · exact Or.inl h0)
        (by
          intro k hk
          have hb : (k == "") = false := by simp [hk]
          simp [List.lookup_cons, hb])
      exact ⟨t2, by rw [hpre post]; exact ht2, hagree⟩
  · intro t2 h hlen
    apply total
    intro item hi
    rcases List.mem_append.1 hi with hp | hp
    · obtain ⟨q, rfl⟩ := loadAirlines_records h item (List.mem_append_left _ hp)
      exact ⟨q, rfl, hlen q (List.mem_append_left _ hp)⟩
    · rcases List.mem_cons.1 hp with rfl | hp
      · exact ⟨r, rfl, rfl⟩
      · obtain ⟨q, rfl⟩ := loadAirlines_records h item (List.mem_append_right _ hp)
        exact ⟨q, rfl, hlen q (List.mem_append_right _ hp)⟩

/-- Witness of C14 (amended): an airline table loaded from a record with code "AA"
and a record with a blank code. -/
theorem blank_airline_code_is_inserted_witness :
    blankCodeRecord.get? 3 = some "" ∧ blankCodeRecord.get? 1 = some "Private flight" ∧
      loadAirlines 0 ([some sampleAirlineRecord] ++ some blankCodeRecord :: []) [] =
        .ok [("", "Private flight"), ("AA", "American Airlines")] ∧
      ([("", "Private flight"), ("AA", "American Airlines")].lookup "" ≠ none ∧
        ∃ t2, loadAirlines 0 ([some sampleAirlineRecord] ++ []) [] = .ok t2 ∧
          ∀ k, k ≠ "" →
            [("", "Private flight"), ("AA", "American Airlines")].lookup k = t2.lookup k) ∧
      (∀ q, some q ∈ [some sampleAirlineRecord] ++ [] → q.length = blankCodeRecord.length) ∧
      ∃ t, loadAirlines 0 ([some sampleAirlineRecord] ++ some blankCodeRecord :: []) [] =
        .ok t :=
  have hlen : ∀ q, some q ∈ [some sampleAirlineRecord] ++ [] →
      q.length = blankCodeRecord.length := by
    intro q hq
    simp only [List.append_nil, List.mem_singleton, Option.some.injEq] at hq
    subst hq
    decide
  ⟨by decide, by decide, by decide,
   (blank_airline_code_is_inserted [some sampleAirlineRecord] [] blankCodeRecord
     "Private flight" (by decide) (by decide)).2.1
     [("", "Private flight"), ("AA", "American Airlines")] (by decide),
   hlen,
   (blank_airline_code_is_inserted [some sampleAirlineRecord] [] blankCodeRecord
     "Private flight" (by decide) (by decide)).2.2.1
     [("AA", "American Airlines")] (by decide) hlen⟩

/-- C15: for every airport file whose loading completes, the loaded table maps every
IATA code (field 4) that occurs in the file to the airport built from the last
record that carries the code (name, city, country, latitude, longitude and time
zone from fields 1, 2, 3, 6, 7, 11), and holds no other code; loading completes for
every file of records that all have the same number of fields, at least twelve; of
two records with the same code only the second one's metadata is retained. -/
theorem airport_last_write_wins (items : List (Option (List String))) :
    ((∃ n, 12 ≤ n ∧ ∀ item ∈ items, ∃ q, item = some q ∧ q.length = n) →
        ∃ t, loadAirports 0 items [] = .ok t) ∧
      (∀ t, loadAirports 0 items [] = .ok t →
        (∀ c, (∃ q, some q ∈ items ∧ q.get? 4 = some c) →
          ∃ pre r post name city country lat lon tz,
            items = pre ++ some r :: post ∧ r.get? 4 = some c ∧
            (∀ q, some q ∈ post → q.get? 4 ≠ some c) ∧
            r.get? 1 = some name ∧ r.get? 2 = some city ∧ r.get? 3 = some country ∧
            r.get? 6 = some lat ∧ r.get? 7 = some lon ∧ r.get? 11 = some tz ∧
            t.lookup c = some { IATA := c, Name := name, City := city, Country := country,
                                Latitude := lat, Longitude := lon, Timezone := tz }) ∧
        (∀ c, (∀ q, some q ∈ items → q.get? 4 ≠ some c) → t.lookup c = none)) ∧
      (loadAirports 0 [some oldOrdRecord, some ordRecord] []).toOption.map
          (fun t => t.lookup "ORD") =
        some (some { IATA := "ORD", Name := "Chicago O'Hare International Airport",
                     City := "Chicago", Country := "United States", Latitude := "41.9786",
                     Longitude := "-87.9048", Timezone := "America/Chicago" }) := by
  refine ⟨?_, ?_, by decide⟩
  · rintro ⟨n, hn, h⟩
    exact loadAirports_total items 0 n [] hn (Or.inl rfl) h
  intro t h
  constructor
  · intro c hc
    obtain ⟨pre, r, post, e, hr4, hpost⟩ := exists_last_row items c hc
    subst e
    obtain ⟨f2, acc, hrest⟩ := loadAirports_append h
    obtain ⟨line, a, hline, -, ha, -⟩ := loadAirports_cons hrest
    simp only [Option.some.injEq] at hline
    subst hline
    obtain ⟨g4, g1, g2, g3, g6, g7, g11⟩ := (airportOf_ok r a).1 ha
    have hc4 : a.IATA = c := by
      rw [hr4] at g4
      simp only [Option.some.injEq] at g4
      exact g4.symm
    have hl := loadAirports_last h ha (by rw [hc4]; exact hpost)
    rw [hc4] at hl
    refine ⟨pre, r, post, a.Name, a.City, a.Country, a.Latitude, a.Longitude, a.Timezone,
      rfl, hr4, hpost, g1, g2, g3, g6, g7, g11, ?_⟩
    rw [hl, ← hc4]
  · intro c hno
    rw [loadAirports_untouched c h hno]
    rfl

/-- Witness of C15: the sample airport table is what the loop loads from two
records of twelve fields. -/
theorem airport_last_write_wins_witness :
    (∃ n, 12 ≤ n ∧ ∀ item ∈ [some ordRecord, some sfoRecord],
        ∃ q, item = some q ∧ q.length = n) ∧
      (loadAirports 0 [some ordRecord, some sfoRecord] []).toOption.map
          (fun t => (t.lookup "ORD", t.lookup "SFO")) =
        some (sampleAirports.lookup "ORD", sampleAirports.lookup "SFO") ∧
      ∃ t, loadAirports 0 [some ordRecord, some sfoRecord] [] = .ok t :=
  have hyp : ∃ n, 12 ≤ n ∧ ∀ item ∈ [some ordRecord, some sfoRecord],
      ∃ q, item = some q ∧ q.length = n := by
    refine ⟨12, by decide, ?_⟩
    intro item hi
    simp only [List.mem_cons, List.mem_singleton, List.not_mem_nil, or_false] at hi
    rcases hi with rfl | rfl
    · exact ⟨ordRecord, rfl, by decide⟩
    · exact ⟨sfoRecord, rfl, by decide⟩
  ⟨hyp, by decide, (airport_last_write_wins [some ordRecord, some sfoRecord]).1 hyp⟩

/-! ## Range errors -/

theorem index_of_lt {line : List String} {k : Nat} (h : k < line.length) :
    ∃ s, index line k = .ok s ∧ line.get? k = some s := by
  refine ⟨line.get ⟨k, h⟩, ?_, List.get?_eq_get h⟩
  unfold index
  rw [List.get?_eq_get h]

theorem bind_ne_panic {α β : Type} (x : Except Failure α) (f : α → Except Failure β)
    (hx : x ≠ .error .panic) (hf : ∀ a, x = .ok a → f a ≠ .error .panic) :
    (x >>= f) ≠ .error .panic := by
  cases x with
  | error e =>
    cases e with
    | exit msg => simp [bind, Except.bind]
    | panic => exact absurd rfl hx
  | ok a => exact hf a rfl


theorem length_le_flatMap (cs : List Char) :
    cs.length ≤ (cs.flatMap String.utf8EncodeChar).length := by
  induction cs with
  | nil => simp
  | cons c cs ih =>
    have hc : 1 ≤ (String.utf8EncodeChar c).length := by
      rw [String.length_utf8EncodeChar]
      exact Char.utf8Size_pos c
    simp only [List.flatMap_cons, List.length_append, List.length_cons]
    omega

theorem length_le_bytes (s : String) : s.length ≤ (bytes s).length :=
  length_le_flatMap s.data

theorem rollover_length {c : String} (h : 2 ≤ (bytes c).length) :
    2 ≤ (bytes (rollover c)).length := by
  unfold rollover
  split_ifs
  · decide
  · exact h

theorem timestamp_ne_panic (zone : Zone) (date clock msg : String)
    (h : 2 ≤ (bytes clock).length) : timestamp zone date clock msg ≠ .error .panic := by
  unfold timestamp
  rw [if_neg (by omega)]
  cases parseTime (isoTime zone date clock) <;> simp

theorem clockField_ne_panic (zone : Zone) (date clock msg : String) (roll : Bool)
    (h : clock = "" ∨ 2 ≤ clock.length) : clockField zone date clock msg roll ≠ .error .panic := by
  unfold clockField
  by_cases hb : clock = ""
  · simp [hb]
  · have h2 : 2 ≤ (bytes clock).length := by
      rcases h with h | h
      · exact absurd h hb
      · exact le_trans h (length_le_bytes clock)
    have h3 : 2 ≤ (bytes (if roll then rollover clock else clock)).length := by
      cases roll
      · exact h2
      · exact rollover_length h2
    have h4 := timestamp_ne_panic zone date (if roll then rollover clock else clock) msg h3
    rw [if_pos hb]
    cases ht : timestamp zone date (if roll then rollover clock else clock) msg with
    | error e =>
      rw [ht] at h4
      simpa using h4
    | ok t => simp

theorem zoneNow_ne_panic (env : Env) (tz : String) : zoneNow env tz ≠ .error .panic := by
  unfold zoneNow
  cases env.loadLocation tz <;> simp

theorem optMinutes_ne_panic {line : List String} {k : Nat} (msg : String)
    (hk : k < line.length) : optMinutes line k msg ≠ .error .panic := by
  obtain ⟨s, hs, -⟩ := index_of_lt hk
  unfold optMinutes
  rw [hs]
  show (if s ≠ "" then _ else _) ≠ _
  split_ifs
  · cases parseFloat s <;> simp
  · simp

theorem reqCount_ne_panic {line : List String} {k : Nat} (msg : String)
    (hk : k < line.length) : reqCount line k msg ≠ .error .panic := by
  obtain ⟨s, hs, -⟩ := index_of_lt hk
  unfold reqCount
  rw [hs]
  show (match parseFloat s with | none => _ | some f => _) ≠ _
  cases parseFloat s <;> simp

theorem boolFlag_ne_panic {line : List String} {k : Nat} (m1 m2 : String)
    (hk : k < line.length) : boolFlag line k m1 m2 ≠ .error .panic := by
  obtain ⟨s, hs, -⟩ := index_of_lt hk
  unfold boolFlag
  rw [hs]
  show (match parseFloat s with | none => _ | some f => _) ≠ _
  cases parseFloat s with
  | none => simp
  | some f => 
    show (match parseBool (sprintf0f f) with | none => _ | some f => _) ≠ _
    cases parseBool (sprintf0f f) <;> simp

theorem index_ne_panic {line : List String} {k : Nat} (hk : k < line.length) :
    index line k ≠ .error .panic := by
  obtain ⟨s, hs, -⟩ := index_of_lt hk
  rw [hs]
  simp

theorem pure_ne_panic {α : Type} (a : α) : (pure a : Except Failure α) ≠ .error .panic := by
  simp [pure, Except.pure]

theorem flightId_ne_panic {line : List String} (h : 27 ≤ line.length) :
    flightId line ≠ .error .panic := by
  unfold flightId
  refine bind_ne_panic _ _ (index_ne_panic (by omega)) fun l0 _ => ?_
  refine bind_ne_panic _ _ (index_ne_panic (by omega)) fun l6 _ => ?_
  refine bind_ne_panic _ _ (index_ne_panic (by omega)) fun l1 _ => ?_
  refine bind_ne_panic _ _ (index_ne_panic (by omega)) fun l3 _ => ?_
  refine bind_ne_panic _ _ (index_ne_panic (by omega)) fun l2 _ => ?_
  refine bind_ne_panic _ _ (index_ne_panic (by omega)) fun l4 _ => ?_
  refine bind_ne_panic _ _ (index_ne_panic (by omega)) fun l5 _ => ?_
  exact pure_ne_panic _

theorem headBlock_ne_panic (airlines : List (String × String)) {line : List String}
    (h : 27 ≤ line.length) : headBlock airlines line ≠ .error .panic := by
  unfold headBlock
  refine bind_ne_panic _ _ (index_ne_panic (by omega)) fun l1 _ => ?_
  refine bind_ne_panic _ _ (index_ne_panic (by omega)) fun l2 _ => ?_
  refine bind_ne_panic _ _ (index_ne_panic (by omega)) fun l3 _ => ?_
  exact pure_ne_panic _

theorem originBlock_ne_panic (env : Env) (airports : List (String × Airport))
    {line : List String} (h : 27 ≤ line.length)
    (h6 : ∀ c, line.get? 6 = some c → c = "" ∨ 2 ≤ c.length)
    (h7 : ∀ c, line.get? 7 = some c → c = "" ∨ 2 ≤ c.length) :
    originBlock env airports line ≠ .error .panic := by
  unfold originBlock
  refine bind_ne_panic _ _ (index_ne_panic (by omega)) fun l4 _ => ?_
  cases airports.lookup l4 with
  | none => simp
  | some origin =>
    refine bind_ne_panic _ _ (zoneNow_ne_panic _ _) fun zone _ => ?_
    refine bind_ne_panic _ _ (index_ne_panic (by omega)) fun l6 g6 => ?_
    refine bind_ne_panic _ _ (index_ne_panic (by omega)) fun l0 _ => ?_
    refine bind_ne_panic _ _
      (clockField_ne_panic _ _ _ _ _ (h6 l6 ((index_eq_ok line 6 l6).1 g6))) fun s _ => ?_
    refine bind_ne_panic _ _ (index_ne_panic (by omega)) fun l7 g7 => ?_
    refine bind_ne_panic _ _
      (clockField_ne_panic _ _ _ _ _ (h7 l7 ((index_eq_ok line 7 l7).1 g7))) fun a _ => ?_
    exact pure_ne_panic _

theorem destBlock_ne_panic (env : Env) (airports : List (String × Airport))
    {line : List String} (h : 27 ≤ line.length)
    (h11 : ∀ c, line.get? 11 = some c → c = "" ∨ 2 ≤ c.length)
    (h12 : ∀ c, line.get? 12 = some c → c = "" ∨ 2 ≤ c.length) :
    destBlock env airports line ≠ .error .panic := by
  unfold destBlock
  refine bind_ne_panic _ _ (index_ne_panic (by omega)) fun l5 _ => ?_
  cases airports.lookup l5 with
  | none => simp
  | some dest =>
    refine bind_ne_panic _ _ (zoneNow_ne_panic _ _) fun zone _ => ?_
    refine bind_ne_panic _ _ (index_ne_panic (by omega)) fun l11 g11 => ?_
    refine bind_ne_panic _ _ (index_ne_panic (by omega)) fun l0 _ => ?_
    refine bind_ne_panic _ _
      (clockField_ne_panic _ _ _ _ _ (h11 l11 ((index_eq_ok line 11 l11).1 g11))) fun s _ => ?_
    refine bind_ne_panic _ _ (index_ne_panic (by omega)) fun l12 g12 => ?_
    refine bind_ne_panic _ _
      (clockField_ne_panic _ _ _ _ _ (h12 l12 ((index_eq_ok line 12 l12).1 g12))) fun a _ => ?_
    exact pure_ne_panic _

theorem cancelationReason_ne_panic {line : List String} (h : 27 ≤ line.length) :
    cancelationReason line ≠ .error .panic := by
  unfold cancelationReason
  refine bind_ne_panic _ _ (index_ne_panic (by omega)) fun l15 _ => ?_
  split_ifs <;> exact pure_ne_panic _

theorem delayBlock_ne_panic {line : List String} (h : 27 ≤ line.length) :
    delayBlock line ≠ .error .panic := by
  unfold delayBlock
  refine bind_ne_panic _ _ (optMinutes_ne_panic _ (by omega)) fun _ _ => ?_
  refine bind_ne_panic _ _ (optMinutes_ne_panic _ (by omega)) fun _ _ => ?_
  refine bind_ne_panic _ _ (optMinutes_ne_panic _ (by omega)) fun _ _ => ?_
  refine bind_ne_panic _ _ (optMinutes_ne_panic _ (by omega)) fun _ _ => ?_
  exact pure_ne_panic _

theorem dispositionBlock_ne_panic {line : List String} (h : 27 ≤ line.length) :
    dispositionBlock line ≠ .error .panic := by
  unfold dispositionBlock
  refine bind_ne_panic _ _ (boolFlag_ne_panic _ _ (by omega)) fun _ _ => ?_
  refine bind_ne_panic _ _ (cancelationReason_ne_panic h) fun _ _ => ?_
  refine bind_ne_panic _ _ (boolFlag_ne_panic _ _ (by omega)) fun _ _ => ?_
  exact pure_ne_panic _

theorem elapsedBlock_ne_panic {line : List String} (h : 27 ≤ line.length) :
    elapsedBlock line ≠ .error .panic := by
  unfold elapsedBlock
  refine bind_ne_panic _ _ (optMinutes_ne_panic _ (by omega)) fun _ _ => ?_
  refine bind_ne_panic _ _ (optMinutes_ne_panic _ (by omega)) fun _ _ => ?_
  refine bind_ne_panic _ _ (optMinutes_ne_panic _ (by omega)) fun _ _ => ?_
  refine bind_ne_panic _ _ (reqCount_ne_panic _ (by omega)) fun _ _ => ?_
  refine bind_ne_panic _ _ (reqCount_ne_panic _ (by omega)) fun _ _ => ?_
  exact pure_ne_panic _

theorem causeBlock_ne_panic {line : List String} (h : 27 ≤ line.length) :
    causeBlock line ≠ .error .panic := by
  unfold causeBlock
  refine bind_ne_panic _ _ (optMinutes_ne_panic _ (by omega)) fun _ _ => ?_
  refine bind_ne_panic _ _ (optMinutes_ne_panic _ (by omega)) fun _ _ => ?_
  refine bind_ne_panic _ _ (optMinutes_ne_panic _ (by omega)) fun _ _ => ?_
  refine bind_ne_panic _ _ (optMinutes_ne_panic _ (by omega)) fun _ _ => ?_
  refine bind_ne_panic _ _ (optMinutes_ne_panic _ (by omega)) fun _ _ => ?_
  exact pure_ne_panic _

theorem transform_ne_panic (env : Env) (airlines : List (String × String))
    (airports : List (String × Airport)) {line : List String} (h : 27 ≤ line.length)
    (hc : ∀ k ∈ clockFields, ∀ c, line.get? k = some c → c = "" ∨ 2 ≤ c.length) :
    transform env airlines airports line ≠ .error .panic := by
  unfold transform
  refine bind_ne_panic _ _ (flightId_ne_panic h) fun _ _ => ?_
  refine bind_ne_panic _ _ (headBlock_ne_panic _ h) fun _ _ => ?_
  refine bind_ne_panic _ _
    (originBlock_ne_panic _ _ h (hc 6 (by decide)) (hc 7 (by decide))) fun _ _ => ?_
  refine bind_ne_panic _ _
    (destBlock_ne_panic _ _ h (hc 11 (by decide)) (hc 12 (by decide))) fun _ _ => ?_
  refine bind_ne_panic _ _ (delayBlock_ne_panic h) fun _ _ => ?_
  refine bind_ne_panic _ _ (dispositionBlock_ne_panic h) fun _ _ => ?_
  refine bind_ne_panic _ _ (elapsedBlock_ne_panic h) fun _ _ => ?_
  refine bind_ne_panic _ _ (causeBlock_ne_panic h) fun _ _ => ?_
  exact pure_ne_panic _

/-- C20: a flight row that has at least 27 fields and whose four clock fields
(6, 7, 11, 12) are each blank or at least two characters long never makes the
transform index a field or slice a string out of range: the transform ends with a
record or with one of its reported fatal errors. -/
theorem transform_without_range_error (env : Env) (airlines : List (String × String))
    (airports : List (String × Airport)) (line : List String) (h : 27 ≤ line.length)
    (hc : ∀ k ∈ clockFields, ∀ c, line.get? k = some c → c = "" ∨ 2 ≤ c.length) :
    (∃ id flight, transform env airlines airports line = .ok (id, flight)) ∨
      ∃ msg, transform env airlines airports line = .error (.exit msg) := by
  have hp := transform_ne_panic env airlines airports h hc
  cases ht : transform env airlines airports line with
  | ok r => exact Or.inl ⟨r.1, r.2, rfl⟩
  | error e =>
    cases e with
    | exit msg => exact Or.inr ⟨msg, rfl⟩
    | panic => exact absurd ht hp

theorem transform_without_range_error_witness :
    27 ≤ sampleLine.length ∧
      (∀ k ∈ clockFields, ∀ c, sampleLine.get? k = some c → c = "" ∨ 2 ≤ c.length) ∧
      ((∃ id flight, transform summerEnv sampleAirlines sampleAirports sampleLine =
          .ok (id, flight)) ∨
        ∃ msg, transform summerEnv sampleAirlines sampleAirports sampleLine =
          .error (.exit msg)) :=
  have hc : ∀ k ∈ clockFields, ∀ c, sampleLine.get? k = some c → c = "" ∨ 2 ≤ c.length := by
    intro k hk c hg
    simp only [clockFields, List.mem_cons, List.mem_singleton, List.not_mem_nil, or_false] at hk
    rcases hk with rfl | rfl | rfl | rfl <;>
      · simp only [sampleLine, List.get?_cons_succ, List.get?_cons_zero, Option.some.injEq] at hg
        subst hg
        exact Or.inr (by decide)
  ⟨by decide, hc,
    transform_without_range_error summerEnv sampleAirlines sampleAirports sampleLine
      (by decide) hc⟩

/-! ## Parsing what the loop printed -/

theorem bytes_append (a b : String) : bytes (a ++ b) = bytes a ++ bytes b := by
  simp [bytes, String.data_append, List.flatMap_append]

theorem cutspace_cases (l W : List UInt8) :
    cutspace (l ++ 32 :: W) = cutspace W ∨
      ∃ x R, x ≠ 32 ∧ cutspace (l ++ 32 :: W) = x :: R ++ 32 :: W := by
  induction l with
  | nil =>
    left
    simp [cutspace]
  | cons a l ih =>
    by_cases ha : a = 32
    · subst ha
      simpa [cutspace] using ih
    · right
      exact ⟨a, l, ha, by simp [cutspace, ha]⟩

theorem cutspace_of_ne {x : UInt8} (l : List UInt8) (h : x ≠ 32) :
    cutspace (x :: l) = x :: l := by
  simp [cutspace, h]

theorem mem_cutspace {x : UInt8} (l : List UInt8) (h : x ∈ cutspace l) : x ∈ l := by
  induction l with
  | nil => simp [cutspace] at h
  | cons a l ih =>
    by_cases ha : a = 32
    · subst ha
      simp only [cutspace, if_true] at h
      exact List.mem_cons_of_mem _ (ih h)
    · simpa [cutspace, ha] using h

theorem cutspace_suffix (l : List UInt8) : cutspace l <:+ l := by
  induction l with
  | nil => simp [cutspace]
  | cons a l ih =>
    by_cases ha : a = 32
    · subst ha
      simp only [cutspace, if_true]
      exact ih.trans (List.suffix_cons _ _)
    · simp [cutspace, ha]

theorem cutspace_gap (R W : List UInt8) (n : UInt8) (hn : n ≠ 32) (hW : 32 ∈ W) :
    32 ∈ cutspace (R ++ 32 :: n :: W) := by
  induction R with
  | nil =>
    simp [cutspace, hn, hW]
  | cons r R ih =>
    by_cases hr : r = 32
    · subst hr
      simpa [cutspace] using ih
    · simp [cutspace, hr]

/-- A leading part without the byte `c`, of a list with a `c` in it, lies before that `c`. -/
theorem before_byte {c : UInt8} (p : List UInt8) (hp : c ∉ p) :
    ∀ (D W v : List UInt8), D ++ c :: W = p ++ v → ∃ D2, D = p ++ D2 ∧ v = D2 ++ c :: W := by
  induction p with
  | nil =>
    intro D W v h
    exact ⟨D, rfl, by simpa using h.symm⟩
  | cons a p ih =>
    intro D W v h
    cases D with
    | nil =>
      simp only [List.nil_append, List.cons_append, List.cons.injEq] at h
      exact absurd h.1 (by
        intro hc
        exact hp (by simp [hc]))
    | cons d D =>
      simp only [List.cons_append, List.cons.injEq] at h
      obtain ⟨D2, h1, h2⟩ := ih (fun hc => hp (List.mem_cons_of_mem _ hc)) D W v h.2
      exact ⟨D2, by simp [h.1, h1], h2⟩

theorem skipSpace_some {v r : List UInt8} (h : skipSpace v = some r) :
    r = cutspace v ∧ (v = [] ∨ ∃ t, v = 32 :: t) := by
  cases v with
  | nil =>
    simp only [skipSpace, Option.some.injEq] at h
    exact ⟨by simp [cutspace, ← h], Or.inl rfl⟩
  | cons c cs =>
    simp only [skipSpace] at h
    split_ifs at h with hc
    simp only [ne_eq, not_not] at hc
    simp only [Option.some.injEq] at h
    exact ⟨h.symm, Or.inr ⟨cs, by rw [hc]⟩⟩

theorem skipByte_some {c : UInt8} {v r : List UInt8} (h : skipByte c v = some r) :
    v = c :: r := by
  cases v with
  | nil => simp [skipByte] at h
  | cons d ds =>
    simp only [skipByte] at h
    split_ifs at h with hd
    simp only [Option.some.injEq] at h
    rw [hd, h]

theorem getnum_fixed {v r : List UInt8} {n : Nat} (h : getnum v true = some (n, r)) :
    ∃ a b, v = a :: b :: r ∧ isDigit a = true ∧ isDigit b = true ∧
      n = digitVal a * 10 + digitVal b := by
  cases v with
  | nil => simp [getnum] at h
  | cons a rest =>
    cases rest with
    | nil =>
      simp only [getnum] at h
      split_ifs at h
    | cons b rest2 =>
      simp only [getnum] at h
      split_ifs at h with ha hb
      simp only [Option.some.injEq, Prod.mk.injEq] at h
      exact ⟨a, b, by rw [h.2], ha, hb, h.1.symm⟩

theorem getnum_free {v r : List UInt8} {n : Nat} (h : getnum v false = some (n, r)) :
    (∃ a b, v = a :: b :: r ∧ isDigit a = true ∧ isDigit b = true ∧
      n = digitVal a * 10 + digitVal b) ∨
    (∃ a, v = a :: r ∧ isDigit a = true ∧ n = digitVal a ∧ ∀ b t, r = b :: t → isDigit b = false) := by
  cases v with
  | nil => simp [getnum] at h
  | cons a rest =>
    cases rest with
    | nil =>
      simp only [getnum] at h
      split_ifs at h with ha
      simp only [Bool.false_eq_true, if_false, Option.some.injEq, Prod.mk.injEq] at h
      right
      refine ⟨a, by rw [← h.2], ha, h.1.symm, ?_⟩
      intro b t hbt
      rw [← h.2] at hbt
      cases hbt
    | cons b rest2 =>
      simp only [getnum] at h
      split_ifs at h with ha hb
      · simp only [Option.some.injEq, Prod.mk.injEq] at h
        left
        exact ⟨a, b, by rw [h.2], ha, hb, h.1.symm⟩
      · simp only [Option.some.injEq, Prod.mk.injEq] at h
        right
        refine ⟨a, by rw [← h.2], ha, h.1.symm, ?_⟩
        intro b2 t hbt
        rw [← h.2] at hbt
        simp only [List.cons.injEq] at hbt
        rw [← hbt.1]
        simpa using hb

theorem isDigit_ne_space {a : UInt8} (h : isDigit a = true) : a ≠ 32 := by
  intro ha
  subst ha
  revert h
  decide

theorem isDigit_ne_colon {a : UInt8} (h : isDigit a = true) : a ≠ 58 := by
  intro ha
  subst ha
  revert h
  decide

theorem parseYear_some {v r : List UInt8} {y : Nat} (h : parseYear v = some (y, r)) :
    ∃ a b c d, v = a :: b :: c :: d :: r ∧ isDigit a = true ∧ isDigit b = true ∧
      isDigit c = true ∧ isDigit d = true ∧
      y = digitVal a * 1000 + digitVal b * 100 + digitVal c * 10 + digitVal d := by
  match v, h with
  | a :: b :: c :: d :: rest, h =>
    simp only [parseYear] at h
    split_ifs at h with hd
    simp only [Bool.and_eq_true] at hd
    simp only [Option.some.injEq, Prod.mk.injEq] at h
    exact ⟨a, b, c, d, by rw [h.2], hd.1.1.1, hd.1.1.2, hd.1.2, hd.2, h.1.symm⟩
  | [], h => simp [parseYear] at h
  | [_], h => simp [parseYear] at h
  | [_, _], h => simp [parseYear] at h
  | [_, _, _], h => simp [parseYear] at h

theorem parseDate_some {v r : List UInt8} {y m d : Nat}
    (h : parseDate v = some ((y, m, d), r)) :
    ∃ y1 y2 y3 y4 m1 m2 d1 d2,
      v = y1 :: y2 :: y3 :: y4 :: 45 :: m1 :: m2 :: 45 :: d1 :: d2 :: r ∧
      isDigit y1 = true ∧ isDigit y2 = true ∧ isDigit y3 = true ∧ isDigit y4 = true ∧
      isDigit m1 = true ∧ isDigit m2 = true ∧ isDigit d1 = true ∧ isDigit d2 = true ∧
      y = digitVal y1 * 1000 + digitVal y2 * 100 + digitVal y3 * 10 + digitVal y4 ∧
      m = digitVal m1 * 10 + digitVal m2 ∧ d = digitVal d1 * 10 + digitVal d2 := by
  unfold parseDate at h
  cases hy : parseYear v with
  | none => simp [hy] at h
  | some yr =>
    obtain ⟨year, v1⟩ := yr
    simp only [hy] at h
    cases h1 : skipByte 45 v1 with
    | none => simp [h1] at h
    | some v2 =>
      simp only [h1] at h
      cases h2 : getnum v2 true with
      | none => simp [h2] at h
      | some mr =>
        obtain ⟨month, v3⟩ := mr
        simp only [h2] at h
        split_ifs at h with hm
        cases h3 : skipByte 45 v3 with
        | none => simp [h3] at h
        | some v4 =>
          simp only [h3] at h
          cases h4 : getnum v4 true with
          | none => simp [h4] at h
          | some dr =>
            obtain ⟨day, v5⟩ := dr
            simp only [h4, Option.some.injEq, Prod.mk.injEq] at h
            obtain ⟨⟨rfl, rfl, rfl⟩, rfl⟩ := h
            obtain ⟨y1, y2, y3, y4, rfl, e1, e2, e3, e4, ey⟩ := parseYear_some hy
            have := skipByte_some h1
            subst this
            obtain ⟨m1, m2, rfl, e5, e6, em⟩ := getnum_fixed h2
            have := skipByte_some h3
            subst this
            obtain ⟨d1, d2, rfl, e7, e8, ed⟩ := getnum_fixed h4
            exact ⟨y1, y2, y3, y4, m1, m2, d1, d2, rfl, e1, e2, e3, e4, e5, e6, e7, e8, ey,
              em, ed⟩

theorem parseClock_some {v r : List UInt8} {hour min : Nat}
    (h : parseClock v = some ((hour, min), r)) :
    ∃ m1 m2, getnum v false = some (hour, 58 :: m1 :: m2 :: r) ∧
      isDigit m1 = true ∧ isDigit m2 = true ∧ min = digitVal m1 * 10 + digitVal m2 := by
  unfold parseClock at h
  cases hh : getnum v false with
  | none => simp [hh] at h
  | some hr =>
    obtain ⟨hr, v1⟩ := hr
    simp only [hh] at h
    split_ifs at h with h24
    cases h1 : skipByte 58 v1 with
    | none => simp [h1] at h
    | some v2 =>
      simp only [h1] at h
      cases h2 : getnum v2 true with
      | none => simp [h2] at h
      | some mr =>
        obtain ⟨mi, v3⟩ := mr
        simp only [h2] at h
        split_ifs at h with h60
        simp only [Option.some.injEq, Prod.mk.injEq] at h
        obtain ⟨⟨rfl, rfl⟩, rfl⟩ := h
        have := skipByte_some h1
        subst this
        obtain ⟨m1, m2, rfl, e1, e2, em⟩ := getnum_fixed h2
        exact ⟨m1, m2, rfl, e1, e2, em⟩

theorem parseNumTZ_some {v r : List UInt8} {zo : Int} (h : parseNumTZ v = some (zo, r)) :
    ∃ s a b c d hr mm, v = s :: a :: b :: c :: d :: r ∧ (s = 43 ∨ s = 45) ∧
      getnum [a, b] true = some (hr, []) ∧ getnum [c, d] true = some (mm, []) ∧
      zo = (if s = 43 then 1 else -1) * (((hr * 60 + mm) * 60 : Nat) : Int) := by
  match v, h with
  | s :: a :: b :: c :: d :: rest, h =>
    simp only [parseNumTZ] at h
    cases h1 : getnum [a, b] true with
    | none => simp [h1] at h
    | some p1 =>
      cases h2 : getnum [c, d] true with
      | none => simp [h1, h2] at h
      | some p2 =>
        obtain ⟨hr, r1⟩ := p1
        obtain ⟨mm, r2⟩ := p2
        obtain ⟨a1, b1, e1, -⟩ := getnum_fixed h1
        obtain ⟨c1, d1, e2, -⟩ := getnum_fixed h2
        simp only [List.cons.injEq, and_true] at e1 e2
        have hr1 : r1 = [] := e1.2.2.symm
        have hr2 : r2 = [] := e2.2.2.symm
        subst hr1 hr2
        simp only [h1, h2] at h
        split_ifs at h with hrange h43 h45
        · simp only [Option.some.injEq, Prod.mk.injEq] at h
          refine ⟨s, a, b, c, d, hr, mm, by rw [h.2], Or.inl h43, h1, h2, ?_⟩
          rw [if_pos h43, ← h.1]
          simp
        · simp only [Option.some.injEq, Prod.mk.injEq] at h
          refine ⟨s, a, b, c, d, hr, mm, by rw [h.2], Or.inr h45, h1, h2, ?_⟩
          rw [if_neg h43, ← h.1]
          simp
  | [], h => simp [parseNumTZ] at h
  | [_], h => simp [parseNumTZ] at h
  | [_, _], h => simp [parseNumTZ] at h
  | [_, _, _], h => simp [parseNumTZ] at h
  | [_, _, _, _], h => simp [parseNumTZ] at h

theorem leadingInt_some : ∀ (l : List UInt8) (x y : Nat) (rem : List UInt8),
    leadingInt l x = some (y, rem) → ∃ ds, l = ds ++ rem ∧ ∀ b ∈ ds, isDigit b = true := by
  intro l
  induction l with
  | nil =>
    intro x y rem h
    simp only [leadingInt, Option.some.injEq, Prod.mk.injEq] at h
    exact ⟨[], by simp [h.2], by simp⟩
  | cons c cs ih =>
    intro x y rem h
    simp only [leadingInt] at h
    split_ifs at h with hc h1 h2
    · obtain ⟨ds, hds, hall⟩ := ih _ _ _ h
      refine ⟨c :: ds, by simp [hds], ?_⟩
      intro b hb
      rcases List.mem_cons.1 hb with rfl | hb
      · exact hc
      · exact hall b hb
    · simp only [Option.some.injEq, Prod.mk.injEq] at h
      exact ⟨[], by simp [h.2], by simp⟩

theorem parseSignedOffset_take (w : List UInt8) :
    ∀ b ∈ w.take (parseSignedOffset w), b ≠ 32 ∧ b ≠ 58 := by
  cases w with
  | nil => simp [parseSignedOffset]
  | cons sign rest =>
    simp only [parseSignedOffset]
    split_ifs with hs
    · simp
    · cases hl : leadingInt rest 0 with
      | none => simp
      | some p =>
        obtain ⟨x, rem⟩ := p
        simp only []
        split_ifs with h1 h2
        · simp
        · simp
        · obtain ⟨ds, hds, hall⟩ := leadingInt_some _ _ _ _ hl
          have hlen : (sign :: rest).length - rem.length = (sign :: ds).length := by
            simp [hds]
            omega
          rw [hlen, hds]
          have ht : (sign :: (ds ++ rem)).take (sign :: ds).length = sign :: ds := by
            simp
          rw [ht]
          intro b hb
          rcases List.mem_cons.1 hb with rfl | hb
          · simp only [ne_eq, not_and_or, not_not] at hs
            rcases hs with hs | hs <;> · rw [hs]; decide
          · exact ⟨isDigit_ne_space (hall b hb), isDigit_ne_colon (hall b hb)⟩

theorem countUpper_take : ∀ (k : Nat) (v : List UInt8),
    ∀ b ∈ v.take (countUpper k v), b ≠ 32 ∧ b ≠ 58 := by
  intro k
  induction k with
  | zero =>
    intro v
    simp [countUpper]
  | succ k ih =>
    intro v
    cases v with
    | nil => simp [countUpper]
    | cons c cs =>
      simp only [countUpper]
      split_ifs with hc
      · simp
      · intro b hb
        simp only [List.take_succ_cons, List.mem_cons] at hb
        rcases hb with rfl | hb
        · constructor
          · intro h
            rw [h] at hc
            exact hc (by decide)
          · intro h
            rw [h] at hc
            exact hc (by decide)
        · exact ih cs b hb

theorem parseTimeZone_take {v : List UInt8} {n : Nat} (h : parseTimeZone v = some n) :
    ∀ b ∈ v.take n, b ≠ 32 ∧ b ≠ 58 := by
  unfold parseTimeZone at h
  by_cases h1 : v.length < 3
  · rw [if_pos h1] at h
    cases h
  rw [if_neg h1] at h
  by_cases h2 : v.take 4 = bytes "ChST" ∨ v.take 4 = bytes "MeST"
  · rw [if_pos h2] at h
    simp only [Option.some.injEq] at h
    subst h
    rcases h2 with h2 | h2 <;> · rw [h2]; decide
  rw [if_neg h2] at h
  by_cases h3 : v.take 3 = bytes "GMT"
  · rw [if_pos h3] at h
    have hg : ∀ b ∈ bytes "GMT", b ≠ 32 ∧ b ≠ 58 := by decide
    split_ifs at h with h4
    · simp only [Option.some.injEq] at h
      subst h
      rw [h3]
      exact hg
    · simp only [Option.some.injEq] at h
      subst h
      rw [List.take_add, h3]
      intro b hb
      rcases List.mem_append.1 hb with hb | hb
      · exact hg b hb
      · exact parseSignedOffset_take _ b hb
  rw [if_neg h3] at h
  by_cases h5 : v.head? = some 43 ∨ v.head? = some 45
  · rw [if_pos h5] at h
    split_ifs at h with h6
    simp only [Option.some.injEq] at h
    subst h
    exact parseSignedOffset_take v
  rw [if_neg h5] at h
  have hcu := countUpper_take 6 v
  split at h
  · rename_i hc
    split_ifs at h
    simp only [Option.some.injEq] at h
    subst h
    rw [hc] at hcu
    exact hcu
  · rename_i hc
    split_ifs at h
    simp only [Option.some.injEq] at h
    subst h
    rw [hc] at hcu
    exact hcu
  · rename_i hc
    simp only [Option.some.injEq] at h
    subst h
    rw [hc] at hcu
    exact hcu
  · simp at h

theorem parseTZ_all {v : List UInt8} {u : Bool} (h : parseTZ v = some (u, [])) :
    (∀ b ∈ v, b ≠ 32 ∧ b ≠ 58) ∧ (u = true → v = bytes "UTC") := by
  unfold parseTZ at h
  split_ifs at h with hu
  · simp only [Option.some.injEq, Prod.mk.injEq] at h
    have hv : v = bytes "UTC" := by
      rw [← List.take_append_drop 3 v, h.2, hu]
      simp
    refine ⟨?_, fun _ => hv⟩
    rw [hv]
    decide
  · cases hp : parseTimeZone v with
    | none => simp [hp] at h
    | some n =>
      simp only [hp, Option.some.injEq, Prod.mk.injEq] at h
      have hv : v = v.take n := by
        conv_lhs => rw [← List.take_append_drop n v, h.2]
        simp
      refine ⟨?_, fun hu2 => ?_⟩
      · rw [hv]
        exact parseTimeZone_take hp
      · rw [← h.1] at hu2
        cases hu2

theorem digitChar_mem (n : Nat) : Nat.digitChar (n % 10) ∈ "0123456789".data := by
  have hk : n % 10 < 10 := Nat.mod_lt _ (by decide)
  generalize n % 10 = k at hk
  interval_cases k <;> decide

theorem toDigitsCore_digits (fuel : Nat) : ∀ (n : Nat) (acc : List Char),
    (∀ c ∈ acc, c ∈ "0123456789".data) →
      ∀ c ∈ Nat.toDigitsCore 10 fuel n acc, c ∈ "0123456789".data := by
  induction fuel with
  | zero =>
    intro n acc h
    simpa [Nat.toDigitsCore] using h
  | succ f ih =>
    intro n acc h
    simp only [Nat.toDigitsCore]
    have hacc : ∀ c ∈ Nat.digitChar (n % 10) :: acc, c ∈ "0123456789".data := by
      intro c hc
      rcases List.mem_cons.1 hc with rfl | hc
      · exact digitChar_mem n
      · exact h c hc
    split_ifs with h0
    · exact hacc
    · exact ih _ _ hacc

theorem repr_digits (n : Nat) : ∀ c ∈ (Nat.repr n).data, c ∈ "0123456789".data := by
  simp only [Nat.repr, Nat.toDigits, List.asString]
  exact toDigitsCore_digits _ _ _ (by simp)

theorem repr_long (n : Nat) (h : 100 ≤ n) : 3 ≤ (Nat.repr n).data.length := by
  simp only [Nat.repr, Nat.toDigits, List.asString]
  obtain ⟨f, hf⟩ : ∃ f, n = f + 2 := ⟨n - 2, by omega⟩
  have e : n + 1 = (f + 1) + 1 + 1 := by omega
  rw [e]
  simp only [Nat.toDigitsCore]
  have h1 : ¬ n / 10 = 0 := by omega
  have h2 : ¬ n / 10 / 10 = 0 := by omega
  rw [if_neg h1, if_neg h2]
  split_ifs
  · simp
  · obtain ⟨pre, hp⟩ := toDigitsCore_suffix f (n / 10 / 10 / 10)
      [Nat.digitChar (n / 10 / 10 % 10), Nat.digitChar (n / 10 % 10), Nat.digitChar (n % 10)]
    rw [hp]
    simp

theorem bytes_of_digits : ∀ (cs : List Char), (∀ c ∈ cs, c ∈ "0123456789".data) →
    (cs.flatMap String.utf8EncodeChar).length = cs.length ∧
      ∀ b ∈ cs.flatMap String.utf8EncodeChar, isDigit b = true := by
  have hone : ∀ c ∈ "0123456789".data,
      (String.utf8EncodeChar c).length = 1 ∧ ∀ b ∈ String.utf8EncodeChar c, isDigit b = true := by
    decide
  intro cs
  induction cs with
  | nil =>
    intro _
    simp
  | cons c cs ih =>
    intro h
    obtain ⟨h1, h2⟩ := hone c (h c (List.mem_cons_self _ _))
    obtain ⟨i1, i2⟩ := ih (fun x hx => h x (List.mem_cons_of_mem _ hx))
    constructor
    · simp only [List.flatMap_cons, List.length_append, List.length_cons, h1, i1]
      omega
    · intro b hb
      simp only [List.flatMap_cons, List.mem_append] at hb
      rcases hb with hb | hb
      · exact h2 b hb
      · exact i2 b hb

theorem appendInt_data (x w : Nat) :
    (appendInt x w).data = List.replicate (w - (Nat.repr x).length) '0' ++ (Nat.repr x).data := by
  simp [appendInt, String.data_append]

theorem appendInt_chars (x w : Nat) : ∀ c ∈ (appendInt x w).data, c ∈ "0123456789".data := by
  rw [appendInt_data]
  intro c hc
  rcases List.mem_append.1 hc with hc | hc
  · rw [(List.mem_replicate.1 hc).2]
    decide
  · exact repr_digits x c hc

theorem appendInt_digits (x w : Nat) : ∀ b ∈ bytes (appendInt x w), isDigit b = true :=
  (bytes_of_digits _ (appendInt_chars x w)).2

theorem appendInt_length (x w : Nat) : w ≤ (bytes (appendInt x w)).length := by
  have h := (bytes_of_digits _ (appendInt_chars x w)).1
  unfold bytes
  rw [h, appendInt_data]
  simp only [List.length_append, List.length_replicate, String.length]
  omega

theorem appendInt_two (x : Nat) (h : (bytes (appendInt x 2)).length = 2) : x < 100 := by
  by_contra hx
  have h3 := repr_long x (by omega)
  have h1 := (bytes_of_digits _ (appendInt_chars x 2)).1
  unfold bytes at h
  rw [h1, appendInt_data] at h
  simp only [List.length_append, List.length_replicate, String.length] at h
  omega

theorem getnum_appendInt : ∀ x < 100, getnum (bytes (appendInt x 2)) true = some (x, []) := by
  decide

theorem mem_cutspace_of_ne {x : UInt8} (l : List UInt8) (hx : x ≠ 32) (h : x ∈ l) :
    x ∈ cutspace l := by
  induction l with
  | nil => cases h
  | cons a l ih =>
    by_cases ha : a = 32
    · subst ha
      simp only [cutspace, if_true]
      rcases List.mem_cons.1 h with h | h
      · exact absurd h hx
      · exact ih h
    · simpa [cutspace, ha] using h

theorem formatNumTZ_shape (off : Int) :
    ∃ sg, (sg = 43 ∨ sg = 45) ∧ (sg = 43 ↔ ¬ Int.tdiv off 60 < 0) ∧
      bytes (formatNumTZ off) =
        sg :: (bytes (appendInt ((Int.tdiv off 60).natAbs / 60) 2) ++
          bytes (appendInt ((Int.tdiv off 60).natAbs % 60) 2)) := by
  unfold formatNumTZ
  by_cases hz : Int.tdiv off 60 < 0
  · refine ⟨45, Or.inr rfl, ?_, ?_⟩
    · simp [hz]
    · simp only [hz, if_true, bytes_append]
      rfl
  · refine ⟨43, Or.inl rfl, ?_, ?_⟩
    · simp [hz]
    · simp only [hz, if_false, bytes_append]
      rfl

theorem formatNumTZ_clean (off : Int) : ∀ b ∈ bytes (formatNumTZ off), b ≠ 32 ∧ b ≠ 85 := by
  obtain ⟨sg, hsg, -, hN⟩ := formatNumTZ_shape off
  rw [hN]
  intro b hb
  rcases List.mem_cons.1 hb with rfl | hb
  · rcases hsg with h | h <;> · rw [h]; decide
  · have hd : isDigit b = true := by
      rcases List.mem_append.1 hb with hb | hb
      · exact appendInt_digits _ _ b hb
      · exact appendInt_digits _ _ b hb
    constructor
    · exact isDigit_ne_space hd
    · intro h
      rw [h] at hd
      revert hd
      decide

/-- Parsing what `Format("-0700")` printed, followed by a blank: the offset comes
back cut to whole minutes. -/
theorem numTZ_roundtrip (off : Int) (T v5 v6 : List UInt8) (zo : Int)
    (hp : parseNumTZ (bytes (formatNumTZ off) ++ 32 :: T) = some (zo, v5))
    (hs : skipSpace v5 = some v6) :
    zo = Int.tdiv off 60 * 60 ∧ v5 = 32 :: T := by
  obtain ⟨sg, hsg, hsign, hN⟩ := formatNumTZ_shape off
  obtain ⟨s, a, b, c, d, hr, mm, hv, hs43, ha, hc, hzo⟩ := parseNumTZ_some hp
  generalize hX : bytes (appendInt ((Int.tdiv off 60).natAbs / 60) 2) = X at hN
  generalize hY : bytes (appendInt ((Int.tdiv off 60).natAbs % 60) 2) = Y at hN
  have hXd : ∀ x ∈ X, isDigit x = true := by
    rw [← hX]
    exact appendInt_digits _ _
  have hYd : ∀ x ∈ Y, isDigit x = true := by
    rw [← hY]
    exact appendInt_digits _ _
  have hXl : 2 ≤ X.length := by
    rw [← hX]
    exact appendInt_length _ _
  have hYl : 2 ≤ Y.length := by
    rw [← hY]
    exact appendInt_length _ _
  rw [hN] at hv
  simp only [List.cons_append, List.cons.injEq] at hv
  obtain ⟨hsgs, hv⟩ := hv
  obtain ⟨a1, b1, e1, da, db, -⟩ := getnum_fixed ha
  obtain ⟨c1, d1, e2, dc, dd, -⟩ := getnum_fixed hc
  simp only [List.cons.injEq, and_true] at e1 e2
  obtain ⟨rfl, rfl⟩ := e1
  obtain ⟨rfl, rfl⟩ := e2
  have hq : (32 : UInt8) ∉ [a, b, c, d] := by
    intro hm
    simp only [List.mem_cons, List.mem_singleton, List.not_mem_nil, or_false] at hm
    rcases hm with h | h | h | h
    · exact isDigit_ne_space da h.symm
    · exact isDigit_ne_space db h.symm
    · exact isDigit_ne_space dc h.symm
    · exact isDigit_ne_space dd h.symm
  obtain ⟨W, hW, hv5⟩ := before_byte [a, b, c, d] hq (X ++ Y) T v5 (by simpa using hv)
  have hWnil : W = [] := by
    cases W with
    | nil => rfl
    | cons w W2 =>
      exfalso
      have hwd : isDigit w = true := by
        have hmem : w ∈ X ++ Y := by
          rw [hW]
          simp
        rcases List.mem_append.1 hmem with h | h
        · exact hXd w h
        · exact hYd w h
      rcases (skipSpace_some hs).2 with h | ⟨t, h⟩
      · rw [hv5] at h
        cases h
      · rw [hv5] at h
        simp only [List.cons_append, List.cons.injEq] at h
        exact isDigit_ne_space hwd h.1
  subst hWnil
  simp only [List.append_nil, List.nil_append] at hW hv5
  have hlen : X.length + Y.length = 4 := by
    have := congrArg List.length hW
    simpa using this
  have hX2 : X.length = 2 := by omega
  have hY2 : Y.length = 2 := by omega
  have hsplit := List.append_inj (show X ++ Y = [a, b] ++ [c, d] from hW) (by simpa using hX2)
  obtain ⟨hXe, hYe⟩ := hsplit
  have hh : (Int.tdiv off 60).natAbs / 60 < 100 := appendInt_two _ (by rw [hX]; exact hX2)
  have hm : (Int.tdiv off 60).natAbs % 60 < 100 := by omega
  have r1 := getnum_appendInt _ hh
  have r2 := getnum_appendInt _ hm
  rw [hX, hXe, ha] at r1
  rw [hY, hYe, hc] at r2
  simp only [Option.some.injEq, Prod.mk.injEq, and_true] at r1 r2
  refine ⟨?_, hv5⟩
  rw [hzo, r1, r2]
  have hz : (Int.tdiv off 60).natAbs / 60 * 60 + (Int.tdiv off 60).natAbs % 60 =
      (Int.tdiv off 60).natAbs := Nat.div_add_mod' _ _
  rw [hz]
  by_cases hneg : Int.tdiv off 60 < 0
  · have hs45 : s ≠ 43 := by
      intro h
      rw [← hsgs] at h
      exact (hsign.1 h) hneg
    rw [if_neg hs45]
    push_cast
    rw [abs_of_neg hneg]
    ring
  · have hs43b : s = 43 := by
      rw [← hsgs]
      exact hsign.2 hneg
    rw [if_pos hs43b]
    push_cast
    rw [abs_of_nonneg (not_lt.1 hneg)]
    ring

theorem parseZone_some {v r : List UInt8} {off : Int} (h : parseZone v = some (off, r)) :
    ∃ zo v5 v6 u, parseNumTZ v = some (zo, v5) ∧ skipSpace v5 = some v6 ∧
      parseTZ v6 = some (u, r) ∧ off = if u then 0 else zo := by
  unfold parseZone at h
  cases h1 : parseNumTZ v with
  | none => simp [h1] at h
  | some p =>
    obtain ⟨zo, v5⟩ := p
    simp only [h1] at h
    cases h2 : skipSpace v5 with
    | none => simp [h2] at h
    | some v6 =>
      simp only [h2] at h
      cases h3 : parseTZ v6 with
      | none => simp [h3] at h
      | some q =>
        obtain ⟨u, r2⟩ := q
        simp only [h3, Option.some.injEq, Prod.mk.injEq] at h
        obtain ⟨rfl, rfl⟩ := h
        exact ⟨zo, v5, v6, u, rfl, h2, h3, rfl⟩

theorem parseTime_some {v : List UInt8} {t : ParsedTime} (h : parseTime v = some t) :
    ∃ v1 v2 v3 v4, parseDate v = some ((t.year, t.month, t.day), v1) ∧
      skipSpace v1 = some v2 ∧ parseClock v2 = some ((t.hour, t.min), v3) ∧
      skipSpace v3 = some v4 ∧ parseZone v4 = some (t.offset, []) := by
  unfold parseTime at h
  cases h1 : parseDate v with
  | none => simp [h1] at h
  | some p =>
    obtain ⟨⟨year, month, day⟩, v1⟩ := p
    simp only [h1] at h
    cases h2 : skipSpace v1 with
    | none => simp [h2] at h
    | some v2 =>
      simp only [h2] at h
      cases h3 : parseClock v2 with
      | none => simp [h3] at h
      | some q =>
        obtain ⟨⟨hour, min⟩, v3⟩ := q
        simp only [h3] at h
        cases h4 : skipSpace v3 with
        | none => simp [h4] at h
        | some v4 =>
          simp only [h4] at h
          cases h5 : parseZone v4 with
          | none => simp [h5] at h
          | some z =>
            obtain ⟨offset, v5⟩ := z
            simp only [h5] at h
            split_ifs at h with hv hday
            simp only [ne_eq, not_not] at hv
            simp only [Option.some.injEq] at h
            subst h
            subst hv
            exact ⟨v1, v2, v3, v4, rfl, h2, h3, h4, h5⟩

/-- What `time.Parse` accepts after the minutes has no colon in it. -/
theorem tail_no_colon {v3 v4 : List UInt8} {off : Int} (h1 : skipSpace v3 = some v4)
    (h2 : parseZone v4 = some (off, [])) : (58 : UInt8) ∉ v3 := by
  intro hm
  obtain ⟨zo, v5, v6, u, hn, hs, htz, -⟩ := parseZone_some h2
  obtain ⟨s, a, b, c, d, hr, mm, hv, hs43, ha, hc, -⟩ := parseNumTZ_some hn
  obtain ⟨a1, b1, e1, da, db, -⟩ := getnum_fixed ha
  obtain ⟨c1, d1, e2, dc, dd, -⟩ := getnum_fixed hc
  simp only [List.cons.injEq, and_true] at e1 e2
  obtain ⟨rfl, rfl⟩ := e1
  obtain ⟨rfl, rfl⟩ := e2
  have h4 : (58 : UInt8) ∈ v4 := by
    rw [(skipSpace_some h1).1]
    exact mem_cutspace_of_ne _ (by decide) hm
  rw [hv] at h4
  have h5 : (58 : UInt8) ∈ v5 := by
    simp only [List.mem_cons] at h4
    rcases h4 with h | h | h | h | h | h
    · rcases hs43 with e | e <;> · rw [e] at h; exact absurd h (by decide)
    · exact absurd h.symm (isDigit_ne_colon da)
    · exact absurd h.symm (isDigit_ne_colon db)
    · exact absurd h.symm (isDigit_ne_colon dc)
    · exact absurd h.symm (isDigit_ne_colon dd)
    · exact h
  have h6 : (58 : UInt8) ∈ v6 := by
    rw [(skipSpace_some hs).1]
    exact mem_cutspace_of_ne _ (by decide) h5
  exact ((parseTZ_all htz).1 58 h6).2 rfl

/-- The zone part of `isoTime`: when `time.Parse` accepts what follows the minutes,
the offset it returns is the printed one, cut to whole minutes, or zero for an
abbreviation that ends in `UTC`. -/
theorem zone_part (zone : Zone) (B2 v4 : List UInt8) (off : Int)
    (h1 : skipSpace (B2 ++ 32 :: (bytes (formatNumTZ zone.offset) ++
      32 :: bytes (formatTZ zone))) = some v4)
    (h2 : parseZone v4 = some (off, [])) :
    off = Int.tdiv zone.offset 60 * 60 ∨
      (off = 0 ∧ bytes "UTC" <:+ bytes (formatTZ zone)) := by
  obtain ⟨zo, v5, v6, u, hn, hs, htz, hoff⟩ := parseZone_some h2
  obtain ⟨sg, hsg, -, hN⟩ := formatNumTZ_shape zone.offset
  have hsg32 : sg ≠ 32 := by
    rcases hsg with e | e <;> · rw [e]; decide
  have hv4 := (skipSpace_some h1).1
  rcases cutspace_cases B2 (bytes (formatNumTZ zone.offset) ++ 32 :: bytes (formatTZ zone))
    with hc | ⟨x, R, hx, hc⟩
  · rw [hc] at hv4
    have hcut : cutspace (bytes (formatNumTZ zone.offset) ++ 32 :: bytes (formatTZ zone)) =
        bytes (formatNumTZ zone.offset) ++ 32 :: bytes (formatTZ zone) := by
      rw [hN]
      exact cutspace_of_ne _ hsg32
    rw [hcut] at hv4
    rw [hv4] at hn
    obtain ⟨hzo, hv5⟩ := numTZ_roundtrip _ _ _ _ _ hn hs
    cases u with
    | false =>
      left
      rw [hoff, hzo]
      rfl
    | true =>
      right
      refine ⟨by rw [hoff]; rfl, ?_⟩
      have hv6 := (skipSpace_some hs).1
      rw [hv5] at hv6
      have hutc := (parseTZ_all htz).2 rfl
      rw [← hutc, hv6]
      have : cutspace (32 :: bytes (formatTZ zone)) = cutspace (bytes (formatTZ zone)) := by
        simp [cutspace]
      rw [this]
      exact cutspace_suffix _
  · exfalso
    rw [hc] at hv4
    obtain ⟨s, a, b, c, d, hr, mm, hv, hs43, ha, hcd, -⟩ := parseNumTZ_some hn
    obtain ⟨a1, b1, e1, da, db, -⟩ := getnum_fixed ha
    obtain ⟨c1, d1, e2, dc, dd, -⟩ := getnum_fixed hcd
    simp only [List.cons.injEq, and_true] at e1 e2
    obtain ⟨rfl, rfl⟩ := e1
    obtain ⟨rfl, rfl⟩ := e2
    have hq : (32 : UInt8) ∉ [s, a, b, c, d] := by
      intro hm
      simp only [List.mem_cons, List.mem_singleton, List.not_mem_nil, or_false] at hm
      rcases hm with h | h | h | h | h
      · rcases hs43 with e | e <;> · rw [e] at h; revert h; decide
      · exact isDigit_ne_space da h.symm
      · exact isDigit_ne_space db h.symm
      · exact isDigit_ne_space dc h.symm
      · exact isDigit_ne_space dd h.symm
    have heq : (x :: R) ++ 32 :: (bytes (formatNumTZ zone.offset) ++
        32 :: bytes (formatTZ zone)) = [s, a, b, c, d] ++ v5 := by
      rw [← hv4, hv]
      rfl
    obtain ⟨R2, -, hv5⟩ := before_byte [s, a, b, c, d] hq _ _ _ heq
    have hv6 := (skipSpace_some hs).1
    rw [hv5, hN] at hv6
    have hgap : (32 : UInt8) ∈ v6 := by
      rw [hv6]
      exact cutspace_gap R2 _ sg hsg32 (by simp)
    exact ((parseTZ_all htz).1 32 hgap).1 rfl

theorem isoTime_shape (zone : Zone) (date clock : String) (x1 x2 : UInt8) (B : List UInt8)
    (hc : bytes clock = x1 :: x2 :: B) :
    isoTime zone date clock = bytes date ++ 32 :: x1 :: x2 :: 58 ::
      (B ++ 32 :: (bytes (formatNumTZ zone.offset) ++ 32 :: bytes (formatTZ zone))) := by
  have hsp : bytes " " = [32] := by decide
  unfold isoTime formatNow
  rw [hc, bytes_append, bytes_append, hsp]
  simp

/-- The clock part of `isoTime`: when `time.Parse` accepts the string, the colon it
reads after the hour is the one that the loop put after the second byte of the
clock value. -/
theorem clock_part (D2 S v2 v3 v4 : List UInt8) (x1 x2 : UInt8) (hour min : Nat) (off : Int)
    (hv2 : v2 = cutspace (D2 ++ 32 :: x1 :: x2 :: 58 :: S))
    (hck : parseClock v2 = some ((hour, min), v3))
    (hs2 : skipSpace v3 = some v4) (hz : parseZone v4 = some (off, [])) :
    ∃ n1 n2, S = n1 :: n2 :: v3 ∧ isDigit n1 = true ∧ isDigit n2 = true ∧
      min = digitVal n1 * 10 + digitVal n2 ∧ isDigit x2 = true ∧
      ((x1 = 32 ∧ hour = digitVal x2) ∨
        (isDigit x1 = true ∧ hour = digitVal x1 * 10 + digitVal x2)) := by
  obtain ⟨n1, n2, hg, dn1, dn2, hmin⟩ := parseClock_some hck
  have hnc : (58 : UInt8) ∉ v3 := tail_no_colon hs2 hz
  rcases cutspace_cases D2 (x1 :: x2 :: 58 :: S) with hc | ⟨x, R, hx, hc⟩
  · rw [hc] at hv2
    by_cases h1 : x1 = 32
    · by_cases h2 : x2 = 32
      · exfalso
        have e : v2 = 58 :: S := by
          rw [hv2, h1, h2]
          simp [cutspace]
        rw [e] at hg
        rcases getnum_free hg with ⟨a, b, hv, da, -⟩ | ⟨a, hv, da, -⟩
        · simp only [List.cons.injEq] at hv
          exact isDigit_ne_colon da hv.1.symm
        · simp only [List.cons.injEq] at hv
          exact isDigit_ne_colon da hv.1.symm
      · have e : v2 = x2 :: 58 :: S := by
          rw [hv2, h1]
          simp [cutspace, h2]
        rw [e] at hg
        rcases getnum_free hg with ⟨a, b, hv, da, db, -⟩ | ⟨a, hv, da, hh, -⟩
        · exfalso
          simp only [List.cons.injEq] at hv
          exact isDigit_ne_colon db hv.2.1.symm
        · simp only [List.cons.injEq, true_and] at hv
          obtain ⟨rfl, rfl⟩ := hv
          exact ⟨n1, n2, rfl, dn1, dn2, hmin, da, Or.inl ⟨h1, hh⟩⟩
    · have e : v2 = x1 :: x2 :: 58 :: S := by
        rw [hv2]
        simp [cutspace, h1]
      rw [e] at hg
      rcases getnum_free hg with ⟨a, b, hv, da, db, hh⟩ | ⟨a, hv, da, hh, -⟩
      · simp only [List.cons.injEq, true_and] at hv
        obtain ⟨rfl, rfl, rfl⟩ := hv
        exact ⟨n1, n2, rfl, dn1, dn2, hmin, db, Or.inr ⟨da, hh⟩⟩
      · exfalso
        simp only [List.cons.injEq] at hv
        exact isDigit_ne_colon dn1 hv.2.2.1.symm
  · exfalso
    rw [hc] at hv2
    rcases getnum_free hg with ⟨a, b, hv, da, db, -⟩ | ⟨a, hv, da, -, -⟩
    · have hq : (32 : UInt8) ∉ [a, b, 58, n1, n2] := by
        intro hm
        simp only [List.mem_cons, List.mem_singleton, List.not_mem_nil, or_false] at hm
        rcases hm with h | h | h | h | h
        · exact isDigit_ne_space da h.symm
        · exact isDigit_ne_space db h.symm
        · exact absurd h (by decide)
        · exact isDigit_ne_space dn1 h.symm
        · exact isDigit_ne_space dn2 h.symm
      have heq : (x :: R) ++ 32 :: (x1 :: x2 :: 58 :: S) = [a, b, 58, n1, n2] ++ v3 := by
        rw [← hv2, hv]
        rfl
      obtain ⟨R2, -, h3⟩ := before_byte _ hq _ _ _ heq
      exact hnc (by rw [h3]; simp)
    · have hq : (32 : UInt8) ∉ [a, 58, n1, n2] := by
        intro hm
        simp only [List.mem_cons, List.mem_singleton, List.not_mem_nil, or_false] at hm
        rcases hm with h | h | h | h
        · exact isDigit_ne_space da h.symm
        · exact absurd h (by decide)
        · exact isDigit_ne_space dn1 h.symm
        · exact isDigit_ne_space dn2 h.symm
      have heq : (x :: R) ++ 32 :: (x1 :: x2 :: 58 :: S) = [a, 58, n1, n2] ++ v3 := by
        rw [← hv2, hv]
        rfl
      obtain ⟨R2, -, h3⟩ := before_byte _ hq _ _ _ heq
      exact hnc (by rw [h3]; simp)

/-- What `time.Parse` returns for the `isoTime` of a timestamp block: the calendar
date of the date field, the hour and minute of the clock field, and the printed
offset cut to whole minutes (zero for an abbreviation that ends in `UTC`). -/
theorem parseTime_isoTime (zone : Zone) (date clock : String) (t : ParsedTime)
    (hlen : 2 ≤ (bytes clock).length)
    (hp : parseTime (isoTime zone date clock) = some t) :
    fieldDate date = some (t.year, t.month, t.day) ∧
      fieldClock clock = some (t.hour, t.min) ∧
      (t.offset = Int.tdiv zone.offset 60 * 60 ∨
        (t.offset = 0 ∧ bytes "UTC" <:+ bytes (formatTZ zone))) := by
  rcases hb : bytes clock with _ | ⟨x1, _ | ⟨x2, B⟩⟩
  · rw [hb] at hlen
    simp at hlen
  · rw [hb] at hlen
    simp at hlen
  rw [isoTime_shape zone date clock x1 x2 B hb] at hp
  obtain ⟨v1, v2, v3, v4, hd, hs1, hck, hs2, hz⟩ := parseTime_some hp
  obtain ⟨y1, y2, y3, y4, m1, m2, d1, d2, hv, e1, e2, e3, e4, e5, e6, e7, e8, ey, em, ed⟩ :=
    parseDate_some hd
  have hq : (32 : UInt8) ∉ [y1, y2, y3, y4, 45, m1, m2, 45, d1, d2] := by
    intro hm
    simp only [List.mem_cons, List.mem_singleton, List.not_mem_nil, or_false] at hm
    rcases hm with h | h | h | h | h | h | h | h | h | h
    · exact isDigit_ne_space e1 h.symm
    · exact isDigit_ne_space e2 h.symm
    · exact isDigit_ne_space e3 h.symm
    · exact isDigit_ne_space e4 h.symm
    · exact absurd h (by decide)
    · exact isDigit_ne_space e5 h.symm
    · exact isDigit_ne_space e6 h.symm
    · exact absurd h (by decide)
    · exact isDigit_ne_space e7 h.symm
    · exact isDigit_ne_space e8 h.symm
  obtain ⟨D2, hD, hv1⟩ := before_byte _ hq _ _ _
    (show bytes date ++ 32 :: _ = [y1, y2, y3, y4, 45, m1, m2, 45, d1, d2] ++ v1 from hv)
  have hv2 := (skipSpace_some hs1).1
  rw [hv1] at hv2
  obtain ⟨n1, n2, hS, dn1, dn2, hmin, dx2, hhour⟩ := clock_part _ _ _ _ _ _ _ _ _ _ hv2 hck hs2 hz
  have hq2 : (32 : UInt8) ∉ [n1, n2] := by
    intro hm
    simp only [List.mem_cons, List.mem_singleton, List.not_mem_nil, or_false] at hm
    rcases hm with h | h
    · exact isDigit_ne_space dn1 h.symm
    · exact isDigit_ne_space dn2 h.symm
  obtain ⟨B2, hB, hv3⟩ := before_byte _ hq2 _ _ _
    (show B ++ 32 :: _ = [n1, n2] ++ v3 from hS)
  refine ⟨?_, ?_, ?_⟩
  · unfold fieldDate
    rw [hD]
    simp [e1, e2, e3, e4, e5, e6, e7, e8, ey, em, ed]
  · unfold fieldClock
    rw [hb, hB]
    rcases hhour with ⟨h32, hh⟩ | ⟨dx1, hh⟩
    · simp [h32, dx2, dn1, dn2, hh, hmin]
    · have hne := isDigit_ne_space dx1
      simp [dx1, hne, dx2, dn1, dn2, hh, hmin]
  · rw [hv3] at hs2
    exact zone_part zone B2 v4 t.offset hs2 hz

theorem timestamp_carries {zone : Zone} {date clock msg ts : String}
    (h : timestamp zone date clock msg = .ok ts) (hz : zone.regular) :
    ∃ year month day hour min,
      fieldDate date = some (year, month, day) ∧ fieldClock clock = some (hour, min) ∧
        ts = formatRFC3339 { year := year, month := month, day := day, hour := hour,
                             min := min, offset := zone.offset } := by
  obtain ⟨hlen, t, hp, rfl⟩ := (timestamp_ok zone date clock msg ts).1 h
  obtain ⟨hd, hc, ho⟩ := parseTime_isoTime zone date clock t hlen hp
  have hoff : t.offset = zone.offset := by
    rcases ho with ho | ⟨ho, hs⟩
    · rw [ho]
      exact Int.tdiv_mul_cancel (Int.dvd_of_emod_eq_zero hz.1)
    · rw [ho]
      unfold formatTZ at hs
      split_ifs at hs with hn
      · exact (hz.2 hs).symm
      · exfalso
        have hu : (85 : UInt8) ∈ bytes (formatNumTZ zone.offset) :=
          hs.subset (by decide)
        exact (formatNumTZ_clean _ 85 hu).2 rfl
  refine ⟨t.year, t.month, t.day, t.hour, t.min, hd, hc, ?_⟩
  rw [← hoff]

theorem clockField_carries {env : Env} {tz : String} {zone : Zone} {date clock msg : String}
    {roll : Bool} {r : Option String}
    (henv : ∀ tz loc, env.loadLocation tz = some loc → (loc env.now).regular)
    (hzone : zoneNow env tz = .ok zone)
    (h : clockField zone date clock msg roll = .ok r) (hb : clock ≠ "") :
    ∃ loc ts, env.loadLocation tz = some loc ∧ r = some ts ∧
      carries loc date (if roll then rollover clock else clock) ts := by
  obtain ⟨loc, hloc, rfl⟩ := (zoneNow_ok env tz zone).1 hzone
  rcases (clockField_ok _ date clock msg roll r).1 h with ⟨he, -⟩ | ⟨-, ts, ht, hr⟩
  · exact absurd he hb
  · obtain ⟨y, m, d, hh, mi, hd, hc, hts⟩ := timestamp_carries ht (henv tz loc hloc)
    exact ⟨loc, ts, hloc, hr, y, m, d, hh, mi, env.now, hd, hc, hts⟩

theorem sampleLocations_regular (tz : String) (loc : Int → Zone)
    (h : summerEnv.loadLocation tz = some loc) : (loc summerEnv.now).regular := by
  simp only [summerEnv, sampleLocations] at h
  split_ifs at h
  · simp only [Option.some.injEq] at h
    subst h
    exact ⟨by decide, fun hs => absurd hs (by decide)⟩
  · simp only [Option.some.injEq] at h
    subst h
    exact ⟨by decide, fun hs => absurd hs (by decide)⟩

/-! ## The timestamps -/

/-- C16, as stated, fails on the code: an actual-departure clock `2400` spells hour
24 and minute 0, and the record holds the timestamp of 23:59, which is not the
rendering of 24:00 of that day at any offset. -/
theorem rollover_changes_hour_and_minute :
    (transform summerEnv sampleAirlines sampleAirports (sampleLine.set 7 "2400")).toOption.map
        (fun r => storedTimestamp r.2 7) = some (some "2017-01-31T23:59:00-05:00") ∧
      fieldClock "2400" = some (24, 0) ∧
      ¬ carries chicago "2017-01-31" "2400" "2017-01-31T23:59:00-05:00" := by
  refine ⟨by decide, by decide, ?_⟩
  rintro ⟨y, m, d, hh, mi, t, hd, hc, hts⟩
  have hd2 : fieldDate "2017-01-31" = some (2017, 1, 31) := by decide
  have hc2 : fieldClock "2400" = some (24, 0) := by decide
  rw [hd2] at hd
  rw [hc2] at hc
  simp only [Option.some.injEq, Prod.mk.injEq] at hd hc
  obtain ⟨rfl, rfl, rfl⟩ := hd
  obtain ⟨rfl, rfl⟩ := hc
  have hpre : appendInt 2017 4 ++ "-" ++ appendInt 1 2 ++ "-" ++ appendInt 31 2 ++ "T" ++
      appendInt 24 2 ++ ":" ++ appendInt 0 2 ++ ":" ++ appendInt 0 2 =
      "2017-01-31T24:00:00" := by decide
  unfold formatRFC3339 at hts
  simp only [] at hts
  rw [hpre] at hts
  have h13 := congrArg (fun s => s.data.take 13) hts
  simp [String.data_append] at h13

/-- C16, amended: in every record, each of the four timestamps of a non-blank clock
is the RFC 3339 rendering of the calendar date of the date field, of the hour and
minute of the clock field, where `2400` counts as `2359` in the actual-departure,
scheduled-arrival and actual-arrival fields, and of a UTC offset that the timezone
of the airport observes: the origin airport for the two departure timestamps, the
destination airport for the two arrival timestamps. The zones in force at the
time of the run are taken to be regular. -/
theorem timestamps_carry_date_clock_offset (env : Env) (airlines : List (String × String))
    (airports : List (String × Airport)) (line : List String) (id : String) (flight : Flight)
    (henv : ∀ tz loc, env.loadLocation tz = some loc → (loc env.now).regular)
    (h : transform env airlines airports line = .ok (id, flight)) :
    ∃ date, line.get? 0 = some date ∧
      ∀ k ∈ clockFields, ∃ c, line.get? k = some c ∧
        (c ≠ "" → ∃ code airport loc ts,
          line.get? (if k ≤ 7 then 4 else 5) = some code ∧
          airports.lookup code = some airport ∧
          env.loadLocation airport.Timezone = some loc ∧
          storedTimestamp flight k = some ts ∧
          carries loc date (if k = 6 then c else rollover c) ts) := by
  obtain ⟨l0, l6, l7, l11, l12, oz, dz, origin, dest, sched, g0, g6, g7, g11, g12,
    ⟨l4, g4, gl4⟩, ⟨l5, g5, gl5⟩, hoz, hdz, hs, hse, ha, hsa, haa⟩ := transform_timestamps h
  refine ⟨l0, g0, ?_⟩
  intro k hk
  simp only [clockFields, List.mem_cons, List.mem_singleton, List.not_mem_nil, or_false] at hk
  rcases hk with rfl | rfl | rfl | rfl
  · refine ⟨l6, g6, fun hb => ?_⟩
    obtain ⟨loc, ts, hloc, hr, hcar⟩ := clockField_carries henv hoz hs hb
    refine ⟨l4, origin, loc, ts, g4, gl4, hloc, ?_, hcar⟩
    show some flight.ScheduledDepTime = some ts
    rw [hse, hr]
    rfl
  · refine ⟨l7, g7, fun hb => ?_⟩
    obtain ⟨loc, ts, hloc, hr, hcar⟩ := clockField_carries henv hoz ha hb
    exact ⟨l4, origin, loc, ts, g4, gl4, hloc, hr, hcar⟩
  · refine ⟨l11, g11, fun hb => ?_⟩
    obtain ⟨loc, ts, hloc, hr, hcar⟩ := clockField_carries henv hdz hsa hb
    exact ⟨l5, dest, loc, ts, g5, gl5, hloc, hr, hcar⟩
  · refine ⟨l12, g12, fun hb => ?_⟩
    obtain ⟨loc, ts, hloc, hr, hcar⟩ := clockField_carries henv hdz haa hb
    exact ⟨l5, dest, loc, ts, g5, gl5, hloc, hr, hcar⟩

/-- Witness of C16 (amended): the zones of the sample run are regular, the sample
record is transformed, and its four timestamps carry the date, the clock and an
offset of the airport's timezone. -/
theorem timestamps_carry_date_clock_offset_witness :
    (∀ tz loc, summerEnv.loadLocation tz = some loc → (loc summerEnv.now).regular) ∧
      transform summerEnv sampleAirlines sampleAirports sampleLine =
        .ok ("2017-01-31.1200.AA123.N1234.ORD.SFO", sampleFlight) ∧
      ∃ date, sampleLine.get? 0 = some date ∧
        ∀ k ∈ clockFields, ∃ c, sampleLine.get? k = some c ∧
          (c ≠ "" → ∃ code airport loc ts,
            sampleLine.get? (if k ≤ 7 then 4 else 5) = some code ∧
            sampleAirports.lookup code = some airport ∧
            summerEnv.loadLocation airport.Timezone = some loc ∧
            storedTimestamp sampleFlight k = some ts ∧
            carries loc date (if k = 6 then c else rollover c) ts) :=
  ⟨sampleLocations_regular, transform_sample,
    timestamps_carry_date_clock_offset summerEnv sampleAirlines sampleAirports sampleLine
      "2017-01-31.1200.AA123.N1234.ORD.SFO" sampleFlight sampleLocations_regular
      transform_sample⟩

end Flights
